import Mathlib

/-!
# DsaInfo: deterministic summary of a points-to graph

Shallow embedding of `src/src/DsaInfo.cc` (class `DsaInfo` of sea-dsa).

Modelling conventions.

* C++ objects that `DsaInfo` only reads (`llvm::Value`, `sea_dsa::Node`, `Cell`, `Graph`,
  `llvm::Function`) are immutable records.  A pointer to such an object is the record itself;
  the field `addr` stands for the address, so that two objects with the same attributes are
  still two different keys.
* Containers are lists.  The order of a list is the iteration order of the container, which
  for hash containers and pointer-ordered containers may differ from run to run.
* `unsigned` identifiers and counters are natural numbers; the 32-bit wrap-around, which needs
  a registry of `2 ^ 32 - 1` allocation sites, is outside the model.
* `assert` is the checked build: a failing assertion aborts, modelled by `none`.
* `errs ()` is the field `errs` of the state, a list of diagnostics.
* The file system, the stream library and the iteration order of the `DenseMap` behind the
  export are parameters (`ExportEnv`).
-/

namespace sea_dsa

/-! ## Objects owned by the collaborators -/

/-- An `llvm::Value` as far as `DsaInfo` looks at it: its identity, its optional name, whether
its type is a pointer type (`getType ()->isPointerTy ()`) and whether it is a global value
(`isa<GlobalValue>`). -/
structure Value where
  addr : Nat
  name : Option String
  isPointerTy : Bool
  isGlobalValue : Bool
deriving DecidableEq, Repr

/-- The C++ `Value::hasName ()`. -/
def Value.hasName (v : Value) : Bool := v.name.isSome

/-- The C++ `Value::getName ()`; the empty string for an unnamed value. -/
def Value.getName (v : Value) : String := v.name.getD ""

/-- Modelled from the spec: the class `Node` of `sea_dsa/Graph.hh`, which is not part of the
sources at hand, through the accessors `DsaInfo` uses: the read flag, the modified flag, the id
given by the graph construction, and the allocation sites in the order in which
`getAllocSites ()` enumerates them. -/
structure Node where
  addr : Nat
  isRead : Bool
  isModified : Bool
  getId : Nat
  getAllocSites : List Value
deriving DecidableEq, Repr

/-- Modelled from the spec: the class `Cell` of `sea_dsa/Graph.hh`, a node and a byte offset
into it. -/
structure Cell where
  getNode : Node
  offset : Nat
deriving DecidableEq, Repr

/-- Modelled from the spec: the class `Graph` of `sea_dsa/Graph.hh` through the accessors
`DsaInfo` uses: the ranges `scalar_begin .. scalar_end`, `formal_begin .. formal_end` and
`return_begin .. return_end` (key and cell, in iteration order), and the per-value cell lookup
behind `hasCell` and `getCell` (presence and owning node). -/
structure Graph where
  addr : Nat
  scalars : List (Value × Cell)
  formals : List (Value × Cell)
  returns : List (Value × Cell)
  cells : List (Value × Cell)
deriving DecidableEq, Repr

/-! ## The canonical record of a node -/

/-- Modelled from the spec: the class `NodeWrapper` is declared in `sea_dsa/Info.hh`, which is
not part of the sources at hand.  It is the record (node reference, deterministic id,
representative name, access counter). -/
structure NodeWrapper where
  m_node : Node
  m_id : Nat
  m_rep_name : String
  m_accesses : Nat
deriving DecidableEq, Repr

/-- Modelled from the spec: the constructor call `NodeWrapper (n, id, name)` of
`sea_dsa/Info.hh`; a new wrapper has counted no access. -/
def NodeWrapper.mk3 (n : Node) (id : Nat) (name : String) : NodeWrapper :=
  { m_node := n, m_id := id, m_rep_name := name, m_accesses := 0 }

/-- Modelled from the spec: accessor `getNode ()` of `NodeWrapper`. -/
def NodeWrapper.getNode (w : NodeWrapper) : Node := w.m_node

/-- Modelled from the spec: accessor `getId ()` of `NodeWrapper`. -/
def NodeWrapper.getId (w : NodeWrapper) : Nat := w.m_id

/-- Modelled from the spec: accessor `getAccesses ()` of `NodeWrapper`. -/
def NodeWrapper.getAccesses (w : NodeWrapper) : Nat := w.m_accesses

/-- Modelled from the spec: the prefix increment `++w` of `NodeWrapper` counts one access. -/
def NodeWrapper.incr (w : NodeWrapper) : NodeWrapper :=
  { w with m_accesses := w.m_accesses + 1 }

/-- Modelled from the spec: `operator<` of `NodeWrapper`, the id-based ordering. -/
def NodeWrapper.lt (a b : NodeWrapper) : Bool := decide (a.getId < b.getId)

/-! ## The state of a `DsaInfo` object -/

/-- Diagnostics written to `errs ()`. -/
inductive Diag where
  | requiresName (v : Value)
  | noCell (v : Value)
  | noGraph (fname : String)
deriving DecidableEq, Repr

/-- The type `NodeWrapperMap`: from node to wrapper, in iteration order. -/
abbrev NodeWrapperMap := List (Node × NodeWrapper)

/-- The type `AllocSiteBiMap`: pairs (value, id), both components unique. -/
abbrev AllocSiteBiMap := List (Value × Nat)

/-- The members of `DsaInfo` that the summary reads and writes. -/
structure DsaInfo where
  m_nodes_map : NodeWrapperMap
  m_alloc_sites_bimap : AllocSiteBiMap
  m_alloc_sites_set : List Nat
  m_seen_graphs : List Graph
  errs : List Diag
deriving DecidableEq, Repr

/-- A freshly constructed `DsaInfo`: every container is empty. -/
def DsaInfo.init : DsaInfo :=
  { m_nodes_map := [], m_alloc_sites_bimap := [], m_alloc_sites_set := [],
    m_seen_graphs := [], errs := [] }

/-! ## Container operations -/

/-- The lookup `m_nodes_map.find (n)`; `none` is `end ()`. -/
def nodesFind : NodeWrapperMap → Node → Option NodeWrapper
  | [], _ => none
  | (k, w) :: m, n => if k = n then some w else nodesFind m n

/-- The call `m_nodes_map.insert (std::make_pair (n, w))`: nothing happens when the key is
present. -/
def nodesInsert (m : NodeWrapperMap) (n : Node) (w : NodeWrapper) : NodeWrapperMap :=
  match nodesFind m n with
  | some _ => m
  | none => m ++ [(n, w)]

/-- The increment `++(it->second)` at the entry found for `n`. -/
def nodesIncr : NodeWrapperMap → Node → NodeWrapperMap
  | [], _ => []
  | (k, w) :: m, n => if k = n then (k, w.incr) :: m else (k, w) :: nodesIncr m n

/-- The lookup `m_alloc_sites_bimap.left.find (v)`. -/
def leftFind : AllocSiteBiMap → Value → Option Nat
  | [], _ => none
  | (k, i) :: m, v => if k = v then some i else leftFind m v

/-- The lookup `m_alloc_sites_bimap.right.find (id)`. -/
def rightFind : AllocSiteBiMap → Nat → Option Value
  | [], _ => none
  | (k, i) :: m, id => if i = id then some k else rightFind m id

/-- The call `m_alloc_sites_bimap.insert (value_type (v, id))`: a bimap refuses a pair whose
left key or right key is present. -/
def bimapInsert (m : AllocSiteBiMap) (v : Value) (id : Nat) : AllocSiteBiMap :=
  if (leftFind m v).isSome || (rightFind m id).isSome then m else m ++ [(v, id)]

/-- The call `m_alloc_sites_set.insert (id)`. -/
def setInsert (s : List Nat) (id : Nat) : List Nat :=
  if id ∈ s then s else s ++ [id]

/-! ## Allocation-site registry and queries -/

/-- The method `DsaInfo::recordAllocSite (v, site_id)`: the returned triple is the `bool`
result, the value left in `site_id`, and the state afterwards. -/
def recordAllocSite (v : Value) (s : DsaInfo) : Bool × Nat × DsaInfo :=
  match leftFind s.m_alloc_sites_bimap v with
  | none =>
    let site_id := s.m_alloc_sites_bimap.length + 1
    (true, site_id,
      { s with m_alloc_sites_bimap := bimapInsert s.m_alloc_sites_bimap v site_id,
               m_alloc_sites_set := setInsert s.m_alloc_sites_set site_id })
  | some id => (false, id, s)

/-- The method `DsaInfo::isAccessed (n)`. -/
def isAccessed (n : Node) (s : DsaInfo) : Bool :=
  match nodesFind s.m_nodes_map n with
  | some w => decide (w.getAccesses > 0)
  | none => false

/-- The method `DsaInfo::getDsaNodeId (n)`. -/
def getDsaNodeId (n : Node) (s : DsaInfo) : Nat :=
  match nodesFind s.m_nodes_map n with
  | some w => w.getId
  | none => 0

/-- The method `DsaInfo::getAllocSiteId (V)`. -/
def getAllocSiteId (v : Value) (s : DsaInfo) : Nat :=
  match leftFind s.m_alloc_sites_bimap v with
  | some id => id
  | none => 0

/-- The method `DsaInfo::getAllocValue (alloc_site_id)`; `none` is `nullptr`. -/
def getAllocValue (id : Nat) (s : DsaInfo) : Option Value :=
  match rightFind s.m_alloc_sites_bimap id with
  | some v => some v
  | none => none

/-- The state after the calls `recordAllocSite (v, _)` for `v` in `vs`, in this order. -/
def recordAllocSites (vs : List Value) (s : DsaInfo) : DsaInfo :=
  vs.foldl (fun st v => (recordAllocSite v st).2.2) s

/-! ## Sorting -/

/-- One insertion step of `std::sort`: `x` goes in front of the first element it is smaller
than.  The comparator may abort (`none`). -/
def insertM {α : Type} (lt : α → α → Option Bool) (x : α) : List α → Option (List α)
  | [] => some [x]
  | y :: ys =>
    match lt x y with
    | none => none
    | some true => some (x :: y :: ys)
    | some false => (insertM lt x ys).map (fun r => y :: r)

/-- Insertion of the remaining elements into the sorted part `acc`, from left to right. -/
def sortLoop {α : Type} (lt : α → α → Option Bool) : List α → List α → Option (List α)
  | acc, [] => some acc
  | acc, x :: xs =>
    match insertM lt x acc with
    | none => none
    | some acc1 => sortLoop lt acc1 xs

/-- The call `std::sort (first, last, comp)` as a stable insertion sort: a range of fewer than
two elements is returned without any comparison, in a longer one every element is compared. -/
def std_sort {α : Type} (lt : α → α → Option Bool) (xs : List α) : Option (List α) :=
  sortLoop lt [] xs

/-- The comparator `compareValues (v1, v2)`: both values must have a name, otherwise the
assertion aborts; the result is the order of the names. -/
def compareValues (v1 v2 : Value) : Option Bool :=
  if !v1.hasName then none
  else if !v2.hasName then none
  else some (decide (v1.getName < v2.getName))

/-! ## Allocation-site numbering -/

/-- The predicate `DsaInfo::is_alive_node::operator()`. -/
def is_alive_node (n : NodeWrapper) : Bool :=
  n.getNode.isRead || n.getNode.isModified

/-- Modelled from the spec: the range `live_nodes ()` is declared in `sea_dsa/Info.hh`; it is
the wrappers of the node registry, in iteration order, that pass `is_alive_node`. -/
def live_nodes (s : DsaInfo) : List NodeWrapper :=
  (s.m_nodes_map.map Prod.snd).filter is_alive_node

/-- Modelled from the spec: the type `NodeWrapperSet` of `sea_dsa/Info.hh`, a set of wrappers
under the id-based ordering of `NodeWrapper`; `insert` keeps the first of two wrappers with
the same id. -/
def nodeSetInsert : List NodeWrapper → NodeWrapper → List NodeWrapper
  | [], n => [n]
  | w :: ws, n =>
    if n.lt w then n :: w :: ws
    else if w.lt n then w :: nodeSetInsert ws n
    else w :: ws

/-- The local `alloc_to_nodes_map`: from allocation site to its id and its set of nodes. -/
abbrev AllocToNodesMap := List (Value × (Nat × List NodeWrapper))

/-- The lookup `alloc_to_nodes_map.find (v)`. -/
def tableFind : AllocToNodesMap → Value → Option (Nat × List NodeWrapper)
  | [], _ => none
  | (k, e) :: m, v => if k = v then some e else tableFind m v

/-- The update `it->second.second.insert (n)` at the entry of `v`. -/
def tableAddNode : AllocToNodesMap → Value → NodeWrapper → AllocToNodesMap
  | [], _, _ => []
  | (k, e) :: m, v, n =>
    if k = v then (k, (e.1, nodeSetInsert e.2 n)) :: m else (k, e) :: tableAddNode m v n

/-- The body of the loop over the sorted allocation sites of node `n` in
`assignAllocSiteId`. -/
def recordSite (n : NodeWrapper) (st : DsaInfo × AllocToNodesMap) (v : Value) :
    DsaInfo × AllocToNodesMap :=
  let r := recordAllocSite v st.1
  let site_id := r.2.1
  match tableFind st.2 v with
  | some _ => (r.2.2, tableAddNode st.2 v n)
  | none => (r.2.2, st.2 ++ [(v, (site_id, nodeSetInsert [] n))])

/-- The loop over `nodes_sorted` in `assignAllocSiteId`. -/
def assignLoop : List NodeWrapper → DsaInfo × AllocToNodesMap → Option (DsaInfo × AllocToNodesMap)
  | [], st => some st
  | n :: ns, st =>
    match std_sort compareValues n.getNode.getAllocSites with
    | none => none
    | some n_alloca_sites_sorted => assignLoop ns (n_alloca_sites_sorted.foldl (recordSite n) st)

/-- The method `DsaInfo::assignAllocSiteId ()`: the state afterwards and the local
`alloc_to_nodes_map`, or `none` when an assertion of `compareValues` aborts.  The export to
`DsaInfoToFile` and the `LOG` output at the end of the method read `alloc_to_nodes_map` and
leave the state alone; the export is added by `assignAllocSiteIdToFile`. -/
def assignAllocSiteId (s : DsaInfo) : Option (DsaInfo × AllocToNodesMap) :=
  match std_sort (fun a b => some (a.lt b)) (live_nodes s) with
  | none => none
  | some nodes_sorted => assignLoop nodes_sorted (s, [])

/-! ## Node registration and access accounting -/

/-- Instructions as `recordMemAccesses` distinguishes them. -/
inductive Instruction where
  | load (ptr : Value)
  | store (ptr : Value)
  | memTransfer (dest : Value) (source : Value)
  | memSet (dest : Value)
  | other
deriving DecidableEq, Repr

/-- An `llvm::Function`: its name, whether it is a declaration, its instructions in the order
of `inst_begin .. inst_end`, and the graph that the analysis `m_dsa` holds for it
(`m_dsa.hasGraph (f)` and `m_dsa.getGraph (f)`), if any. -/
structure Function where
  name : String
  isDeclaration : Bool
  insts : List Instruction
  graph : Option Graph
deriving DecidableEq, Repr

/-- The LLVM services used by the access accounting: `Value::stripPointerCasts` and
`llvm::getObjectSize (v, size, dl, tli, true)` (`none` when the size is not known). -/
structure Oracle where
  stripPointerCasts : Value → Value
  getObjectSize : Value → Option Nat

/-- The function `isStaticallyKnown (dl, tli, v)`. -/
def isStaticallyKnown (o : Oracle) (v : Value) : Bool :=
  match o.getObjectSize v with
  | some size => decide (size > 0)
  | none => false

/-- The method `DsaInfo::getDsaGraph (f)`; `none` is `nullptr`. -/
def getDsaGraph (f : Function) : Option Graph := f.graph

/-- The first cell stored under the key `v`. -/
def cellFind : List (Value × Cell) → Value → Option Cell
  | [], _ => none
  | (k, c) :: m, v => if k = v then some c else cellFind m v

/-- Modelled from the spec: the accessors `g.hasCell (v)` and `g.getCell (v)` of
`sea_dsa/Graph.hh` in one lookup; `none` is `!g.hasCell (v)`. -/
def Graph.getCell (g : Graph) (v : Value) : Option Cell := cellFind g.cells v

/-- The registration of the node of one cell in `assignNodeId`. -/
def registerCell (m : NodeWrapperMap) (kv : Value × Cell) : NodeWrapperMap :=
  let n := kv.2.getNode
  nodesInsert m n (NodeWrapper.mk3 n n.getId "")

/-- The method `DsaInfo::assignNodeId (fn, g)`, the enabled branch: the nodes of the scalar,
formal and return cells are registered under the id of the node. -/
def assignNodeId (_fn : Function) (g : Graph) (s : DsaInfo) : DsaInfo :=
  let m1 := g.scalars.foldl registerCell s.m_nodes_map
  let m2 := g.formals.foldl registerCell m1
  let m3 := g.returns.foldl registerCell m2
  { s with m_nodes_map := m3 }

/-- The method `DsaInfo::recordMemAccess (v, g, I)`; the instruction `I` is not used by the
compiled code. -/
def recordMemAccess (o : Oracle) (v : Value) (g : Graph) (s : DsaInfo) : DsaInfo :=
  let v := o.stripPointerCasts v
  if isStaticallyKnown o v then s
  else
    match g.getCell v with
    | none =>
      if v.isPointerTy then { s with errs := s.errs ++ [Diag.noCell v] } else s
    | some c =>
      if v.isGlobalValue then s
      else
        let n := c.getNode
        match nodesFind s.m_nodes_map n with
        | some _ => { s with m_nodes_map := nodesIncr s.m_nodes_map n }
        | none => s

/-- The body of the loop over the instructions in `recordMemAccesses`. -/
def recordInst (o : Oracle) (g : Graph) (s : DsaInfo) : Instruction → DsaInfo
  | Instruction.load p => recordMemAccess o p g s
  | Instruction.store p => recordMemAccess o p g s
  | Instruction.memTransfer d src => recordMemAccess o src g (recordMemAccess o d g s)
  | Instruction.memSet d => recordMemAccess o d g s
  | Instruction.other => s

/-- The method `DsaInfo::recordMemAccesses (F)`. -/
def recordMemAccesses (o : Oracle) (f : Function) (s : DsaInfo) : DsaInfo :=
  match getDsaGraph f with
  | none => s
  | some g => f.insts.foldl (recordInst o g) s

/-- The method `DsaInfo::runOnFunction (f)`.  Nothing in the sources inserts into
`m_seen_graphs`. -/
def runOnFunction (o : Oracle) (f : Function) (s : DsaInfo) : DsaInfo :=
  if f.isDeclaration then s
  else
    match getDsaGraph f with
    | some g =>
      recordMemAccesses o f (if s.m_seen_graphs.count g ≤ 0 then assignNodeId f g s else s)
    | none => { s with errs := s.errs ++ [Diag.noGraph f.name] }

/-- The surroundings of the export in `assignAllocSiteId`: the command-line option
`DsaInfoToFile`, whether `raw_fd_ostream` can open a path for writing, what the stream library
makes of the text sent to a stream that could not be opened and of its `close ()` (`none` when
the library halts the process, otherwise what reaches a file; the library is not part of the
sources), and the order in which the `DenseMap` `alloc_to_nodes_map` iterates its entries (a
permutation of them that follows from the addresses of the keys). -/
structure ExportEnv where
  DsaInfoToFile : String
  canOpen : String → Bool
  unopened : String → Option (Option String)
  iterate : AllocToNodesMap → AllocToNodesMap

/-- The pairs (site id, node id) that the two loops of the export write for the entries in
iteration order; the wrappers of an entry come in the order of the set. -/
def exportRows (entries : AllocToNodesMap) : List (Nat × Nat) :=
  entries.flatMap (fun kv => kv.2.2.map (fun nodeInfo => (kv.2.1, nodeInfo.getId)))

/-- One data line of the export: `kv.second.first << "," << nodeInfo.getId () << "\n"`. -/
def rowLine (r : Nat × Nat) : String :=
  toString r.1 ++ "," ++ toString r.2 ++ "\n"

/-- The text written to the file: the header line, then the data lines. -/
def exportText (entries : AllocToNodesMap) : String :=
  "alloc_site,ds_node\n" ++ String.join ((exportRows entries).map rowLine)

/-- The method `DsaInfo::assignAllocSiteId ()` with its export: the state afterwards, the local
`alloc_to_nodes_map`, and the text written to the file `DsaInfoToFile`, `none` when no file is
written.  The error code `EC` that the constructor of `raw_fd_ostream` sets is not read by the
method, which has no branch on it: the same text is sent to the stream whether or not it was
opened, and the outcome on a stream that could not be opened is the one of the stream
library, `env.unopened`. -/
def assignAllocSiteIdToFile (env : ExportEnv) (s : DsaInfo) :
    Option (DsaInfo × AllocToNodesMap × Option String) :=
  match assignAllocSiteId s with
  | none => none
  | some (s1, alloc_to_nodes_map) =>
    if env.DsaInfoToFile ≠ "" then
      if env.canOpen env.DsaInfoToFile then
        some (s1, alloc_to_nodes_map, some (exportText (env.iterate alloc_to_nodes_map)))
      else
        (env.unopened (exportText (env.iterate alloc_to_nodes_map))).map
          (fun file => (s1, alloc_to_nodes_map, file))
    else some (s1, alloc_to_nodes_map, none)

/-- The method `DsaInfo::runOnModule (M)` with the export of `assignAllocSiteId`. -/
def runOnModuleToFile (env : ExportEnv) (o : Oracle) (M : List Function) (s : DsaInfo) :
    Option (DsaInfo × AllocToNodesMap × Option String) :=
  assignAllocSiteIdToFile env (M.foldl (fun st f => runOnFunction o f st) s)

/-! ## Vocabulary of the statements -/

/-- The values of `vs` in the order of their first occurrence. -/
def firstSeen (vs : List Value) : List Value :=
  vs.foldl (fun acc v => if v ∈ acc then acc else acc ++ [v]) []

/-- The left keys of the allocation-site bimap. -/
def allocKeys (s : DsaInfo) : List Value := s.m_alloc_sites_bimap.map Prod.fst

/-- The allocation-site registry is empty, as in a freshly constructed `DsaInfo`. -/
def AllocSitesEmpty (s : DsaInfo) : Prop :=
  s.m_alloc_sites_bimap = [] ∧ s.m_alloc_sites_set = []

instance (s : DsaInfo) : Decidable (AllocSitesEmpty s) := by
  unfold AllocSitesEmpty; infer_instance

/-- Invariant of the allocation-site registry: the ids are `1 .. size` in insertion order, no
value occurs twice, and `m_alloc_sites_set` holds the same ids. -/
def AllocInv (s : DsaInfo) : Prop :=
  s.m_alloc_sites_bimap.map Prod.snd = List.range' 1 s.m_alloc_sites_bimap.length ∧
  (s.m_alloc_sites_bimap.map Prod.fst).Nodup ∧
  s.m_alloc_sites_set = List.range' 1 s.m_alloc_sites_bimap.length

/-- The allocation-site values of the live registered nodes, node after node in registry
order. -/
def liveSites (s : DsaInfo) : List Value :=
  (live_nodes s).flatMap (fun w => w.getNode.getAllocSites)

/-- The nodes of the scalar, formal and return cells of a graph. -/
def groupNodes (g : Graph) : List Node :=
  (g.scalars ++ g.formals ++ g.returns).map (fun kv => kv.2.getNode)

/-- The calls `recordMemAccess (v, g, _)` for the pairs of `accesses`, in this order. -/
def countAccesses (o : Oracle) (accesses : List (Value × Graph)) (s : DsaInfo) : DsaInfo :=
  accesses.foldl (fun st a => recordMemAccess o a.1 a.2 st) s

/-- Every wrapper in an entry of the table satisfies `P`. -/
def TableAll (P : NodeWrapper → Prop) (t : AllocToNodesMap) : Prop :=
  ∀ e, e ∈ t → ∀ w, w ∈ e.2.2 → P w

/-- The state without the wrappers of the dead nodes. -/
def eraseDead (s : DsaInfo) : DsaInfo :=
  { s with m_nodes_map := s.m_nodes_map.filter (fun kv => is_alive_node kv.2) }

/-- What `assignAllocSiteId` computes: the bimap, the set of ids and the table. -/
def allocOutcome (r : DsaInfo × AllocToNodesMap) : AllocSiteBiMap × List Nat × AllocToNodesMap :=
  (r.1.m_alloc_sites_bimap, r.1.m_alloc_sites_set, r.2)

/-- The calls `assignNodeId (fn, g)` for the pairs of `gs`, in this order. -/
def registerGraphs (gs : List (Function × Graph)) (s : DsaInfo) : DsaInfo :=
  gs.foldl (fun st fg => assignNodeId fg.1 fg.2 st) s

/-- The values that `recordMemAccesses` hands to `recordMemAccess` for one instruction, in the
order of the calls: the pointer operand of a load or a store, the destination and then the
source of a memory transfer, the destination of a memory set. -/
def Instruction.operands : Instruction → List Value
  | Instruction.load p => [p]
  | Instruction.store p => [p]
  | Instruction.memTransfer d src => [d, src]
  | Instruction.memSet d => [d]
  | Instruction.other => []

/-- The operand `v` passes the three filters and its cell in `g` points to `n`: the
cast-stripped value has no statically known positive size, has a cell, is not a global value,
and the node of the cell is `n`. -/
def accountedTo (o : Oracle) (g : Graph) (n : Node) (v : Value) : Bool :=
  !isStaticallyKnown o (o.stripPointerCasts v) &&
    !(o.stripPointerCasts v).isGlobalValue &&
    decide ((g.getCell (o.stripPointerCasts v)).map Cell.getNode = some n)

/-- The wrappers of a set are in strictly increasing order of their ids. -/
def NodeSetSorted (ws : List NodeWrapper) : Prop :=
  ws.Pairwise (fun a b => a.getId < b.getId)

/-- Invariant of the loops of `assignAllocSiteId` after the pairs `done` of an allocation site
and a node have been processed: the registry invariant holds, no key occurs twice in the
table, a value without entry has not been processed, and the entry of a value holds the id of
the value and, as ids, exactly the nodes processed with it. -/
def TableInv (done : List (Value × NodeWrapper)) (st : DsaInfo × AllocToNodesMap) : Prop :=
  AllocInv st.1 ∧ (st.2.map Prod.fst).Nodup ∧
  ∀ v, match tableFind st.2 v with
    | none => ∀ w, (v, w) ∉ done
    | some e =>
      leftFind st.1.m_alloc_sites_bimap v = some e.1 ∧ NodeSetSorted e.2 ∧
        ∀ id, id ∈ e.2.map NodeWrapper.getId ↔ ∃ w, (v, w) ∈ done ∧ w.getId = id

/-- The pairs of an allocation site and a live registered node that owns it. -/
def memberships (s : DsaInfo) : List (Value × NodeWrapper) :=
  (live_nodes s).flatMap (fun w => w.getNode.getAllocSites.map (fun v => (v, w)))

/-- In the sequence `l` an occurrence of `a` comes before every occurrence of `b`. -/
def Before (l : List Value) (a b : Value) : Prop :=
  ∃ l1 l2, l = l1 ++ a :: l2 ∧ b ∉ l1

/-- The ids of the live registered nodes that own the allocation site `v`. -/
def ownerIds (s : DsaInfo) (v : Value) : List Nat :=
  ((live_nodes s).filter (fun w => decide (v ∈ w.getNode.getAllocSites))).map NodeWrapper.getId

/-- The smallest id of a live registered node that owns `v`; 0 when there is none. -/
def minOwnerId (s : DsaInfo) (v : Value) : Nat :=
  (ownerIds s v).foldl min ((ownerIds s v).headD 0)

/-- The scenario of two loads and a store: a module with the one function `f`, whose
instructions are a load from `a`, a load from `b` and a store to `c`; the three values are
distinct named allocas that are no casts, whose size the oracle does not know; in the graph `g`
of `f` the allocas `a` and `b` are unified into the node `nab`, which is read and has the
allocation sites `a` and `b`, and `c` points into another node `nc`, which is modified and has
the allocation site `c`. -/
structure IsScenario (o : Oracle) (a b c : Value) (nab nc : Node) (g : Graph) (f : Function) :
    Prop where
  strip_a : o.stripPointerCasts a = a
  strip_b : o.stripPointerCasts b = b
  strip_c : o.stripPointerCasts c = c
  size_a : isStaticallyKnown o a = false
  size_b : isStaticallyKnown o b = false
  size_c : isStaticallyKnown o c = false
  local_a : a.isGlobalValue = false
  local_b : b.isGlobalValue = false
  local_c : c.isGlobalValue = false
  named_a : a.hasName = true
  named_b : b.hasName = true
  named_c : c.hasName = true
  ne_ab : a ≠ b
  ne_ac : a ≠ c
  ne_bc : b ≠ c
  ne_nodes : nab ≠ nc
  sites_ab : nab.getAllocSites = [a, b]
  sites_c : nc.getAllocSites = [c]
  read_ab : nab.isRead = true
  modified_c : nc.isModified = true
  scalars : ∃ oa ob oc, g.scalars = [(a, { getNode := nab, offset := oa }),
    (b, { getNode := nab, offset := ob }), (c, { getNode := nc, offset := oc })]
  formals : g.formals = []
  returns : g.returns = []
  cells : g.cells = g.scalars
  insts : f.insts = [Instruction.load a, Instruction.load b, Instruction.store c]
  graph : f.graph = some g
  defined : f.isDeclaration = false

/-! ## Sample objects -/

/-- A named allocation site. -/
def va : Value := { addr := 1, name := some "a", isPointerTy := true, isGlobalValue := false }

/-- A second named allocation site. -/
def vb : Value := { addr := 2, name := some "b", isPointerTy := true, isGlobalValue := false }

/-- A third allocation site, with the name of `vb` (a value of another function). -/
def vb2 : Value := { addr := 3, name := some "b", isPointerTy := true, isGlobalValue := false }

/-- A live node (read) with two allocation sites. -/
def node1 : Node :=
  { addr := 10, isRead := true, isModified := false, getId := 5, getAllocSites := [vb, va] }

/-- A dead node (neither read nor modified) that owns an allocation site. -/
def node2 : Node :=
  { addr := 11, isRead := false, isModified := false, getId := 3, getAllocSites := [vb2] }

/-- A live node (modified) with a smaller id than `node1`. -/
def node3 : Node :=
  { addr := 12, isRead := false, isModified := true, getId := 2, getAllocSites := [va] }

/-- A graph with `node1` and `node3` behind scalar cells and `node2` behind a formal cell. -/
def graph1 : Graph :=
  { addr := 20,
    scalars := [(va, { getNode := node1, offset := 0 }), (vb, { getNode := node3, offset := 0 }),
      (vb2, { getNode := node1, offset := 4 })],
    formals := [(vb2, { getNode := node2, offset := 0 })],
    returns := [],
    cells := [(va, { getNode := node1, offset := 0 }), (vb, { getNode := node3, offset := 0 })] }

/-- A function with the graph `graph1`: a load through `va` and a store through `vb`. -/
def fun1 : Function :=
  { name := "f", isDeclaration := false,
    insts := [Instruction.load va, Instruction.store vb, Instruction.other],
    graph := some graph1 }

/-- The LLVM services of the samples: no cast to strip, no size known. -/
def oracle1 : Oracle :=
  { stripPointerCasts := fun v => v, getObjectSize := fun _ => none }

/-- The node registry with `node1`, `node2` and `node3`, nothing else. -/
def state1 : DsaInfo :=
  { DsaInfo.init with
    m_nodes_map := [(node1, NodeWrapper.mk3 node1 5 ""), (node2, NodeWrapper.mk3 node2 3 ""),
      (node3, NodeWrapper.mk3 node3 2 "")] }

/-- The node registry with the dead `node2` and the live `node3`. -/
def state2 : DsaInfo :=
  { DsaInfo.init with
    m_nodes_map := [(node2, NodeWrapper.mk3 node2 3 ""), (node3, NodeWrapper.mk3 node3 2 "")] }

/-- A live node whose two allocation sites have the same name, enumerated `vb`, `vb2`. -/
def node4a : Node :=
  { addr := 13, isRead := true, isModified := true, getId := 7, getAllocSites := [vb, vb2] }

/-- The node `node4a` in a run where `getAllocSites ()` enumerates `vb2` first. -/
def node4b : Node :=
  { addr := 13, isRead := true, isModified := true, getId := 7, getAllocSites := [vb2, vb] }

/-- The node registry with `node4a`. -/
def state3a : DsaInfo :=
  { DsaInfo.init with m_nodes_map := [(node4a, NodeWrapper.mk3 node4a 7 "")] }

/-- The node registry of the other run, with `node4b`. -/
def state3b : DsaInfo :=
  { DsaInfo.init with m_nodes_map := [(node4b, NodeWrapper.mk3 node4b 7 "")] }

/-- A global value. -/
def vg : Value := { addr := 5, name := some "g", isPointerTy := true, isGlobalValue := true }

/-- The LLVM services with a static size for `va`: four bytes. -/
def oracleSized : Oracle :=
  { stripPointerCasts := fun v => v, getObjectSize := fun v => if v = va then some 4 else none }

/-- A graph with cells for `va` and for the global value `vg`, both in `node1`. -/
def graph2 : Graph :=
  { addr := 21,
    scalars := [(va, { getNode := node1, offset := 0 })],
    formals := [],
    returns := [],
    cells := [(va, { getNode := node1, offset := 0 }), (vg, { getNode := node1, offset := 8 })] }

/-- A graph without any cell. -/
def graph0 : Graph :=
  { addr := 22, scalars := [], formals := [], returns := [], cells := [] }

/-- An allocation site without a name. -/
def vu : Value := { addr := 4, name := none, isPointerTy := true, isGlobalValue := false }

/-- A live node whose only allocation site is the unnamed `vu`. -/
def node5 : Node :=
  { addr := 14, isRead := true, isModified := false, getId := 9, getAllocSites := [vu] }

/-- A live node with the named site `va` and the unnamed site `vu`. -/
def node6 : Node :=
  { addr := 15, isRead := true, isModified := false, getId := 8, getAllocSites := [va, vu] }

/-- The node registry with `node5`. -/
def state4 : DsaInfo :=
  { DsaInfo.init with m_nodes_map := [(node5, NodeWrapper.mk3 node5 9 "")] }

/-- The node registry with `node5` and `node6`. -/
def state5 : DsaInfo :=
  { DsaInfo.init with
    m_nodes_map := [(node5, NodeWrapper.mk3 node5 9 ""), (node6, NodeWrapper.mk3 node6 8 "")] }

/-- An export to the file `out.csv` that can be opened, the table iterated in insertion
order. -/
def envFile : ExportEnv :=
  { DsaInfoToFile := "out.csv", canOpen := fun _ => true, unopened := fun _ => none,
    iterate := fun t => t }

/-- The export of `envFile` in a run where the table is iterated in the opposite order. -/
def envFileRev : ExportEnv :=
  { DsaInfoToFile := "out.csv", canOpen := fun _ => true, unopened := fun _ => none,
    iterate := fun t => t.reverse }

/-- No export configured. -/
def envNone : ExportEnv :=
  { DsaInfoToFile := "", canOpen := fun _ => true, unopened := fun _ => none,
    iterate := fun t => t }

/-- A third named allocation site, `c`. -/
def vc : Value := { addr := 6, name := some "c", isPointerTy := true, isGlobalValue := false }

/-- The node into which the allocas `va` and `vb` are unified; it is read. -/
def nodeAB : Node :=
  { addr := 16, isRead := true, isModified := false, getId := 30, getAllocSites := [va, vb] }

/-- The node of the alloca `vc`; it is modified. -/
def nodeC : Node :=
  { addr := 17, isRead := false, isModified := true, getId := 31, getAllocSites := [vc] }

/-- The graph of the scenario: `va` and `vb` point into `nodeAB`, `vc` into `nodeC`. -/
def graphS : Graph :=
  { addr := 23,
    scalars := [(va, { getNode := nodeAB, offset := 0 }), (vb, { getNode := nodeAB, offset := 0 }),
      (vc, { getNode := nodeC, offset := 0 })],
    formals := [],
    returns := [],
    cells := [(va, { getNode := nodeAB, offset := 0 }), (vb, { getNode := nodeAB, offset := 0 }),
      (vc, { getNode := nodeC, offset := 0 })] }

/-- The function of the scenario: a load from `va`, a load from `vb`, a store to `vc`. -/
def funS : Function :=
  { name := "f", isDeclaration := false,
    insts := [Instruction.load va, Instruction.load vb, Instruction.store vc],
    graph := some graphS }

/-- The LLVM services when the size of every value is statically known, as for allocas of a
fixed type: four bytes. -/
def oracleAlloca : Oracle :=
  { stripPointerCasts := fun v => v, getObjectSize := fun _ => some 4 }

/-! ## Lemmas on the allocation-site bimap -/

theorem leftFind_eq_none {m : AllocSiteBiMap} {v : Value} :
    leftFind m v = none ↔ v ∉ m.map Prod.fst := by
  induction m with
  | nil => simp [leftFind]
  | cons p m ih =>
    obtain ⟨k, i⟩ := p
    by_cases h : k = v
    · simp [leftFind, h]
    · simp [leftFind, h, ih, Ne.symm h]

theorem rightFind_eq_none {m : AllocSiteBiMap} {id : Nat} :
    rightFind m id = none ↔ id ∉ m.map Prod.snd := by
  induction m with
  | nil => simp [rightFind]
  | cons p m ih =>
    obtain ⟨k, i⟩ := p
    by_cases h : i = id
    · simp [rightFind, h]
    · simp [rightFind, h, ih, Ne.symm h]

theorem leftFind_eq_some {m : AllocSiteBiMap} {v : Value} {i : Nat}
    (hn : (m.map Prod.fst).Nodup) : leftFind m v = some i ↔ (v, i) ∈ m := by
  induction m with
  | nil => simp [leftFind]
  | cons p m ih =>
    obtain ⟨k, j⟩ := p
    simp only [List.map_cons, List.nodup_cons] at hn
    by_cases h : k = v
    · subst h
      simp only [leftFind, if_true, Option.some.injEq, List.mem_cons, Prod.mk.injEq, true_and]
      constructor
      · intro e; exact Or.inl e.symm
      · rintro (e | e)
        · exact e.symm
        · exact absurd (List.mem_map_of_mem Prod.fst e) hn.1
    · simp only [leftFind, if_neg h, ih hn.2, List.mem_cons, Prod.mk.injEq]
      constructor
      · exact Or.inr
      · rintro (e | e)
        · exact absurd e.1.symm h
        · exact e

theorem rightFind_eq_some {m : AllocSiteBiMap} {v : Value} {i : Nat}
    (hn : (m.map Prod.snd).Nodup) : rightFind m i = some v ↔ (v, i) ∈ m := by
  induction m with
  | nil => simp [rightFind]
  | cons p m ih =>
    obtain ⟨k, j⟩ := p
    simp only [List.map_cons, List.nodup_cons] at hn
    by_cases h : j = i
    · subst h
      simp only [rightFind, if_true, Option.some.injEq, List.mem_cons, Prod.mk.injEq, and_true]
      constructor
      · intro e; exact Or.inl e.symm
      · rintro (e | e)
        · exact e.symm
        · exact absurd (List.mem_map_of_mem Prod.snd e) hn.1
    · simp only [rightFind, if_neg h, ih hn.2, List.mem_cons, Prod.mk.injEq]
      constructor
      · exact Or.inr
      · rintro (e | e)
        · exact absurd e.2.symm h
        · exact e

theorem leftFind_append_of_some {m m2 : AllocSiteBiMap} {v : Value} {i : Nat}
    (h : leftFind m v = some i) : leftFind (m ++ m2) v = some i := by
  induction m with
  | nil => simp [leftFind] at h
  | cons p m ih =>
    obtain ⟨k, j⟩ := p
    by_cases hk : k = v
    · simpa [leftFind, hk] using h
    · simp only [leftFind, if_neg hk] at h
      simpa [leftFind, hk] using ih h

theorem mem_range'_one {i n : Nat} : i ∈ List.range' 1 n ↔ 1 ≤ i ∧ i ≤ n := by
  rw [List.mem_range'_1]
  omega

theorem recordAllocSite_of_none {s : DsaInfo} {v : Value} (hs : AllocInv s)
    (h : leftFind s.m_alloc_sites_bimap v = none) :
    recordAllocSite v s = (true, s.m_alloc_sites_bimap.length + 1,
      { s with
        m_alloc_sites_bimap := s.m_alloc_sites_bimap ++ [(v, s.m_alloc_sites_bimap.length + 1)],
        m_alloc_sites_set := s.m_alloc_sites_set ++ [s.m_alloc_sites_bimap.length + 1] }) := by
  obtain ⟨h1, _, h3⟩ := hs
  have hr : rightFind s.m_alloc_sites_bimap (s.m_alloc_sites_bimap.length + 1) = none := by
    rw [rightFind_eq_none, h1, mem_range'_one]
    omega
  have hset : s.m_alloc_sites_bimap.length + 1 ∉ s.m_alloc_sites_set := by
    rw [h3, mem_range'_one]
    omega
  simp [recordAllocSite, h, bimapInsert, hr, setInsert, hset]

theorem recordAllocSite_of_some {s : DsaInfo} {v : Value} {id : Nat}
    (h : leftFind s.m_alloc_sites_bimap v = some id) :
    recordAllocSite v s = (false, id, s) := by
  simp [recordAllocSite, h]

theorem AllocInv_of_empty {s : DsaInfo} (h : AllocSitesEmpty s) : AllocInv s := by
  obtain ⟨h1, h2⟩ := h
  simp [AllocInv, h1, h2]

theorem AllocInv_recordAllocSite {s : DsaInfo} (v : Value) (hs : AllocInv s) :
    AllocInv (recordAllocSite v s).2.2 := by
  cases h : leftFind s.m_alloc_sites_bimap v with
  | some id => rw [recordAllocSite_of_some h]; exact hs
  | none =>
    rw [recordAllocSite_of_none hs h]
    obtain ⟨h1, h2, h3⟩ := hs
    refine ⟨?_, ?_, ?_⟩
    · simp [h1, List.range'_concat, Nat.add_comm]
    · simp only [List.map_append, List.map_cons, List.map_nil]
      rw [List.nodup_append]
      refine ⟨h2, by simp, ?_⟩
      intro a ha hb
      simp at hb
      subst hb
      exact (leftFind_eq_none.mp h) ha
    · simp [h3, List.range'_concat, Nat.add_comm]

theorem AllocInv_recordAllocSites {s : DsaInfo} (vs : List Value) (hs : AllocInv s) :
    AllocInv (recordAllocSites vs s) := by
  induction vs generalizing s with
  | nil => exact hs
  | cons v vs ih => exact ih (AllocInv_recordAllocSite v hs)

theorem allocKeys_recordAllocSite {s : DsaInfo} (v : Value) (hs : AllocInv s) :
    allocKeys (recordAllocSite v s).2.2 =
      if v ∈ allocKeys s then allocKeys s else allocKeys s ++ [v] := by
  cases h : leftFind s.m_alloc_sites_bimap v with
  | some id =>
    have hv : v ∈ allocKeys s := by
      by_contra hc
      rw [leftFind_eq_none.mpr hc] at h
      exact Option.noConfusion h
    rw [recordAllocSite_of_some h, if_pos hv]
  | none =>
    have hv : v ∉ allocKeys s := leftFind_eq_none.mp h
    rw [recordAllocSite_of_none hs h, if_neg hv]
    simp [allocKeys]

theorem allocKeys_recordAllocSites {s : DsaInfo} (vs : List Value) (hs : AllocInv s) :
    allocKeys (recordAllocSites vs s) =
      vs.foldl (fun acc v => if v ∈ acc then acc else acc ++ [v]) (allocKeys s) := by
  induction vs generalizing s with
  | nil => rfl
  | cons v vs ih =>
    simp only [recordAllocSites, List.foldl_cons]
    have := ih (AllocInv_recordAllocSite v hs)
    simp only [recordAllocSites] at this
    rw [this, allocKeys_recordAllocSite v hs]

theorem allocKeys_of_empty {s : DsaInfo} (h : AllocSitesEmpty s) (vs : List Value) :
    allocKeys (recordAllocSites vs s) = firstSeen vs := by
  rw [allocKeys_recordAllocSites vs (AllocInv_of_empty h)]
  simp [allocKeys, h.1, firstSeen]

theorem foldl_addNew_mem (vs acc : List Value) (v : Value) :
    v ∈ vs.foldl (fun acc v => if v ∈ acc then acc else acc ++ [v]) acc ↔ v ∈ acc ∨ v ∈ vs := by
  induction vs generalizing acc with
  | nil => simp
  | cons a vs ih =>
    simp only [List.foldl_cons, ih, List.mem_cons]
    by_cases ha : a ∈ acc
    · simp only [if_pos ha]
      constructor
      · rintro (h | h)
        · exact Or.inl h
        · exact Or.inr (Or.inr h)
      · rintro (h | h | h)
        · exact Or.inl h
        · exact Or.inl (h ▸ ha)
        · exact Or.inr h
    · simp only [if_neg ha, List.mem_append, List.mem_singleton]
      tauto

theorem foldl_addNew_nodup (vs acc : List Value) (h : acc.Nodup) :
    (vs.foldl (fun acc v => if v ∈ acc then acc else acc ++ [v]) acc).Nodup := by
  induction vs generalizing acc with
  | nil => exact h
  | cons a vs ih =>
    simp only [List.foldl_cons]
    apply ih
    by_cases ha : a ∈ acc
    · simpa [ha] using h
    · simp only [if_neg ha]
      rw [List.nodup_append]
      refine ⟨h, by simp, ?_⟩
      intro x hx hy
      simp at hy
      exact ha (hy ▸ hx)

theorem mem_firstSeen {vs : List Value} {v : Value} : v ∈ firstSeen vs ↔ v ∈ vs := by
  simp [firstSeen, foldl_addNew_mem]

theorem nodup_firstSeen (vs : List Value) : (firstSeen vs).Nodup :=
  foldl_addNew_nodup vs [] List.nodup_nil

theorem bimap_eq_zip {s : DsaInfo} (hs : AllocInv s) :
    s.m_alloc_sites_bimap = (allocKeys s).zip (List.range' 1 (allocKeys s).length) := by
  have h := List.zip_unzip s.m_alloc_sites_bimap
  rw [List.unzip_eq_map] at h
  simp only at h
  rw [hs.1] at h
  simpa [allocKeys] using h.symm

theorem recordAllocSites_append (xs ys : List Value) (s : DsaInfo) :
    recordAllocSites (xs ++ ys) s = recordAllocSites ys (recordAllocSites xs s) := by
  simp [recordAllocSites, List.foldl_append]

theorem recordAllocSites_cons (x : Value) (ys : List Value) (s : DsaInfo) :
    recordAllocSites (x :: ys) s = recordAllocSites ys (recordAllocSite x s).2.2 := rfl

theorem leftFind_isSome_of_mem {s : DsaInfo} {v : Value} (h : v ∈ allocKeys s) :
    ∃ i, leftFind s.m_alloc_sites_bimap v = some i := by
  cases hf : leftFind s.m_alloc_sites_bimap v with
  | some i => exact ⟨i, rfl⟩
  | none => exact absurd h (leftFind_eq_none.mp hf)

theorem mem_allocKeys_of_leftFind {s : DsaInfo} {v : Value} {i : Nat}
    (h : leftFind s.m_alloc_sites_bimap v = some i) : v ∈ allocKeys s := by
  by_contra hc
  rw [leftFind_eq_none.mpr hc] at h
  exact Option.noConfusion h

theorem nodup_ids {s : DsaInfo} (hs : AllocInv s) :
    (s.m_alloc_sites_bimap.map Prod.snd).Nodup := by
  rw [hs.1]
  exact List.nodup_range' 1 _

theorem id_range_of_leftFind {s : DsaInfo} {v : Value} {i : Nat} (hs : AllocInv s)
    (h : leftFind s.m_alloc_sites_bimap v = some i) :
    1 ≤ i ∧ i ≤ s.m_alloc_sites_bimap.length := by
  have hm := (leftFind_eq_some hs.2.1).mp h
  have : i ∈ s.m_alloc_sites_bimap.map Prod.snd := List.mem_map_of_mem Prod.snd hm
  rw [hs.1] at this
  exact mem_range'_one.mp this

theorem left_iff_right {s : DsaInfo} (hs : AllocInv s) (v : Value) (i : Nat) :
    leftFind s.m_alloc_sites_bimap v = some i ↔ rightFind s.m_alloc_sites_bimap i = some v := by
  rw [leftFind_eq_some hs.2.1, rightFind_eq_some (nodup_ids hs)]

theorem getAllocSiteId_eq_zero_iff {s : DsaInfo} (hs : AllocInv s) (v : Value) :
    getAllocSiteId v s = 0 ↔ v ∉ allocKeys s := by
  unfold getAllocSiteId
  cases h : leftFind s.m_alloc_sites_bimap v with
  | none => exact iff_of_true rfl (leftFind_eq_none.mp h)
  | some i =>
    have h1 := (id_range_of_leftFind hs h).1
    have h2 := mem_allocKeys_of_leftFind h
    simp only [h2, not_true_eq_false, iff_false]
    omega

theorem getAllocSiteId_of_leftFind {s : DsaInfo} {v : Value} {i : Nat}
    (h : leftFind s.m_alloc_sites_bimap v = some i) : getAllocSiteId v s = i := by
  simp [getAllocSiteId, h]

theorem getAllocValue_eq (i : Nat) (s : DsaInfo) :
    getAllocValue i s = rightFind s.m_alloc_sites_bimap i := by
  unfold getAllocValue
  cases rightFind s.m_alloc_sites_bimap i <;> rfl

theorem leftFind_recordAllocSite_self {s : DsaInfo} (hs : AllocInv s) (v : Value) :
    leftFind (recordAllocSite v s).2.2.m_alloc_sites_bimap v = some (recordAllocSite v s).2.1 := by
  cases h : leftFind s.m_alloc_sites_bimap v with
  | some id => rw [recordAllocSite_of_some h]; exact h
  | none =>
    rw [recordAllocSite_of_none hs h]
    have hk := (AllocInv_recordAllocSite v hs).2.1
    rw [recordAllocSite_of_none hs h] at hk
    rw [leftFind_eq_some hk]
    simp

theorem leftFind_recordAllocSite_stable {s : DsaInfo} (hs : AllocInv s) (w : Value)
    {v : Value} {i : Nat} (h : leftFind s.m_alloc_sites_bimap v = some i) :
    leftFind (recordAllocSite w s).2.2.m_alloc_sites_bimap v = some i := by
  cases hw : leftFind s.m_alloc_sites_bimap w with
  | some id => rw [recordAllocSite_of_some hw]; exact h
  | none =>
    rw [recordAllocSite_of_none hs hw]
    exact leftFind_append_of_some h

theorem leftFind_recordAllocSites_stable {s : DsaInfo} (hs : AllocInv s) (ws : List Value)
    {v : Value} {i : Nat} (h : leftFind s.m_alloc_sites_bimap v = some i) :
    leftFind (recordAllocSites ws s).m_alloc_sites_bimap v = some i := by
  induction ws generalizing s with
  | nil => exact h
  | cons w ws ih =>
    rw [recordAllocSites_cons]
    exact ih (AllocInv_recordAllocSite w hs) (leftFind_recordAllocSite_stable hs w h)

/-- C1. Contract of `recordAllocSite` in every state of the allocation-site registry (the
state after any calls on the empty registry): a value that is not recorded makes the call
return `true`, leaves the number of entries plus one in `site_id`, and adds exactly the pair of
the value and this id (the id also enters `m_alloc_sites_set`); a recorded value makes the
call return `false`, leaves its existing id in `site_id`, and changes nothing. -/
theorem recordAllocSite_contract (s0 : DsaInfo) (h0 : AllocSitesEmpty s0) (calls : List Value)
    (v : Value) :
    (v ∉ allocKeys (recordAllocSites calls s0) →
      recordAllocSite v (recordAllocSites calls s0) =
        (true, (recordAllocSites calls s0).m_alloc_sites_bimap.length + 1,
          { recordAllocSites calls s0 with
            m_alloc_sites_bimap := (recordAllocSites calls s0).m_alloc_sites_bimap ++
              [(v, (recordAllocSites calls s0).m_alloc_sites_bimap.length + 1)],
            m_alloc_sites_set := (recordAllocSites calls s0).m_alloc_sites_set ++
              [(recordAllocSites calls s0).m_alloc_sites_bimap.length + 1] })) ∧
    (v ∈ allocKeys (recordAllocSites calls s0) →
      (v, getAllocSiteId v (recordAllocSites calls s0)) ∈
          (recordAllocSites calls s0).m_alloc_sites_bimap ∧
        recordAllocSite v (recordAllocSites calls s0) =
          (false, getAllocSiteId v (recordAllocSites calls s0), recordAllocSites calls s0)) := by
  have hs := AllocInv_recordAllocSites calls (AllocInv_of_empty h0)
  constructor
  · intro hv
    exact recordAllocSite_of_none hs (leftFind_eq_none.mpr hv)
  · intro hv
    obtain ⟨i, hi⟩ := leftFind_isSome_of_mem hv
    rw [getAllocSiteId_of_leftFind hi]
    exact ⟨(leftFind_eq_some hs.2.1).mp hi, recordAllocSite_of_some hi⟩

theorem recordAllocSite_contract_witness :
    recordAllocSite vb (recordAllocSites [va] DsaInfo.init) =
        (true, 2, { DsaInfo.init with
          m_alloc_sites_bimap := [(va, 1), (vb, 2)], m_alloc_sites_set := [1, 2] }) ∧
      recordAllocSite va (recordAllocSites [va] DsaInfo.init) =
        (false, 1, recordAllocSites [va] DsaInfo.init) :=
  ⟨(recordAllocSite_contract DsaInfo.init (by decide) [va] vb).1 (by decide),
   ((recordAllocSite_contract DsaInfo.init (by decide) [va] va).2 (by decide)).2⟩

theorem ids_differ_of_ne {s : DsaInfo} (hs : AllocInv s) {v1 v2 : Value}
    (h1 : v1 ∈ allocKeys s) (h2 : v2 ∈ allocKeys s) (hne : v1 ≠ v2) :
    getAllocSiteId v1 s ≠ getAllocSiteId v2 s := by
  obtain ⟨i1, e1⟩ := leftFind_isSome_of_mem h1
  obtain ⟨i2, e2⟩ := leftFind_isSome_of_mem h2
  rw [getAllocSiteId_of_leftFind e1, getAllocSiteId_of_leftFind e2]
  intro he
  subst he
  rw [left_iff_right hs] at e1 e2
  rw [e1] at e2
  exact hne (Option.some.inj e2)

theorem returned_id_spec {s0 : DsaInfo} (h0 : AllocSitesEmpty s0) (before after : List Value)
    (v : Value) :
    getAllocValue (recordAllocSite v (recordAllocSites before s0)).2.1
        (recordAllocSites (before ++ v :: after) s0) = some v ∧
      getAllocSiteId v (recordAllocSites (before ++ v :: after) s0) =
        (recordAllocSite v (recordAllocSites before s0)).2.1 := by
  have hi0 := AllocInv_of_empty h0
  have hs := AllocInv_recordAllocSites (before ++ v :: after) hi0
  have hpre := AllocInv_recordAllocSites before hi0
  have hl := leftFind_recordAllocSites_stable (AllocInv_recordAllocSite v hpre) after
    (leftFind_recordAllocSite_self hpre v)
  rw [recordAllocSites_append, recordAllocSites_cons]
  rw [recordAllocSites_append, recordAllocSites_cons] at hs
  refine ⟨?_, getAllocSiteId_of_leftFind hl⟩
  rw [getAllocValue_eq]
  exact (left_iff_right hs _ _).mp hl

/-- C2. Bijection between values and ids in every state reached from the empty registry by
`recordAllocSite` calls: two distinct recorded values have distinct ids, and an id that a call
returned for a value `v` is mapped back to `v` by `getAllocValue` in the state after any
further calls, where `getAllocSiteId` of `v` is still this id. -/
theorem alloc_site_bijection (s0 : DsaInfo) (h0 : AllocSitesEmpty s0) (calls : List Value) :
    (∀ v1 v2, v1 ∈ calls → v2 ∈ calls → v1 ≠ v2 →
      getAllocSiteId v1 (recordAllocSites calls s0) ≠
        getAllocSiteId v2 (recordAllocSites calls s0)) ∧
    (∀ (before after : List Value) (v : Value), calls = before ++ v :: after →
      getAllocValue (recordAllocSite v (recordAllocSites before s0)).2.1
          (recordAllocSites calls s0) = some v ∧
        getAllocSiteId v (recordAllocSites calls s0) =
          (recordAllocSite v (recordAllocSites before s0)).2.1) := by
  have hs := AllocInv_recordAllocSites calls (AllocInv_of_empty h0)
  constructor
  · intro v1 v2 h1 h2 hne
    have hk := allocKeys_of_empty h0 calls
    exact ids_differ_of_ne hs (by rw [hk]; exact mem_firstSeen.mpr h1)
      (by rw [hk]; exact mem_firstSeen.mpr h2) hne
  · intro pre post v hc
    subst hc
    exact returned_id_spec h0 pre post v

theorem alloc_site_bijection_witness :
    getAllocSiteId va (recordAllocSites [va, vb, va] DsaInfo.init) ≠
        getAllocSiteId vb (recordAllocSites [va, vb, va] DsaInfo.init) ∧
      getAllocValue 2 (recordAllocSites [va, vb, va] DsaInfo.init) = some vb ∧
      getAllocSiteId vb (recordAllocSites [va, vb, va] DsaInfo.init) = 2 :=
  ⟨(alloc_site_bijection DsaInfo.init (by decide) [va, vb, va]).1 va vb
      (by decide) (by decide) (by decide),
   (alloc_site_bijection DsaInfo.init (by decide) [va, vb, va]).2 [va] [va] vb rfl⟩

theorem bimap_of_empty {s0 : DsaInfo} (h0 : AllocSitesEmpty s0) (calls : List Value) :
    (recordAllocSites calls s0).m_alloc_sites_bimap =
      (firstSeen calls).zip (List.range' 1 (firstSeen calls).length) := by
  have hs := AllocInv_recordAllocSites calls (AllocInv_of_empty h0)
  rw [← allocKeys_of_empty h0 calls]
  exact bimap_eq_zip hs

theorem bimap_length_of_empty {s0 : DsaInfo} (h0 : AllocSitesEmpty s0) (calls : List Value) :
    (recordAllocSites calls s0).m_alloc_sites_bimap.length = (firstSeen calls).length := by
  rw [← allocKeys_of_empty h0 calls]
  simp [allocKeys]

theorem rightFind_isSome_iff {s : DsaInfo} (hs : AllocInv s) (i : Nat) :
    (∃ v, rightFind s.m_alloc_sites_bimap i = some v) ↔
      1 ≤ i ∧ i ≤ s.m_alloc_sites_bimap.length := by
  rw [← mem_range'_one, ← hs.1]
  constructor
  · rintro ⟨v, hv⟩
    by_contra hc
    rw [rightFind_eq_none.mpr hc] at hv
    exact Option.noConfusion hv
  · intro h
    cases hf : rightFind s.m_alloc_sites_bimap i with
    | some v => exact ⟨v, rfl⟩
    | none => exact absurd h (rightFind_eq_none.mp hf)

/-- C3. For any sequence of `recordAllocSite` calls on the empty registry: the registry is the
list of the distinct values in the order of their first call, paired with `1, 2, 3, ...`, so the
`k`-th distinct value has id `k`; the id of a value that was recorded is the same after any
further calls; and after the calls the right keys of the bimap and the members of
`m_alloc_sites_set` are exactly the numbers from 1 to the number of recorded values. -/
theorem alloc_ids_sequential (s0 : DsaInfo) (h0 : AllocSitesEmpty s0) (calls : List Value) :
    (firstSeen calls).Nodup ∧ (∀ v, v ∈ firstSeen calls ↔ v ∈ calls) ∧
    (recordAllocSites calls s0).m_alloc_sites_bimap =
      (firstSeen calls).zip (List.range' 1 (firstSeen calls).length) ∧
    (∀ k v, (firstSeen calls)[k]? = some v →
      getAllocSiteId v (recordAllocSites calls s0) = k + 1) ∧
    (∀ v later, v ∈ calls →
      getAllocSiteId v (recordAllocSites (calls ++ later) s0) =
        getAllocSiteId v (recordAllocSites calls s0)) ∧
    (∀ i, (∃ v, rightFind (recordAllocSites calls s0).m_alloc_sites_bimap i = some v) ↔
      1 ≤ i ∧ i ≤ (firstSeen calls).length) ∧
    (∀ i, i ∈ (recordAllocSites calls s0).m_alloc_sites_set ↔
      1 ≤ i ∧ i ≤ (firstSeen calls).length) := by
  have hs := AllocInv_recordAllocSites calls (AllocInv_of_empty h0)
  have hb := bimap_of_empty h0 calls
  have hlen := bimap_length_of_empty h0 calls
  refine ⟨nodup_firstSeen calls, fun v => mem_firstSeen, hb, ?_, ?_, ?_, ?_⟩
  · intro k v hk
    apply getAllocSiteId_of_leftFind
    rw [leftFind_eq_some hs.2.1, hb]
    have hlt : k < (firstSeen calls).length := by
      by_contra hc
      rw [List.getElem?_eq_none (Nat.le_of_not_lt hc)] at hk
      exact Option.noConfusion hk
    have hz : ((firstSeen calls).zip (List.range' 1 (firstSeen calls).length))[k]? =
        some (v, k + 1) := by
      rw [List.getElem?_zip_eq_some]
      refine ⟨hk, ?_⟩
      rw [List.getElem?_range' _ _ hlt]
      simp [Nat.add_comm]
    exact List.mem_iff_getElem?.mpr ⟨k, hz⟩
  · intro v later hv
    have hk : v ∈ allocKeys (recordAllocSites calls s0) := by
      rw [allocKeys_of_empty h0 calls]
      exact mem_firstSeen.mpr hv
    obtain ⟨i, hi⟩ := leftFind_isSome_of_mem hk
    rw [recordAllocSites_append, getAllocSiteId_of_leftFind hi,
      getAllocSiteId_of_leftFind (leftFind_recordAllocSites_stable hs later hi)]
  · intro i
    rw [rightFind_isSome_iff hs, hlen]
  · intro i
    rw [hs.2.2, mem_range'_one, hlen]

theorem alloc_ids_sequential_witness :
    getAllocSiteId vb (recordAllocSites [va, vb, va] DsaInfo.init) = 1 + 1 ∧
      getAllocSiteId va (recordAllocSites ([va, vb, va] ++ [vb2]) DsaInfo.init) =
        getAllocSiteId va (recordAllocSites [va, vb, va] DsaInfo.init) :=
  ⟨(alloc_ids_sequential DsaInfo.init (by decide) [va, vb, va]).2.2.2.1 1 vb (by decide),
   (alloc_ids_sequential DsaInfo.init (by decide) [va, vb, va]).2.2.2.2.1 va [vb2]
      (by decide)⟩

/-- C9. The query `isAccessed (n)` is true exactly when the node registry has a wrapper for `n`
whose access counter is greater than zero; without a wrapper it is false.  The query is a
function of the state alone, it has no state to return. -/
theorem isAccessed_iff (s : DsaInfo) (n : Node) :
    (isAccessed n s = true ↔
      ∃ w, nodesFind s.m_nodes_map n = some w ∧ 0 < w.getAccesses) ∧
    (nodesFind s.m_nodes_map n = none → isAccessed n s = false) := by
  unfold isAccessed
  cases h : nodesFind s.m_nodes_map n with
  | none => simp
  | some w => simp

theorem isAccessed_iff_witness :
    isAccessed node2 DsaInfo.init = false :=
  (isAccessed_iff DsaInfo.init node2).2 rfl

/-! ## Lemmas on the node registry -/

theorem nodesFind_append (m m2 : NodeWrapperMap) (k : Node) :
    nodesFind (m ++ m2) k =
      match nodesFind m k with
      | some w => some w
      | none => nodesFind m2 k := by
  induction m with
  | nil => simp [nodesFind]
  | cons p m ih =>
    obtain ⟨a, w⟩ := p
    by_cases h : a = k
    · simp [nodesFind, h]
    · simp [nodesFind, h, ih]

theorem nodesFind_nodesInsert (m : NodeWrapperMap) (n k : Node) (w : NodeWrapper) :
    nodesFind (nodesInsert m n w) k =
      match nodesFind m k with
      | some x => some x
      | none => if n = k then some w else none := by
  unfold nodesInsert
  cases hn : nodesFind m n with
  | some x =>
    cases hk : nodesFind m k with
    | some y => simp [hk]
    | none =>
      have : n ≠ k := by
        intro e
        rw [e, hk] at hn
        exact Option.noConfusion hn
      simp [hk, this]
  | none =>
    simp only [nodesFind_append]
    cases hk : nodesFind m k with
    | some y => rfl
    | none => simp [nodesFind]

theorem nodesFind_registerCells (cs : List (Value × Cell)) (m : NodeWrapperMap) (k : Node) :
    nodesFind (cs.foldl registerCell m) k =
      match nodesFind m k with
      | some x => some x
      | none =>
        if k ∈ cs.map (fun kv => kv.2.getNode) then some (NodeWrapper.mk3 k k.getId "")
        else none := by
  induction cs generalizing m with
  | nil =>
    cases h : nodesFind m k <;> simp [h]
  | cons c cs ih =>
    simp only [List.foldl_cons, ih, registerCell, nodesFind_nodesInsert]
    cases hk : nodesFind m k with
    | some y => rfl
    | none =>
      by_cases hc : c.2.getNode = k
      · subst hc
        simp
      · have hc2 : ¬ k = c.2.getNode := fun e => hc e.symm
        simp only [if_neg hc, List.map_cons, List.mem_cons, hc2, false_or]

theorem assignNodeId_nodes (fn : Function) (g : Graph) (s : DsaInfo) :
    (assignNodeId fn g s).m_nodes_map =
      (g.scalars ++ g.formals ++ g.returns).foldl registerCell s.m_nodes_map := by
  simp [assignNodeId, List.foldl_append]

theorem nodesFind_assignNodeId (fn : Function) (g : Graph) (s : DsaInfo) (k : Node) :
    nodesFind (assignNodeId fn g s).m_nodes_map k =
      match nodesFind s.m_nodes_map k with
      | some x => some x
      | none => if k ∈ groupNodes g then some (NodeWrapper.mk3 k k.getId "") else none := by
  rw [assignNodeId_nodes, nodesFind_registerCells]
  rfl

/-- C8. After `assignNodeId (fn, g)` every node behind a scalar, formal or return cell of `g`
has a wrapper; where it had none before, the wrapper is the new one with the id of the node, the
empty representative and the counter 0, so that `getDsaNodeId` is the id of the node and
`isAccessed` is false; the lookup of every other node is what it was, no wrapper is added for
it; and a wrapper that was there stays as it was. -/
theorem assignNodeId_registers (fn : Function) (g : Graph) (s : DsaInfo) :
    (∀ n, n ∈ groupNodes g → ∃ w, nodesFind (assignNodeId fn g s).m_nodes_map n = some w) ∧
    (∀ n, n ∈ groupNodes g → nodesFind s.m_nodes_map n = none →
      nodesFind (assignNodeId fn g s).m_nodes_map n =
          some { m_node := n, m_id := n.getId, m_rep_name := "", m_accesses := 0 } ∧
        getDsaNodeId n (assignNodeId fn g s) = n.getId ∧
        isAccessed n (assignNodeId fn g s) = false) ∧
    (∀ n, n ∉ groupNodes g →
      nodesFind (assignNodeId fn g s).m_nodes_map n = nodesFind s.m_nodes_map n) ∧
    (∀ n w, nodesFind s.m_nodes_map n = some w →
      nodesFind (assignNodeId fn g s).m_nodes_map n = some w) := by
  refine ⟨?_, ?_, ?_, ?_⟩
  · intro n hn
    rw [nodesFind_assignNodeId]
    cases h : nodesFind s.m_nodes_map n with
    | some x => exact ⟨x, rfl⟩
    | none => exact ⟨NodeWrapper.mk3 n n.getId "", by simp [hn]⟩
  · intro n hn hnone
    have h : nodesFind (assignNodeId fn g s).m_nodes_map n =
        some (NodeWrapper.mk3 n n.getId "") := by
      rw [nodesFind_assignNodeId, hnone]
      simp [hn]
    refine ⟨h, ?_, ?_⟩
    · simp [getDsaNodeId, h, NodeWrapper.mk3, NodeWrapper.getId]
    · simp [isAccessed, h, NodeWrapper.mk3, NodeWrapper.getAccesses]
  · intro n hn
    rw [nodesFind_assignNodeId]
    cases h : nodesFind s.m_nodes_map n with
    | some x => rfl
    | none => simp [hn]
  · intro n w h
    rw [nodesFind_assignNodeId, h]

theorem assignNodeId_registers_witness :
    (∃ w, nodesFind (assignNodeId fun1 graph1 DsaInfo.init).m_nodes_map node2 = some w) ∧
      getDsaNodeId node1 (assignNodeId fun1 graph1 DsaInfo.init) = node1.getId ∧
      nodesFind (assignNodeId fun1 graph1 state1).m_nodes_map
          { node2 with addr := 99 } = nodesFind state1.m_nodes_map { node2 with addr := 99 } ∧
      nodesFind (assignNodeId fun1 graph1 state1).m_nodes_map node1 =
        some (NodeWrapper.mk3 node1 5 "") :=
  ⟨(assignNodeId_registers fun1 graph1 DsaInfo.init).1 node2 (by decide),
   ((assignNodeId_registers fun1 graph1 DsaInfo.init).2.1 node1 (by decide) rfl).2.1,
   (assignNodeId_registers fun1 graph1 state1).2.2.1 _ (by decide),
   (assignNodeId_registers fun1 graph1 state1).2.2.2 node1 _ (by decide)⟩

theorem nodesInsert_of_isSome {m : NodeWrapperMap} {n : Node} (w : NodeWrapper)
    (h : (nodesFind m n).isSome = true) : nodesInsert m n w = m := by
  unfold nodesInsert
  cases hf : nodesFind m n with
  | some x => rfl
  | none => rw [hf] at h; exact Bool.noConfusion h

theorem registerCells_of_present (cs : List (Value × Cell)) (m : NodeWrapperMap)
    (h : ∀ c, c ∈ cs → (nodesFind m c.2.getNode).isSome = true) :
    cs.foldl registerCell m = m := by
  induction cs with
  | nil => rfl
  | cons c cs ih =>
    have hc : registerCell m c = m := nodesInsert_of_isSome _ (h c (List.mem_cons_self c cs))
    rw [List.foldl_cons, hc]
    exact ih (fun d hd => h d (List.mem_cons_of_mem c hd))

theorem assignNodeId_of_present (fn : Function) (g : Graph) (s : DsaInfo)
    (h : ∀ n, n ∈ groupNodes g → (nodesFind s.m_nodes_map n).isSome = true) :
    assignNodeId fn g s = s := by
  have hm : (assignNodeId fn g s).m_nodes_map = s.m_nodes_map := by
    rw [assignNodeId_nodes]
    apply registerCells_of_present
    intro c hc
    exact h _ (List.mem_map_of_mem (fun kv => kv.2.getNode) hc)
  cases s
  simp only [assignNodeId] at hm ⊢
  simp only [hm]

theorem present_after_assignNodeId (fn : Function) (g : Graph) (s : DsaInfo) (n : Node)
    (hn : n ∈ groupNodes g) : (nodesFind (assignNodeId fn g s).m_nodes_map n).isSome = true := by
  rw [nodesFind_assignNodeId]
  cases h : nodesFind s.m_nodes_map n with
  | some x => rfl
  | none => simp [hn]

theorem nodesFind_nodesIncr_isSome (m : NodeWrapperMap) (n k : Node) :
    (nodesFind (nodesIncr m n) k).isSome = (nodesFind m k).isSome := by
  induction m with
  | nil => rfl
  | cons p m ih =>
    obtain ⟨a, w⟩ := p
    by_cases h : a = n
    · by_cases hk : a = k
      · simp only [nodesIncr, nodesFind, if_pos h, if_pos hk, Option.isSome_some]
      · simp only [nodesIncr, nodesFind, if_pos h, if_neg hk]
    · by_cases hk : a = k
      · simp only [nodesIncr, nodesFind, if_neg h, if_pos hk, Option.isSome_some]
      · simp only [nodesIncr, nodesFind, if_neg h, if_neg hk, ih]

theorem present_recordMemAccess (o : Oracle) (v : Value) (g : Graph) (s : DsaInfo) (k : Node) :
    (nodesFind (recordMemAccess o v g s).m_nodes_map k).isSome =
      (nodesFind s.m_nodes_map k).isSome := by
  unfold recordMemAccess
  simp only
  split
  · rfl
  · split
    · split <;> rfl
    · split
      · rfl
      · split
        · exact nodesFind_nodesIncr_isSome _ _ _
        · rfl

theorem present_countAccesses (o : Oracle) (accesses : List (Value × Graph)) (s : DsaInfo)
    (k : Node) :
    (nodesFind (countAccesses o accesses s).m_nodes_map k).isSome =
      (nodesFind s.m_nodes_map k).isSome := by
  induction accesses generalizing s with
  | nil => rfl
  | cons a l ih =>
    simp only [countAccesses, List.foldl_cons] at ih ⊢
    rw [ih, present_recordMemAccess]

theorem present_recordInst (o : Oracle) (g : Graph) (s : DsaInfo) (i : Instruction) (k : Node) :
    (nodesFind (recordInst o g s i).m_nodes_map k).isSome =
      (nodesFind s.m_nodes_map k).isSome := by
  cases i <;> simp [recordInst, present_recordMemAccess]

theorem present_recordMemAccesses (o : Oracle) (f : Function) (s : DsaInfo) (k : Node) :
    (nodesFind (recordMemAccesses o f s).m_nodes_map k).isSome =
      (nodesFind s.m_nodes_map k).isSome := by
  unfold recordMemAccesses
  cases getDsaGraph f with
  | none => rfl
  | some g =>
    simp only
    generalize f.insts = l
    induction l generalizing s with
    | nil => rfl
    | cons a l ih =>
      rw [List.foldl_cons, ih, present_recordInst]

theorem seen_recordMemAccess (o : Oracle) (v : Value) (g : Graph) (s : DsaInfo) :
    (recordMemAccess o v g s).m_seen_graphs = s.m_seen_graphs := by
  unfold recordMemAccess
  simp only
  split
  · rfl
  · split
    · split <;> rfl
    · split
      · rfl
      · split <;> rfl

theorem seen_recordMemAccesses (o : Oracle) (f : Function) (s : DsaInfo) :
    (recordMemAccesses o f s).m_seen_graphs = s.m_seen_graphs := by
  unfold recordMemAccesses
  cases getDsaGraph f with
  | none => rfl
  | some g =>
    simp only
    generalize f.insts = l
    induction l generalizing s with
    | nil => rfl
    | cons a l ih =>
      rw [List.foldl_cons, ih]
      cases a <;> simp [recordInst, seen_recordMemAccess]

/-- C7. Registering a graph a second time changes nothing.  After `assignNodeId` on `g`,
whatever accesses `recordMemAccess` counts afterwards, a second `assignNodeId` on `g` returns
the state it was given: the same keys, the same size, the same id, representative and access
counter for every wrapper.  So for two functions that share `g`, `runOnFunction` on the second
one does to the state what its access accounting alone does. -/
theorem assignNodeId_idempotent (o : Oracle) (fn1 fn2 : Function) (g : Graph) (s : DsaInfo)
    (accesses : List (Value × Graph)) :
    assignNodeId fn2 g (countAccesses o accesses (assignNodeId fn1 g s)) =
        countAccesses o accesses (assignNodeId fn1 g s) ∧
    (fn1.isDeclaration = false → fn2.isDeclaration = false →
      fn1.graph = some g → fn2.graph = some g →
      runOnFunction o fn2 (runOnFunction o fn1 s) =
        recordMemAccesses o fn2 (runOnFunction o fn1 s)) := by
  constructor
  · apply assignNodeId_of_present
    intro n hn
    rw [present_countAccesses]
    exact present_after_assignNodeId fn1 g s n hn
  · intro hd1 hd2 hg1 hg2
    have h2 : ∀ t, runOnFunction o fn2 t =
        recordMemAccesses o fn2
          (if t.m_seen_graphs.count g ≤ 0 then assignNodeId fn2 g t else t) := by
      intro t
      simp [runOnFunction, hd2, getDsaGraph, hg2]
    have h1 : runOnFunction o fn1 s =
        recordMemAccesses o fn1
          (if s.m_seen_graphs.count g ≤ 0 then assignNodeId fn1 g s else s) := by
      simp [runOnFunction, hd1, getDsaGraph, hg1]
    rw [h2]
    by_cases hc : (runOnFunction o fn1 s).m_seen_graphs.count g ≤ 0
    · rw [if_pos hc]
      congr 1
      apply assignNodeId_of_present
      intro n hn
      have hseen : (runOnFunction o fn1 s).m_seen_graphs = s.m_seen_graphs := by
        rw [h1, seen_recordMemAccesses]
        split <;> rfl
      rw [hseen] at hc
      rw [h1, if_pos hc, present_recordMemAccesses]
      exact present_after_assignNodeId fn1 g s n hn
    · rw [if_neg hc]

theorem assignNodeId_idempotent_witness :
    runOnFunction oracle1 fun1 (runOnFunction oracle1 fun1 DsaInfo.init) =
      recordMemAccesses oracle1 fun1 (runOnFunction oracle1 fun1 DsaInfo.init) :=
  (assignNodeId_idempotent oracle1 fun1 fun1 graph1 DsaInfo.init []).2 rfl rfl rfl rfl

/-! ## Lemmas on sorting -/

theorem insertM_perm {α : Type} (lt : α → α → Option Bool) (x : α) (acc r : List α)
    (h : insertM lt x acc = some r) : List.Perm r (x :: acc) := by
  induction acc generalizing r with
  | nil =>
    simp only [insertM, Option.some.injEq] at h
    subst h
    exact List.Perm.refl _
  | cons y ys ih =>
    simp only [insertM] at h
    cases hc : lt x y with
    | none => rw [hc] at h; exact Option.noConfusion h
    | some b =>
      rw [hc] at h
      cases b with
      | true =>
        simp only [Option.some.injEq] at h
        subst h
        exact List.Perm.refl _
      | false =>
        simp only at h
        cases hi : insertM lt x ys with
        | none => rw [hi] at h; exact Option.noConfusion h
        | some r2 =>
          rw [hi] at h
          simp only [Option.map_some', Option.some.injEq] at h
          subst h
          exact ((ih r2 hi).cons y).trans (List.Perm.swap x y ys)

theorem sortLoop_perm {α : Type} (lt : α → α → Option Bool) (xs acc r : List α)
    (h : sortLoop lt acc xs = some r) : List.Perm r (acc ++ xs) := by
  induction xs generalizing acc r with
  | nil =>
    simp only [sortLoop, Option.some.injEq] at h
    subst h
    simp
  | cons x xs ih =>
    simp only [sortLoop] at h
    cases hi : insertM lt x acc with
    | none => rw [hi] at h; exact Option.noConfusion h
    | some acc1 =>
      rw [hi] at h
      simp only at h
      have h1 := ih acc1 r h
      have h2 := insertM_perm lt x acc acc1 hi
      refine h1.trans ?_
      refine (h2.append_right xs).trans ?_
      simp only [List.cons_append]
      exact List.perm_middle.symm

theorem std_sort_perm {α : Type} (lt : α → α → Option Bool) (xs r : List α)
    (h : std_sort lt xs = some r) : List.Perm r xs := by
  simpa using sortLoop_perm lt xs [] r h

theorem insertM_isSome {α : Type} (lt : α → α → Option Bool) (x : α) (acc : List α)
    (h : ∀ y, y ∈ acc → (lt x y).isSome = true) : (insertM lt x acc).isSome = true := by
  induction acc with
  | nil => rfl
  | cons y ys ih =>
    simp only [insertM]
    cases hc : lt x y with
    | none =>
      have := h y (List.mem_cons_self y ys)
      rw [hc] at this
      exact Bool.noConfusion this
    | some b =>
      cases b with
      | true => rfl
      | false =>
        simp only
        have := ih (fun z hz => h z (List.mem_cons_of_mem y hz))
        cases hi : insertM lt x ys with
        | none => rw [hi] at this; exact Bool.noConfusion this
        | some r2 => rfl

theorem sortLoop_isSome {α : Type} (lt : α → α → Option Bool) (xs acc : List α)
    (h : ∀ x y, x ∈ acc ++ xs → y ∈ acc ++ xs → (lt x y).isSome = true) :
    (sortLoop lt acc xs).isSome = true := by
  induction xs generalizing acc with
  | nil => rfl
  | cons x xs ih =>
    simp only [sortLoop]
    have hx : x ∈ acc ++ x :: xs := by simp
    have hi := insertM_isSome lt x acc
      (fun y hy => h x y hx (List.mem_append_left _ hy))
    cases hr : insertM lt x acc with
    | none => rw [hr] at hi; exact Bool.noConfusion hi
    | some acc1 =>
      simp only
      apply ih
      have hp := insertM_perm lt x acc acc1 hr
      have hm : ∀ z, z ∈ acc1 ++ xs → z ∈ acc ++ x :: xs := by
        intro z hz
        rcases List.mem_append.mp hz with hz | hz
        · rcases List.mem_cons.mp (hp.subset hz) with e | e
          · subst e; exact hx
          · exact List.mem_append_left _ e
        · exact List.mem_append_right _ (List.mem_cons_of_mem x hz)
      intro a b ha hb
      exact h a b (hm a ha) (hm b hb)

theorem std_sort_isSome {α : Type} (lt : α → α → Option Bool) (xs : List α)
    (h : ∀ x y, x ∈ xs → y ∈ xs → (lt x y).isSome = true) :
    (std_sort lt xs).isSome = true :=
  sortLoop_isSome lt xs [] (by simpa using h)

theorem compareValues_isSome {v1 v2 : Value} (h1 : v1.hasName = true) (h2 : v2.hasName = true) :
    (compareValues v1 v2).isSome = true := by
  simp [compareValues, h1, h2]

theorem sort_sites_isSome (l : List Value) (h : ∀ v, v ∈ l → v.hasName = true) :
    ∃ r, std_sort compareValues l = some r := by
  have := std_sort_isSome compareValues l (fun x y hx hy => compareValues_isSome (h x hx) (h y hy))
  cases hs : std_sort compareValues l with
  | none => rw [hs] at this; exact Bool.noConfusion this
  | some r => exact ⟨r, rfl⟩

theorem sort_nodes_isSome (l : List NodeWrapper) :
    ∃ r, std_sort (fun a b => some (NodeWrapper.lt a b)) l = some r := by
  have := std_sort_isSome (fun a b => some (NodeWrapper.lt a b)) l (fun _ _ _ _ => rfl)
  cases hs : std_sort (fun a b => some (NodeWrapper.lt a b)) l with
  | none => rw [hs] at this; exact Bool.noConfusion this
  | some r => exact ⟨r, rfl⟩

/-! ## Lemmas on the allocation-site numbering -/

theorem recordSite_fst (n : NodeWrapper) (st : DsaInfo × AllocToNodesMap) (v : Value) :
    (recordSite n st v).1 = (recordAllocSite v st.1).2.2 := by
  unfold recordSite
  simp only
  split <;> rfl

theorem foldl_recordSite_fst (n : NodeWrapper) (sites : List Value)
    (st : DsaInfo × AllocToNodesMap) :
    (sites.foldl (recordSite n) st).1 = recordAllocSites sites st.1 := by
  induction sites generalizing st with
  | nil => rfl
  | cons v vs ih => rw [List.foldl_cons, ih, recordSite_fst, recordAllocSites_cons]

theorem assignLoop_calls (ns : List NodeWrapper) (st r : DsaInfo × AllocToNodesMap)
    (h : assignLoop ns st = some r) :
    ∃ calls, r.1 = recordAllocSites calls st.1 ∧
      List.Perm calls (ns.flatMap (fun n => n.getNode.getAllocSites)) := by
  induction ns generalizing st with
  | nil =>
    simp only [assignLoop, Option.some.injEq] at h
    subst h
    exact ⟨[], rfl, List.Perm.refl _⟩
  | cons n ns ih =>
    simp only [assignLoop] at h
    cases hs : std_sort compareValues n.getNode.getAllocSites with
    | none => rw [hs] at h; exact Option.noConfusion h
    | some sites =>
      rw [hs] at h
      simp only at h
      obtain ⟨calls, hc, hp⟩ := ih _ h
      refine ⟨sites ++ calls, ?_, ?_⟩
      · rw [hc, foldl_recordSite_fst, recordAllocSites_append]
      · rw [List.flatMap_cons]
        exact (std_sort_perm _ _ _ hs).append hp

theorem assignLoop_isSome (ns : List NodeWrapper) (st : DsaInfo × AllocToNodesMap)
    (h : ∀ n, n ∈ ns → ∀ v, v ∈ n.getNode.getAllocSites → v.hasName = true) :
    ∃ r, assignLoop ns st = some r := by
  induction ns generalizing st with
  | nil => exact ⟨st, rfl⟩
  | cons n ns ih =>
    obtain ⟨sites, hs⟩ := sort_sites_isSome n.getNode.getAllocSites
      (h n (List.mem_cons_self n ns))
    simp only [assignLoop, hs]
    exact ih _ (fun m hm => h m (List.mem_cons_of_mem n hm))

theorem assignAllocSiteId_calls (s : DsaInfo) (r : DsaInfo × AllocToNodesMap)
    (h : assignAllocSiteId s = some r) :
    ∃ calls, r.1 = recordAllocSites calls s ∧ List.Perm calls (liveSites s) := by
  unfold assignAllocSiteId at h
  cases hn : std_sort (fun a b => some (NodeWrapper.lt a b)) (live_nodes s) with
  | none => rw [hn] at h; exact Option.noConfusion h
  | some nodes =>
    rw [hn] at h
    simp only at h
    obtain ⟨calls, hc, hp⟩ := assignLoop_calls nodes (s, []) r h
    refine ⟨calls, hc, hp.trans ?_⟩
    exact List.Perm.flatMap_right _ (std_sort_perm _ _ _ hn)

theorem assignAllocSiteId_isSome (s : DsaInfo)
    (h : ∀ v, v ∈ liveSites s → v.hasName = true) :
    ∃ r, assignAllocSiteId s = some r := by
  unfold assignAllocSiteId
  obtain ⟨nodes, hn⟩ := sort_nodes_isSome (live_nodes s)
  rw [hn]
  simp only
  apply assignLoop_isSome
  intro n hnm v hv
  apply h
  have : n ∈ live_nodes s := (std_sort_perm _ _ _ hn).subset hnm
  exact List.mem_flatMap.mpr ⟨n, this, hv⟩

theorem length_eq_of_same_members {l1 l2 : List Value} (h1 : l1.Nodup) (h2 : l2.Nodup)
    (h : ∀ v, v ∈ l1 ↔ v ∈ l2) : l1.length = l2.length :=
  ((List.perm_ext_iff_of_nodup h1 h2).mpr h).length_eq

/-- C4. After `assignAllocSiteId` on a state with an empty allocation-site registry, all
allocation sites of the live registered nodes being named: the call completes, the values with
an id are exactly the values in `getAllocSites ()` of some live registered node, and the ids of
these values are exactly `1 .. N` without repetition, `N` being the number of distinct such
values. -/
theorem assignAllocSiteId_dense (s : DsaInfo) (h0 : AllocSitesEmpty s)
    (hnamed : ∀ v, v ∈ liveSites s → v.hasName = true) :
    ∃ r, assignAllocSiteId s = some r ∧
      (∀ v, getAllocSiteId v r.1 ≠ 0 ↔
        ∃ w, w ∈ live_nodes s ∧ v ∈ w.getNode.getAllocSites) ∧
      (∀ v, v ∈ allocKeys r.1 ↔ v ∈ liveSites s) ∧
      (∀ i, (∃ v, v ∈ liveSites s ∧ getAllocSiteId v r.1 = i) ↔
        1 ≤ i ∧ i ≤ (liveSites s).dedup.length) ∧
      (∀ v1 v2, v1 ∈ liveSites s → v2 ∈ liveSites s →
        getAllocSiteId v1 r.1 = getAllocSiteId v2 r.1 → v1 = v2) ∧
      r.1.m_alloc_sites_bimap.length = (liveSites s).dedup.length := by
  obtain ⟨r, hr⟩ := assignAllocSiteId_isSome s hnamed
  obtain ⟨calls, hc, hp⟩ := assignAllocSiteId_calls s r hr
  have hs : AllocInv r.1 := by
    rw [hc]
    exact AllocInv_recordAllocSites calls (AllocInv_of_empty h0)
  have hk : allocKeys r.1 = firstSeen calls := by
    rw [hc]
    exact allocKeys_of_empty h0 calls
  have hmem : ∀ v, v ∈ allocKeys r.1 ↔ v ∈ liveSites s := by
    intro v
    rw [hk, mem_firstSeen]
    exact hp.mem_iff
  have hlen : r.1.m_alloc_sites_bimap.length = (liveSites s).dedup.length := by
    have h1 : r.1.m_alloc_sites_bimap.length = (allocKeys r.1).length := by simp [allocKeys]
    rw [h1]
    apply length_eq_of_same_members
    · rw [hk]; exact nodup_firstSeen calls
    · exact List.nodup_dedup _
    · intro v
      rw [hmem, List.mem_dedup]
  refine ⟨r, hr, ?_, hmem, ?_, ?_, hlen⟩
  · intro v
    rw [Ne, getAllocSiteId_eq_zero_iff hs, not_not, hmem, liveSites, List.mem_flatMap]
  · intro i
    rw [← hlen]
    constructor
    · rintro ⟨v, hv, hid⟩
      obtain ⟨j, hj⟩ := leftFind_isSome_of_mem ((hmem v).mpr hv)
      rw [getAllocSiteId_of_leftFind hj] at hid
      subst hid
      exact id_range_of_leftFind hs hj
    · intro hi
      obtain ⟨v, hv⟩ := (rightFind_isSome_iff hs i).mpr hi
      have hl := (left_iff_right hs v i).mpr hv
      exact ⟨v, (hmem v).mp (mem_allocKeys_of_leftFind hl), getAllocSiteId_of_leftFind hl⟩
  · intro v1 v2 h1 h2 he
    by_contra hne
    exact ids_differ_of_ne hs ((hmem v1).mpr h1) ((hmem v2).mpr h2) hne he

theorem assignAllocSiteId_dense_witness :
    AllocSitesEmpty state1 ∧
      ∃ r, assignAllocSiteId state1 = some r ∧
        (∀ v, getAllocSiteId v r.1 ≠ 0 ↔
          ∃ w, w ∈ live_nodes state1 ∧ v ∈ w.getNode.getAllocSites) ∧
        (∀ v, v ∈ allocKeys r.1 ↔ v ∈ liveSites state1) ∧
        (∀ i, (∃ v, v ∈ liveSites state1 ∧ getAllocSiteId v r.1 = i) ↔
          1 ≤ i ∧ i ≤ (liveSites state1).dedup.length) ∧
        (∀ v1 v2, v1 ∈ liveSites state1 → v2 ∈ liveSites state1 →
          getAllocSiteId v1 r.1 = getAllocSiteId v2 r.1 → v1 = v2) ∧
        r.1.m_alloc_sites_bimap.length = (liveSites state1).dedup.length :=
  ⟨by decide, assignAllocSiteId_dense state1 (by decide) (by decide)⟩

theorem mem_nodeSetInsert {l : List NodeWrapper} {n w : NodeWrapper}
    (h : w ∈ nodeSetInsert l n) : w ∈ l ∨ w = n := by
  induction l with
  | nil =>
    simp only [nodeSetInsert, List.mem_singleton] at h
    exact Or.inr h
  | cons a l ih =>
    simp only [nodeSetInsert] at h
    split at h
    · rcases List.mem_cons.mp h with e | e
      · exact Or.inr e
      · exact Or.inl e
    · split at h
      · rcases List.mem_cons.mp h with e | e
        · exact Or.inl (e ▸ List.mem_cons_self a l)
        · rcases ih e with e2 | e2
          · exact Or.inl (List.mem_cons_of_mem a e2)
          · exact Or.inr e2
      · exact Or.inl h

theorem TableAll_tableAddNode {P : NodeWrapper → Prop} {t : AllocToNodesMap} (v : Value)
    {n : NodeWrapper} (ht : TableAll P t) (hn : P n) : TableAll P (tableAddNode t v n) := by
  induction t with
  | nil => exact ht
  | cons p t ih =>
    obtain ⟨k, e⟩ := p
    have htail : TableAll P t := fun x hx => ht x (List.mem_cons_of_mem _ hx)
    have hhead : ∀ w, w ∈ e.2 → P w := fun w hw => ht (k, e) (List.mem_cons_self _ _) w hw
    simp only [tableAddNode]
    split
    · intro x hx w hw
      rcases List.mem_cons.mp hx with e1 | e1
      · subst e1
        rcases mem_nodeSetInsert hw with e2 | e2
        · exact hhead w e2
        · exact e2 ▸ hn
      · exact htail x e1 w hw
    · intro x hx w hw
      rcases List.mem_cons.mp hx with e1 | e1
      · subst e1
        exact hhead w hw
      · exact ih htail x e1 w hw

theorem TableAll_recordSite {P : NodeWrapper → Prop} {n : NodeWrapper}
    {st : DsaInfo × AllocToNodesMap} (v : Value) (ht : TableAll P st.2) (hn : P n) :
    TableAll P (recordSite n st v).2 := by
  unfold recordSite
  simp only
  split
  · exact TableAll_tableAddNode v ht hn
  · intro x hx w hw
    rcases List.mem_append.mp hx with e1 | e1
    · exact ht x e1 w hw
    · simp only [List.mem_singleton] at e1
      subst e1
      rcases mem_nodeSetInsert hw with e2 | e2
      · exact absurd e2 (List.not_mem_nil w)
      · exact e2 ▸ hn

theorem TableAll_foldl_recordSite {P : NodeWrapper → Prop} {n : NodeWrapper}
    (sites : List Value) {st : DsaInfo × AllocToNodesMap} (ht : TableAll P st.2) (hn : P n) :
    TableAll P (sites.foldl (recordSite n) st).2 := by
  induction sites generalizing st with
  | nil => exact ht
  | cons v vs ih => exact ih (TableAll_recordSite v ht hn)

theorem TableAll_assignLoop {P : NodeWrapper → Prop} (ns : List NodeWrapper)
    {st r : DsaInfo × AllocToNodesMap} (ht : TableAll P st.2) (hn : ∀ n, n ∈ ns → P n)
    (h : assignLoop ns st = some r) : TableAll P r.2 := by
  induction ns generalizing st with
  | nil =>
    simp only [assignLoop, Option.some.injEq] at h
    subst h
    exact ht
  | cons n ns ih =>
    simp only [assignLoop] at h
    cases hs : std_sort compareValues n.getNode.getAllocSites with
    | none => rw [hs] at h; exact Option.noConfusion h
    | some sites =>
      rw [hs] at h
      exact ih (TableAll_foldl_recordSite sites ht (hn n (List.mem_cons_self n ns)))
        (fun m hm => hn m (List.mem_cons_of_mem n hm)) h

theorem TableAll_assignAllocSiteId (s : DsaInfo) (r : DsaInfo × AllocToNodesMap)
    (h : assignAllocSiteId s = some r) :
    TableAll (fun w => w ∈ live_nodes s) r.2 := by
  unfold assignAllocSiteId at h
  cases hn : std_sort (fun a b => some (NodeWrapper.lt a b)) (live_nodes s) with
  | none => rw [hn] at h; exact Option.noConfusion h
  | some nodes =>
    rw [hn] at h
    refine TableAll_assignLoop nodes ?_ ?_ h
    · intro e he
      exact absurd he (List.not_mem_nil e)
    · intro n hnm
      exact (std_sort_perm _ _ _ hn).subset hnm

theorem live_nodes_eraseDead (s : DsaInfo) : live_nodes (eraseDead s) = live_nodes s := by
  unfold live_nodes eraseDead
  simp only
  induction s.m_nodes_map with
  | nil => rfl
  | cons p m ih =>
    by_cases h : is_alive_node p.2 = true
    · simp only [List.filter_cons, h, if_true, List.map_cons, ih]
    · have h2 : is_alive_node p.2 = false := Bool.eq_false_iff.mpr h
      simp only [List.filter_cons, h2, List.map_cons]
      simpa using ih

theorem recordAllocSite_setNodes (v : Value) (s : DsaInfo) (m : NodeWrapperMap) :
    recordAllocSite v { s with m_nodes_map := m } =
      ((recordAllocSite v s).1, (recordAllocSite v s).2.1,
        { (recordAllocSite v s).2.2 with m_nodes_map := m }) := by
  unfold recordAllocSite
  simp only
  cases leftFind s.m_alloc_sites_bimap v <;> rfl

theorem recordSite_setNodes (n : NodeWrapper) (v : Value) (s : DsaInfo) (t : AllocToNodesMap)
    (m : NodeWrapperMap) :
    recordSite n ({ s with m_nodes_map := m }, t) v =
      ({ (recordSite n (s, t) v).1 with m_nodes_map := m }, (recordSite n (s, t) v).2) := by
  unfold recordSite
  simp only [recordAllocSite_setNodes]
  cases tableFind t v <;> rfl

theorem foldl_recordSite_setNodes (n : NodeWrapper) (sites : List Value) (s : DsaInfo)
    (t : AllocToNodesMap) (m : NodeWrapperMap) :
    sites.foldl (recordSite n) ({ s with m_nodes_map := m }, t) =
      ({ (sites.foldl (recordSite n) (s, t)).1 with m_nodes_map := m },
        (sites.foldl (recordSite n) (s, t)).2) := by
  induction sites generalizing s t with
  | nil => rfl
  | cons v vs ih =>
    rw [List.foldl_cons, List.foldl_cons, recordSite_setNodes, ih]

theorem assignLoop_setNodes (ns : List NodeWrapper) (s : DsaInfo) (t : AllocToNodesMap)
    (m : NodeWrapperMap) :
    (assignLoop ns ({ s with m_nodes_map := m }, t)).map allocOutcome =
      (assignLoop ns (s, t)).map allocOutcome := by
  induction ns generalizing s t with
  | nil => rfl
  | cons n ns ih =>
    simp only [assignLoop]
    cases std_sort compareValues n.getNode.getAllocSites with
    | none => rfl
    | some sites =>
      simp only
      rw [foldl_recordSite_setNodes, ih]

/-- C5. Liveness gating.  A wrapper is live exactly when its node is read or modified.  A node
with both flags false is the node of no wrapper in any entry of the table that
`assignAllocSiteId` builds, and it causes no `recordAllocSite` call: the bimap, the set of ids
and the table are those of the run on the registry without the dead nodes, whatever allocation
sites these own. -/
theorem dead_nodes_excluded (s : DsaInfo) :
    (∀ w, is_alive_node w = true ↔
      (w.getNode.isRead = true ∨ w.getNode.isModified = true)) ∧
    (∀ r, assignAllocSiteId s = some r →
      ∀ n : Node, n.isRead = false → n.isModified = false →
        ∀ e, e ∈ r.2 → ∀ w, w ∈ e.2.2 → w.getNode ≠ n) ∧
    (assignAllocSiteId (eraseDead s)).map allocOutcome =
      (assignAllocSiteId s).map allocOutcome := by
  refine ⟨?_, ?_, ?_⟩
  · intro w
    simp [is_alive_node]
  · intro r hr n h1 h2 e he w hw hn
    have hlive := TableAll_assignAllocSiteId s r hr e he w hw
    have : is_alive_node w = true := by
      unfold live_nodes at hlive
      exact (List.mem_filter.mp hlive).2
    rw [is_alive_node, hn, h1, h2] at this
    exact Bool.noConfusion this
  · unfold assignAllocSiteId
    rw [live_nodes_eraseDead]
    cases std_sort (fun a b => some (NodeWrapper.lt a b)) (live_nodes s) with
    | none => rfl
    | some nodes => exact assignLoop_setNodes nodes s [] _

theorem dead_nodes_excluded_witness :
    (NodeWrapper.mk3 node3 2 "").getNode ≠ node2 :=
  (dead_nodes_excluded state2).2.1
    ({ state2 with m_alloc_sites_bimap := [(va, 1)], m_alloc_sites_set := [1] },
      [(va, (1, [NodeWrapper.mk3 node3 2 ""]))])
    (by decide) node2 rfl rfl (va, (1, [NodeWrapper.mk3 node3 2 ""])) (by decide)
    (NodeWrapper.mk3 node3 2 "") (by decide)

/-- C6. The numbering depends on the enumeration order of `getAllocSites ()` when two allocation
sites of a node have the same name.  The two runs start from an empty registry with one live
node whose sites are `vb` and `vb2`, both named `b`; they differ in the enumeration order
alone.  The run that enumerates `vb` first gives `vb` the id 1 and `vb2` the id 2, the run that
enumerates `vb2` first gives `vb` the id 2 and `vb2` the id 1. -/
theorem numbering_depends_on_enumeration :
    AllocSitesEmpty state3a ∧ AllocSitesEmpty state3b ∧
    vb.hasName = true ∧ vb2.hasName = true ∧
    node4b = { node4a with getAllocSites := node4a.getAllocSites.reverse } ∧
    (assignAllocSiteId state3a).map (fun r => (getAllocSiteId vb r.1, getAllocSiteId vb2 r.1)) =
      some (1, 2) ∧
    (assignAllocSiteId state3b).map (fun r => (getAllocSiteId vb r.1, getAllocSiteId vb2 r.1)) =
      some (2, 1) := by
  refine ⟨by decide, by decide, rfl, rfl, rfl, ?_, ?_⟩
  · decide!
  · decide!

theorem nodesFind_registerGraphs (gs : List (Function × Graph)) (s : DsaInfo) (n : Node) :
    nodesFind (registerGraphs gs s).m_nodes_map n =
      match nodesFind s.m_nodes_map n with
      | some x => some x
      | none =>
        if gs.any (fun fg => decide (n ∈ groupNodes fg.2)) then some (NodeWrapper.mk3 n n.getId "")
        else none := by
  induction gs generalizing s with
  | nil =>
    cases h : nodesFind s.m_nodes_map n <;> simp [registerGraphs, h]
  | cons fg gs ih =>
    have hstep : registerGraphs (fg :: gs) s = registerGraphs gs (assignNodeId fg.1 fg.2 s) := rfl
    rw [hstep, ih, nodesFind_assignNodeId]
    cases h : nodesFind s.m_nodes_map n with
    | some x => rfl
    | none =>
      by_cases hg : n ∈ groupNodes fg.2
      · simp [hg]
      · have hd : decide (n ∈ groupNodes fg.2) = false := decide_eq_false hg
        simp only [if_neg hg, List.any_cons, hd, Bool.false_or]

/-- C10. Lookup misses return sentinels.  `getDsaNodeId` is 0 for a node without a wrapper and
the id of the wrapper otherwise; after the registration of any graphs in an empty node registry
it is 0 for a node behind no scalar, formal or return cell of these graphs.  In every state
reached from the empty registry by `recordAllocSite` calls, `getAllocSiteId` is 0 exactly for
the values that were never recorded and at least 1 for the recorded ones, and `getAllocValue`
is null exactly for the ids that no call returned, among them 0 and every id above the number
of recorded values. -/
theorem lookup_sentinels (t s0 : DsaInfo) (h0 : AllocSitesEmpty s0) (calls : List Value)
    (gs : List (Function × Graph)) :
    (∀ n, nodesFind t.m_nodes_map n = none → getDsaNodeId n t = 0) ∧
    (∀ n w, nodesFind t.m_nodes_map n = some w → getDsaNodeId n t = w.getId) ∧
    (∀ n, (∀ fg, fg ∈ gs → n ∉ groupNodes fg.2) →
      getDsaNodeId n (registerGraphs gs DsaInfo.init) = 0) ∧
    (∀ n fg, fg ∈ gs → n ∈ groupNodes fg.2 →
      getDsaNodeId n (registerGraphs gs DsaInfo.init) = n.getId) ∧
    (∀ v, getAllocSiteId v (recordAllocSites calls s0) = 0 ↔ v ∉ calls) ∧
    (∀ v, v ∈ calls → 1 ≤ getAllocSiteId v (recordAllocSites calls s0)) ∧
    (∀ i, getAllocValue i (recordAllocSites calls s0) = none ↔
      ∀ before v after, calls = before ++ v :: after →
        (recordAllocSite v (recordAllocSites before s0)).2.1 ≠ i) ∧
    getAllocValue 0 (recordAllocSites calls s0) = none ∧
    (∀ i, (firstSeen calls).length < i →
      getAllocValue i (recordAllocSites calls s0) = none) := by
  have hs := AllocInv_recordAllocSites calls (AllocInv_of_empty h0)
  have hk := allocKeys_of_empty h0 calls
  have hlen := bimap_length_of_empty h0 calls
  have hzero : ∀ v, getAllocSiteId v (recordAllocSites calls s0) = 0 ↔ v ∉ calls := by
    intro v
    rw [getAllocSiteId_eq_zero_iff hs, hk, mem_firstSeen]
  have hnone : ∀ i, ¬ (1 ≤ i ∧ i ≤ (firstSeen calls).length) →
      getAllocValue i (recordAllocSites calls s0) = none := by
    intro i hi
    rw [getAllocValue_eq]
    cases hf : rightFind (recordAllocSites calls s0).m_alloc_sites_bimap i with
    | none => rfl
    | some v =>
      have := (rightFind_isSome_iff hs i).mp ⟨v, hf⟩
      rw [hlen] at this
      exact absurd this hi
  refine ⟨?_, ?_, ?_, ?_, hzero, ?_, ?_, hnone 0 (by omega), fun i hi => hnone i (by omega)⟩
  · intro n hn
    simp [getDsaNodeId, hn]
  · intro n w hn
    simp [getDsaNodeId, hn]
  · intro n hn
    have hany : gs.any (fun fg => decide (n ∈ groupNodes fg.2)) = false := by
      rw [List.any_eq_false]
      intro fg hfg
      simpa using hn fg hfg
    simp [getDsaNodeId, nodesFind_registerGraphs, DsaInfo.init, nodesFind, hany]
  · intro n fg hfg hn
    have hany : gs.any (fun fg => decide (n ∈ groupNodes fg.2)) = true := by
      rw [List.any_eq_true]
      exact ⟨fg, hfg, by simpa using hn⟩
    simp [getDsaNodeId, nodesFind_registerGraphs, DsaInfo.init, nodesFind, hany,
      NodeWrapper.mk3, NodeWrapper.getId]
  · intro v hv
    have := (hzero v).not.mpr (not_not.mpr hv)
    omega
  · intro i
    constructor
    · intro hnull pre v post hc hid
      subst hc
      have := (returned_id_spec h0 pre post v).1
      rw [hid, hnull] at this
      exact Option.noConfusion this
    · intro hall
      rw [getAllocValue_eq]
      cases hf : rightFind (recordAllocSites calls s0).m_alloc_sites_bimap i with
      | none => rfl
      | some v =>
        exfalso
        have hl := (left_iff_right hs v i).mpr hf
        have hv : v ∈ calls := by
          rw [← mem_firstSeen, ← hk]
          exact mem_allocKeys_of_leftFind hl
        obtain ⟨pre, post, hc⟩ := List.append_of_mem hv
        apply hall pre v post hc
        subst hc
        rw [← (returned_id_spec h0 pre post v).2]
        exact getAllocSiteId_of_leftFind hl

theorem lookup_sentinels_witness :
    getDsaNodeId node2 DsaInfo.init = 0 ∧
      getDsaNodeId node4a (registerGraphs [(fun1, graph1)] DsaInfo.init) = 0 ∧
      getDsaNodeId node2 (registerGraphs [(fun1, graph1)] DsaInfo.init) = node2.getId ∧
      1 ≤ getAllocSiteId vb (recordAllocSites [va, vb] DsaInfo.init) ∧
      getAllocValue 3 (recordAllocSites [va, vb] DsaInfo.init) = none :=
  ⟨(lookup_sentinels DsaInfo.init DsaInfo.init (by decide) [va, vb] []).1 node2 rfl,
   (lookup_sentinels DsaInfo.init DsaInfo.init (by decide) [va, vb]
      [(fun1, graph1)]).2.2.1 node4a (by decide),
   (lookup_sentinels DsaInfo.init DsaInfo.init (by decide) [va, vb]
      [(fun1, graph1)]).2.2.2.1 node2 (fun1, graph1) (by decide) (by decide),
   (lookup_sentinels DsaInfo.init DsaInfo.init (by decide) [va, vb] []).2.2.2.2.2.1 vb
      (by decide),
   (lookup_sentinels DsaInfo.init DsaInfo.init (by decide) [va, vb] []).2.2.2.2.2.2.2.2 3
      (by decide)⟩

/-! ## Lemmas on the access accounting -/

theorem nodesFind_nodesIncr (m : NodeWrapperMap) (n k : Node) :
    nodesFind (nodesIncr m n) k =
      if k = n then (nodesFind m k).map NodeWrapper.incr else nodesFind m k := by
  induction m with
  | nil => simp [nodesIncr, nodesFind]
  | cons p m ih =>
    obtain ⟨a, w⟩ := p
    by_cases han : a = n
    · subst han
      by_cases hak : a = k
      · subst hak
        simp [nodesIncr, nodesFind]
      · have hka : ¬ k = a := fun e => hak e.symm
        simp [nodesIncr, nodesFind, hak, hka]
    · by_cases hak : a = k
      · subst hak
        simp [nodesIncr, nodesFind, han]
      · simp only [nodesIncr, if_neg han, nodesFind, if_neg hak, ih]

theorem keys_nodesIncr (m : NodeWrapperMap) (n : Node) :
    (nodesIncr m n).map Prod.fst = m.map Prod.fst := by
  induction m with
  | nil => rfl
  | cons p m ih =>
    obtain ⟨a, w⟩ := p
    by_cases han : a = n
    · simp [nodesIncr, han]
    · simp [nodesIncr, han, ih]

theorem recordMemAccess_cases (o : Oracle) (v : Value) (g : Graph) (s : DsaInfo) :
    (∃ n, (∀ k, accountedTo o g k v = decide (k = n)) ∧
        (nodesFind s.m_nodes_map n).isSome = true ∧
        recordMemAccess o v g s = { s with m_nodes_map := nodesIncr s.m_nodes_map n }) ∨
    ((∀ k, (nodesFind s.m_nodes_map k).isSome = true → accountedTo o g k v = false) ∧
        (recordMemAccess o v g s).m_nodes_map = s.m_nodes_map) := by
  unfold recordMemAccess
  simp only
  by_cases hst : isStaticallyKnown o (o.stripPointerCasts v) = true
  · right
    simp [hst, accountedTo]
  · cases hc : g.getCell (o.stripPointerCasts v) with
    | none =>
      right
      refine ⟨fun k _ => by simp [accountedTo, hc], ?_⟩
      by_cases hp : (o.stripPointerCasts v).isPointerTy = true <;> simp [hst, hp]
    | some c =>
      by_cases hg : (o.stripPointerCasts v).isGlobalValue = true
      · right
        simp [hst, hg, accountedTo]
      · cases hf : nodesFind s.m_nodes_map c.getNode with
        | none =>
          right
          refine ⟨?_, by simp [hst, hg, hf]⟩
          intro k hk
          have : c.getNode ≠ k := by
            intro e
            rw [e] at hf
            rw [hf] at hk
            exact Bool.noConfusion hk
          simp [accountedTo, hc, this]
        | some w =>
          left
          refine ⟨c.getNode, ?_, by simp [hf], by simp [hst, hg, hf]⟩
          intro k
          have hst2 : isStaticallyKnown o (o.stripPointerCasts v) = false :=
            Bool.eq_false_iff.mpr hst
          have hg2 : (o.stripPointerCasts v).isGlobalValue = false := Bool.eq_false_iff.mpr hg
          simp only [accountedTo, hst2, hg2, hc, Option.map_some', Option.some.injEq,
            Bool.not_false, Bool.true_and]
          by_cases e : k = c.getNode
          · simp [e]
          · have e2 : ¬ c.getNode = k := fun h => e h.symm
            simp [e, e2]

theorem keys_recordMemAccess (o : Oracle) (v : Value) (g : Graph) (s : DsaInfo) :
    (recordMemAccess o v g s).m_nodes_map.map Prod.fst = s.m_nodes_map.map Prod.fst := by
  rcases recordMemAccess_cases o v g s with ⟨n, _, _, h⟩ | ⟨_, h⟩
  · rw [h]
    exact keys_nodesIncr _ _
  · rw [h]

theorem foldl_recordInst (o : Oracle) (g : Graph) (insts : List Instruction) (s : DsaInfo) :
    insts.foldl (recordInst o g) s =
      (insts.flatMap Instruction.operands).foldl (fun st v => recordMemAccess o v g st) s := by
  induction insts generalizing s with
  | nil => rfl
  | cons i l ih =>
    rw [List.foldl_cons, ih, List.flatMap_cons, List.foldl_append]
    cases i <;> rfl

theorem nodesFind_foldl_recordMemAccess (o : Oracle) (g : Graph) (vs : List Value)
    (s : DsaInfo) (k : Node) :
    nodesFind (vs.foldl (fun st v => recordMemAccess o v g st) s).m_nodes_map k =
      (nodesFind s.m_nodes_map k).map
        (fun w => { w with m_accesses := w.m_accesses + vs.countP (accountedTo o g k) }) := by
  induction vs generalizing s with
  | nil =>
    cases h : nodesFind s.m_nodes_map k <;> simp [h]
  | cons v vs ih =>
    rw [List.foldl_cons, ih, List.countP_cons]
    rcases recordMemAccess_cases o v g s with ⟨n, hacc, _, h⟩ | ⟨hacc, h⟩
    · rw [h]
      simp only [nodesFind_nodesIncr, hacc]
      by_cases e : k = n
      · subst e
        cases nodesFind s.m_nodes_map k with
        | none => simp
        | some w =>
          simp [NodeWrapper.incr, Nat.add_assoc, Nat.add_comm 1]
      · simp [e]
    · rw [h]
      cases hf : nodesFind s.m_nodes_map k with
      | none => rfl
      | some w =>
        have := hacc k (by simp [hf])
        simp [this]

theorem keys_foldl_recordMemAccess (o : Oracle) (g : Graph) (vs : List Value) (s : DsaInfo) :
    (vs.foldl (fun st v => recordMemAccess o v g st) s).m_nodes_map.map Prod.fst =
      s.m_nodes_map.map Prod.fst := by
  induction vs generalizing s with
  | nil => rfl
  | cons v vs ih => rw [List.foldl_cons, ih, keys_recordMemAccess]

theorem recordMemAccesses_of_graph (o : Oracle) (f : Function) (g : Graph) (s : DsaInfo)
    (hg : f.graph = some g) :
    recordMemAccesses o f s =
      (f.insts.flatMap Instruction.operands).foldl (fun st v => recordMemAccess o v g st) s := by
  simp [recordMemAccesses, getDsaGraph, hg, foldl_recordInst]

/-- C11. Accounting filters: `recordMemAccess (v, g, I)` leaves the node registry, and so every
access counter, as it was whenever the cast-stripped `v` has a statically known size greater
than zero, or is a global value, or has no cell in `g`. -/
theorem recordMemAccess_filters (o : Oracle) (v : Value) (g : Graph) (s : DsaInfo) :
    ((∃ size, o.getObjectSize (o.stripPointerCasts v) = some size ∧ 0 < size) →
      (recordMemAccess o v g s).m_nodes_map = s.m_nodes_map) ∧
    ((o.stripPointerCasts v).isGlobalValue = true →
      (recordMemAccess o v g s).m_nodes_map = s.m_nodes_map) ∧
    (g.getCell (o.stripPointerCasts v) = none →
      (recordMemAccess o v g s).m_nodes_map = s.m_nodes_map) := by
  refine ⟨?_, ?_, ?_⟩
  · rintro ⟨size, hs, hpos⟩
    have : isStaticallyKnown o (o.stripPointerCasts v) = true := by
      simp [isStaticallyKnown, hs, hpos]
    simp [recordMemAccess, this]
  · intro hg
    unfold recordMemAccess
    simp only
    split
    · rfl
    · split
      · split <;> rfl
      · simp [hg]
  · intro hc
    unfold recordMemAccess
    simp only [hc]
    split
    · rfl
    · split <;> rfl

theorem recordMemAccess_filters_witness :
    (recordMemAccess oracleSized va graph2 state1).m_nodes_map = state1.m_nodes_map ∧
      (recordMemAccess oracle1 vg graph2 state1).m_nodes_map = state1.m_nodes_map ∧
      (recordMemAccess oracle1 vb2 graph2 state1).m_nodes_map = state1.m_nodes_map :=
  ⟨(recordMemAccess_filters oracleSized va graph2 state1).1 ⟨4, by decide, by decide⟩,
   (recordMemAccess_filters oracle1 vg graph2 state1).2.1 rfl,
   (recordMemAccess_filters oracle1 vb2 graph2 state1).2.2 (by decide)⟩

/-- C12. For a function `f` with the graph `g`, `recordMemAccesses (f)` adds to the access
counter of every registered node `n` exactly the number of accounted operands of the
instructions of `f` (pointer operand of a load or a store, destination and source of a memory
transfer, destination of a memory set) whose cast-stripped value passes the three filters and
whose cell in `g` points to `n`; id, representative and node of the wrapper stay; a node
without a wrapper has none afterwards, and the keys of the registry are the same. -/
theorem recordMemAccesses_counts (o : Oracle) (f : Function) (g : Graph) (s : DsaInfo)
    (hg : f.graph = some g) :
    (∀ n w, nodesFind s.m_nodes_map n = some w →
      nodesFind (recordMemAccesses o f s).m_nodes_map n =
        some { w with m_accesses := w.m_accesses +
          (f.insts.flatMap Instruction.operands).countP (accountedTo o g n) }) ∧
    (∀ n, nodesFind s.m_nodes_map n = none →
      nodesFind (recordMemAccesses o f s).m_nodes_map n = none) ∧
    (recordMemAccesses o f s).m_nodes_map.map Prod.fst = s.m_nodes_map.map Prod.fst := by
  rw [recordMemAccesses_of_graph o f g s hg]
  refine ⟨?_, ?_, keys_foldl_recordMemAccess o g _ s⟩
  · intro n w h
    rw [nodesFind_foldl_recordMemAccess, h]
    rfl
  · intro n h
    rw [nodesFind_foldl_recordMemAccess, h]
    rfl

theorem recordMemAccesses_counts_witness :
    nodesFind (recordMemAccesses oracle1 fun1 state1).m_nodes_map node1 =
        some { m_node := node1, m_id := 5, m_rep_name := "", m_accesses := 1 } ∧
      nodesFind (recordMemAccesses oracle1 fun1 DsaInfo.init).m_nodes_map node1 = none :=
  ⟨(recordMemAccesses_counts oracle1 fun1 graph1 state1 rfl).1 node1
      (NodeWrapper.mk3 node1 5 "") (by decide),
   (recordMemAccesses_counts oracle1 fun1 graph1 DsaInfo.init rfl).2.1 node1 rfl⟩

/-- C19, counterexample. The pointer-typed value `va` has no cell in `graph0`, and
`recordMemAccess` emits no warning for it: its size is statically known, so the method returns
before it looks for the cell. -/
theorem no_warning_when_size_known :
    (oracleSized.stripPointerCasts va).isPointerTy = true ∧
      graph0.getCell (oracleSized.stripPointerCasts va) = none ∧
      (recordMemAccess oracleSized va graph0 DsaInfo.init).errs = DsaInfo.init.errs := by
  decide

/-- C19, amended. When the cast-stripped operand has no statically known positive size and no
cell in the graph, `recordMemAccess` skips the access and emits exactly one warning if the
operand is pointer-typed and none if it is not; it emits no warning when the operand has a
cell, and none when the size is statically known, whether there is a cell or not. -/
theorem recordMemAccess_warning (o : Oracle) (v : Value) (g : Graph) (s : DsaInfo) :
    (isStaticallyKnown o (o.stripPointerCasts v) = false →
      g.getCell (o.stripPointerCasts v) = none →
      (o.stripPointerCasts v).isPointerTy = true →
      recordMemAccess o v g s =
        { s with errs := s.errs ++ [Diag.noCell (o.stripPointerCasts v)] }) ∧
    (g.getCell (o.stripPointerCasts v) = none →
      (o.stripPointerCasts v).isPointerTy = false →
      recordMemAccess o v g s = s) ∧
    ((g.getCell (o.stripPointerCasts v)).isSome = true →
      (recordMemAccess o v g s).errs = s.errs) ∧
    (isStaticallyKnown o (o.stripPointerCasts v) = true →
      recordMemAccess o v g s = s) := by
  refine ⟨?_, ?_, ?_, ?_⟩
  · intro h1 h2 h3
    simp [recordMemAccess, h1, h2, h3]
  · intro h2 h3
    unfold recordMemAccess
    simp only [h2, h3]
    split <;> rfl
  · intro h2
    unfold recordMemAccess
    simp only
    split
    · rfl
    · split
      · rename_i hc
        rw [hc] at h2
        exact Bool.noConfusion h2
      · split
        · rfl
        · split <;> rfl
  · intro h1
    simp [recordMemAccess, h1]

theorem recordMemAccess_warning_witness :
    recordMemAccess oracle1 vb2 graph2 state1 =
        { state1 with errs := state1.errs ++ [Diag.noCell vb2] } ∧
      (recordMemAccess oracle1 va graph2 state1).errs = state1.errs ∧
      recordMemAccess oracleSized va graph0 state1 = state1 :=
  ⟨(recordMemAccess_warning oracle1 vb2 graph2 state1).1 rfl (by decide) rfl,
   (recordMemAccess_warning oracle1 va graph2 state1).2.2.1 (by decide),
   (recordMemAccess_warning oracleSized va graph0 state1).2.2.2 (by decide)⟩

/-! ## Lemmas on the passes over functions and modules -/

theorem compareValues_of_unnamed_left {x y : Value} (h : x.hasName = false) :
    compareValues x y = none := by
  simp [compareValues, h]

theorem compareValues_of_unnamed_right {x y : Value} (h : y.hasName = false) :
    compareValues x y = none := by
  unfold compareValues
  cases hx : x.hasName <;> simp [h]

theorem insertM_compareValues_unnamed {x : Value} {acc : List Value} (hne : acc ≠ [])
    (h : x.hasName = false) : insertM compareValues x acc = none := by
  cases acc with
  | nil => exact absurd rfl hne
  | cons y ys => simp [insertM, compareValues_of_unnamed_left h]

theorem sortLoop_compareValues_abort (xs acc : List Value) (hne : acc ≠ [])
    (hacc : ∀ v, v ∈ acc → v.hasName = true) (hx : ∃ v, v ∈ xs ∧ v.hasName = false) :
    sortLoop compareValues acc xs = none := by
  induction xs generalizing acc with
  | nil =>
    obtain ⟨v, hv, _⟩ := hx
    exact absurd hv (List.not_mem_nil v)
  | cons x xs ih =>
    simp only [sortLoop]
    cases hn : x.hasName with
    | false => rw [insertM_compareValues_unnamed hne hn]
    | true =>
      cases hi : insertM compareValues x acc with
      | none => rfl
      | some acc1 =>
        simp only
        have hp := insertM_perm compareValues x acc acc1 hi
        apply ih
        · intro e
          rw [e] at hp
          exact absurd hp.length_eq (by simp)
        · intro v hv
          rcases List.mem_cons.mp (hp.subset hv) with e | e
          · exact e ▸ hn
          · exact hacc v e
        · obtain ⟨v, hv, hvn⟩ := hx
          rcases List.mem_cons.mp hv with e | e
          · rw [e, hn] at hvn
            exact Bool.noConfusion hvn
          · exact ⟨v, e, hvn⟩

theorem std_sort_compareValues_abort (l : List Value) (hlen : 2 ≤ l.length)
    (hx : ∃ v, v ∈ l ∧ v.hasName = false) : std_sort compareValues l = none := by
  match l, hlen, hx with
  | x1 :: x2 :: rest, _, hx =>
    simp only [std_sort, sortLoop, insertM]
    cases h1 : x1.hasName with
    | false =>
      simp [insertM, compareValues_of_unnamed_right h1]
    | true =>
      apply sortLoop_compareValues_abort (x2 :: rest) [x1] (by simp)
      · intro v hv
        rw [List.mem_singleton] at hv
        exact hv ▸ h1
      · obtain ⟨v, hv, hvn⟩ := hx
        rcases List.mem_cons.mp hv with e | e
        · rw [e, h1] at hvn
          exact Bool.noConfusion hvn
        · exact ⟨v, e, hvn⟩

theorem assignLoop_abort (ns : List NodeWrapper) (st : DsaInfo × AllocToNodesMap)
    (h : ∃ w, w ∈ ns ∧ 2 ≤ w.getNode.getAllocSites.length ∧
      ∃ v, v ∈ w.getNode.getAllocSites ∧ v.hasName = false) :
    assignLoop ns st = none := by
  induction ns generalizing st with
  | nil =>
    obtain ⟨w, hw, _⟩ := h
    exact absurd hw (List.not_mem_nil w)
  | cons n ns ih =>
    simp only [assignLoop]
    cases hs : std_sort compareValues n.getNode.getAllocSites with
    | none => rfl
    | some sites =>
      simp only
      apply ih
      obtain ⟨w, hw, hlen, hv⟩ := h
      rcases List.mem_cons.mp hw with e | e
      · subst e
        rw [std_sort_compareValues_abort _ hlen hv] at hs
        exact Option.noConfusion hs
      · exact ⟨w, e, hlen, hv⟩

theorem assignAllocSiteId_abort (s : DsaInfo)
    (h : ∃ w, w ∈ live_nodes s ∧ 2 ≤ w.getNode.getAllocSites.length ∧
      ∃ v, v ∈ w.getNode.getAllocSites ∧ v.hasName = false) :
    assignAllocSiteId s = none := by
  unfold assignAllocSiteId
  obtain ⟨nodes, hn⟩ := sort_nodes_isSome (live_nodes s)
  rw [hn]
  simp only
  apply assignLoop_abort
  obtain ⟨w, hw, rest⟩ := h
  exact ⟨w, (std_sort_perm _ _ _ hn).mem_iff.mpr hw, rest⟩

/-- C14, counterexample. The only allocation site of the live registered node `node5` is the
unnamed `vu`; `assignAllocSiteId` does not halt, it completes and gives `vu` the id 1: a range
of one element is sorted without a call of `compareValues`. -/
theorem unnamed_single_site_gets_id :
    AllocSitesEmpty state4 ∧ vu.hasName = false ∧
      (∃ w, w ∈ live_nodes state4 ∧ vu ∈ w.getNode.getAllocSites) ∧
      (assignAllocSiteId state4).map (fun r => getAllocSiteId vu r.1) = some 1 := by
  refine ⟨by decide, rfl, ⟨NodeWrapper.mk3 node5 9 "", by decide, by decide⟩, by decide⟩

/-- C14, amended. In the checked build `assignAllocSiteId` halts whenever a live registered
node with two or more allocation sites has an unnamed one; so when it completes, an unnamed
allocation site of a live registered node is the only allocation site of that node, and it
does get an id: from the empty registry the value is recorded with its id in the bimap and
the id set, the id is at least 1 and `getAllocValue` maps the id back to the value. -/
theorem name_precondition_enforced (s : DsaInfo) :
    ((∃ w, w ∈ live_nodes s ∧ 2 ≤ w.getNode.getAllocSites.length ∧
        ∃ v, v ∈ w.getNode.getAllocSites ∧ v.hasName = false) →
      assignAllocSiteId s = none) ∧
    (∀ r, assignAllocSiteId s = some r →
      ∀ w, w ∈ live_nodes s → ∀ v, v ∈ w.getNode.getAllocSites → v.hasName = false →
        w.getNode.getAllocSites = [v] ∧
        (AllocSitesEmpty s →
          (v, getAllocSiteId v r.1) ∈ r.1.m_alloc_sites_bimap ∧
          getAllocSiteId v r.1 ∈ r.1.m_alloc_sites_set ∧
          1 ≤ getAllocSiteId v r.1 ∧
          getAllocValue (getAllocSiteId v r.1) r.1 = some v)) := by
  refine ⟨assignAllocSiteId_abort s, ?_⟩
  intro r hr w hw v hv hn
  have hlen : ¬ 2 ≤ w.getNode.getAllocSites.length := by
    intro hlen
    rw [assignAllocSiteId_abort s ⟨w, hw, hlen, v, hv, hn⟩] at hr
    exact Option.noConfusion hr
  constructor
  · match hl : w.getNode.getAllocSites, hv, hlen with
    | [x], hv, _ =>
      rw [List.mem_singleton] at hv
      rw [hv]
    | _ :: _ :: _, _, hlen => exact absurd (by simp) hlen
  · intro h0
    obtain ⟨calls, hc, hp⟩ := assignAllocSiteId_calls s r hr
    have hA : AllocInv r.1 := by
      rw [hc]
      exact AllocInv_recordAllocSites calls (AllocInv_of_empty h0)
    have hk : v ∈ allocKeys r.1 := by
      rw [hc, allocKeys_of_empty h0, mem_firstSeen]
      exact hp.mem_iff.mpr (List.mem_flatMap.mpr ⟨w, hw, hv⟩)
    obtain ⟨i, hi⟩ := leftFind_isSome_of_mem hk
    have hrange := id_range_of_leftFind hA hi
    rw [getAllocSiteId_of_leftFind hi, getAllocValue_eq]
    refine ⟨(leftFind_eq_some hA.2.1).mp hi, ?_, hrange.1, (left_iff_right hA v i).mp hi⟩
    rw [hA.2.2, List.mem_range'_1]
    omega

theorem name_precondition_enforced_witness :
    assignAllocSiteId state5 = none ∧
      AllocSitesEmpty state4 ∧
      assignAllocSiteId state4 =
        some ({ state4 with m_alloc_sites_bimap := [(vu, 1)], m_alloc_sites_set := [1] },
          [(vu, (1, [NodeWrapper.mk3 node5 9 ""]))]) ∧
      (NodeWrapper.mk3 node5 9 "").getNode.getAllocSites = [vu] ∧
      1 ≤ getAllocSiteId vu
        { state4 with m_alloc_sites_bimap := [(vu, 1)], m_alloc_sites_set := [1] } ∧
      getAllocValue
          (getAllocSiteId vu
            { state4 with m_alloc_sites_bimap := [(vu, 1)], m_alloc_sites_set := [1] })
          { state4 with m_alloc_sites_bimap := [(vu, 1)], m_alloc_sites_set := [1] } =
        some vu :=
  match (name_precondition_enforced state4).2
      ({ state4 with m_alloc_sites_bimap := [(vu, 1)], m_alloc_sites_set := [1] },
        [(vu, (1, [NodeWrapper.mk3 node5 9 ""]))])
      (by decide) (NodeWrapper.mk3 node5 9 "") (by decide) vu (by decide) rfl with
  | ⟨h1, h2⟩ =>
    ⟨(name_precondition_enforced state5).1
        ⟨NodeWrapper.mk3 node6 8 "", by decide, by decide, vu, by decide, rfl⟩,
     by decide, by decide, h1, (h2 (by decide)).2.2.1, (h2 (by decide)).2.2.2⟩

/-! ## Lemmas on the table of allocation sites and nodes -/

theorem nodeSetInsert_sorted (ws : List NodeWrapper) (n : NodeWrapper) (h : NodeSetSorted ws) :
    NodeSetSorted (nodeSetInsert ws n) ∧
      ∀ id, id ∈ (nodeSetInsert ws n).map NodeWrapper.getId ↔
        id ∈ ws.map NodeWrapper.getId ∨ id = n.getId := by
  induction ws with
  | nil =>
    refine ⟨by simp [nodeSetInsert, NodeSetSorted], ?_⟩
    intro id
    simp [nodeSetInsert]
  | cons w ws ih =>
    unfold NodeSetSorted at h ih ⊢
    rw [List.pairwise_cons] at h
    obtain ⟨ih1, ih2⟩ := ih h.2
    by_cases h1 : n.getId < w.getId
    · have e : nodeSetInsert (w :: ws) n = n :: w :: ws := by
        simp [nodeSetInsert, NodeWrapper.lt, h1]
      rw [e]
      refine ⟨?_, ?_⟩
      · rw [List.pairwise_cons, List.pairwise_cons]
        refine ⟨?_, h⟩
        intro x hx
        rcases List.mem_cons.mp hx with e1 | e1
        · exact e1 ▸ h1
        · exact Nat.lt_trans h1 (h.1 x e1)
      · intro id
        simp only [List.map_cons, List.mem_cons]
        tauto
    · by_cases h2 : w.getId < n.getId
      · have e : nodeSetInsert (w :: ws) n = w :: nodeSetInsert ws n := by
          simp [nodeSetInsert, NodeWrapper.lt, h1, h2]
        rw [e]
        refine ⟨?_, ?_⟩
        · rw [List.pairwise_cons]
          refine ⟨?_, ih1⟩
          intro x hx
          have hx2 := (ih2 x.getId).mp (List.mem_map_of_mem NodeWrapper.getId hx)
          rcases hx2 with e1 | e1
          · obtain ⟨y, hy, hyx⟩ := List.mem_map.mp e1
            rw [← hyx]
            exact h.1 y hy
          · rw [e1]
            exact h2
        · intro id
          simp only [List.map_cons, List.mem_cons, ih2]
          tauto
      · have e : nodeSetInsert (w :: ws) n = w :: ws := by
          simp [nodeSetInsert, NodeWrapper.lt, h1, h2]
        have heq : n.getId = w.getId := by omega
        rw [e]
        refine ⟨List.pairwise_cons.mpr h, ?_⟩
        intro id
        simp only [List.map_cons, List.mem_cons, heq]
        tauto

theorem tableFind_eq_none {t : AllocToNodesMap} {v : Value} :
    tableFind t v = none ↔ v ∉ t.map Prod.fst := by
  induction t with
  | nil => simp [tableFind]
  | cons p t ih =>
    obtain ⟨k, e⟩ := p
    by_cases h : k = v
    · simp [tableFind, h]
    · simp [tableFind, h, ih, Ne.symm h]

theorem tableFind_eq_some {t : AllocToNodesMap} {v : Value} {e : Nat × List NodeWrapper}
    (hn : (t.map Prod.fst).Nodup) : tableFind t v = some e ↔ (v, e) ∈ t := by
  induction t with
  | nil => simp [tableFind]
  | cons p t ih =>
    obtain ⟨k, j⟩ := p
    simp only [List.map_cons, List.nodup_cons] at hn
    by_cases h : k = v
    · subst h
      simp only [tableFind, if_true, Option.some.injEq, List.mem_cons, Prod.mk.injEq, true_and]
      constructor
      · intro e1; exact Or.inl e1.symm
      · rintro (e1 | e1)
        · exact e1.symm
        · exact absurd (List.mem_map_of_mem Prod.fst e1) hn.1
    · simp only [tableFind, if_neg h, ih hn.2, List.mem_cons, Prod.mk.injEq]
      constructor
      · exact Or.inr
      · rintro (e1 | e1)
        · exact absurd e1.1.symm h
        · exact e1

theorem tableFind_tableAddNode (t : AllocToNodesMap) (v k : Value) (n : NodeWrapper) :
    tableFind (tableAddNode t v n) k =
      if k = v then (tableFind t k).map (fun e => (e.1, nodeSetInsert e.2 n))
      else tableFind t k := by
  induction t with
  | nil => simp [tableAddNode, tableFind]
  | cons p t ih =>
    obtain ⟨a, e⟩ := p
    by_cases hav : a = v
    · subst hav
      by_cases hak : a = k
      · subst hak
        simp [tableAddNode, tableFind]
      · have hka : ¬ k = a := fun h => hak h.symm
        simp [tableAddNode, tableFind, hak, hka]
    · by_cases hak : a = k
      · subst hak
        simp [tableAddNode, tableFind, hav]
      · simp only [tableAddNode, if_neg hav, tableFind, if_neg hak, ih]

theorem keys_tableAddNode (t : AllocToNodesMap) (v : Value) (n : NodeWrapper) :
    (tableAddNode t v n).map Prod.fst = t.map Prod.fst := by
  induction t with
  | nil => rfl
  | cons p t ih =>
    obtain ⟨a, e⟩ := p
    by_cases hav : a = v
    · simp [tableAddNode, hav]
    · simp [tableAddNode, hav, ih]

theorem tableFind_append_single (t : AllocToNodesMap) (v k : Value)
    (e : Nat × List NodeWrapper) :
    tableFind (t ++ [(v, e)]) k =
      match tableFind t k with
      | some x => some x
      | none => if v = k then some e else none := by
  induction t with
  | nil => simp [tableFind]
  | cons p t ih =>
    obtain ⟨a, x⟩ := p
    by_cases hak : a = k
    · simp [tableFind, hak]
    · simp [tableFind, hak, ih]

theorem TableInv_recordSite {done : List (Value × NodeWrapper)}
    {st : DsaInfo × AllocToNodesMap} (n : NodeWrapper) (v : Value) (h : TableInv done st) :
    TableInv (done ++ [(v, n)]) (recordSite n st v) := by
  obtain ⟨hA, hK, hE⟩ := h
  have hA2 : AllocInv (recordAllocSite v st.1).2.2 := AllocInv_recordAllocSite v hA
  have hmem : ∀ (k : Value) (w : NodeWrapper), k ≠ v →
      ((k, w) ∈ done ++ [(v, n)] ↔ (k, w) ∈ done) := by
    intro k w hk
    simp [hk]
  have hother : ∀ k, k ≠ v →
      match tableFind st.2 k with
      | none => ∀ w, (k, w) ∉ done ++ [(v, n)]
      | some e =>
        leftFind (recordAllocSite v st.1).2.2.m_alloc_sites_bimap k = some e.1 ∧
          NodeSetSorted e.2 ∧
          ∀ id, id ∈ e.2.map NodeWrapper.getId ↔
            ∃ w, (k, w) ∈ done ++ [(v, n)] ∧ w.getId = id := by
    intro k hk
    have hEk := hE k
    cases hf : tableFind st.2 k with
    | none =>
      rw [hf] at hEk
      intro w hw
      exact hEk w ((hmem k w hk).mp hw)
    | some e =>
      rw [hf] at hEk
      refine ⟨leftFind_recordAllocSite_stable hA v hEk.1, hEk.2.1, ?_⟩
      intro id
      rw [hEk.2.2 id]
      constructor
      · rintro ⟨w, hw, hid⟩
        exact ⟨w, (hmem k w hk).mpr hw, hid⟩
      · rintro ⟨w, hw, hid⟩
        exact ⟨w, (hmem k w hk).mp hw, hid⟩
  have hEv := hE v
  unfold recordSite
  simp only
  cases hf : tableFind st.2 v with
  | some e0 =>
    rw [hf] at hEv
    simp only
    refine ⟨hA2, by rw [keys_tableAddNode]; exact hK, ?_⟩
    intro k
    rw [tableFind_tableAddNode]
    by_cases hk : k = v
    · subst hk
      simp only [if_true, hf, Option.map_some']
      obtain ⟨hs1, hs2⟩ := nodeSetInsert_sorted e0.2 n hEv.2.1
      refine ⟨leftFind_recordAllocSite_stable hA k hEv.1, hs1, ?_⟩
      intro id
      rw [hs2 id, hEv.2.2 id]
      constructor
      · rintro (⟨w, hw, hid⟩ | hid)
        · exact ⟨w, List.mem_append_left _ hw, hid⟩
        · exact ⟨n, by simp, hid.symm⟩
      · rintro ⟨w, hw, hid⟩
        rcases List.mem_append.mp hw with hw | hw
        · exact Or.inl ⟨w, hw, hid⟩
        · simp only [List.mem_singleton, Prod.mk.injEq] at hw
          exact Or.inr (by rw [← hid, hw.2])
    · simp only [if_neg hk]
      exact hother k hk
  | none =>
    rw [hf] at hEv
    simp only
    refine ⟨hA2, ?_, ?_⟩
    · simp only [List.map_append, List.map_cons, List.map_nil]
      rw [List.nodup_append]
      refine ⟨hK, by simp, ?_⟩
      intro a ha hb
      simp only [List.mem_singleton] at hb
      subst hb
      exact (tableFind_eq_none.mp hf) ha
    · intro k
      rw [tableFind_append_single]
      by_cases hk : k = v
      · subst hk
        simp only [hf, if_true]
        refine ⟨leftFind_recordAllocSite_self hA k, ?_, ?_⟩
        · simp [nodeSetInsert, NodeSetSorted]
        · intro id
          simp only [nodeSetInsert, List.map_cons, List.map_nil, List.mem_singleton]
          constructor
          · intro hid
            exact ⟨n, by simp, hid.symm⟩
          · rintro ⟨w, hw, hid⟩
            rcases List.mem_append.mp hw with hw | hw
            · exact absurd hw (hEv w)
            · simp only [List.mem_singleton, Prod.mk.injEq] at hw
              rw [← hid, hw.2]
      · have hvk : ¬ v = k := fun e => hk e.symm
        have := hother k hk
        cases hf2 : tableFind st.2 k with
        | none =>
          rw [hf2] at this
          simpa [hvk] using this
        | some e =>
          rw [hf2] at this
          exact this

theorem TableInv_foldl_recordSite {done : List (Value × NodeWrapper)} (n : NodeWrapper)
    (sites : List Value) {st : DsaInfo × AllocToNodesMap} (h : TableInv done st) :
    TableInv (done ++ sites.map (fun v => (v, n))) (sites.foldl (recordSite n) st) := by
  induction sites generalizing done st with
  | nil => simpa using h
  | cons v vs ih =>
    have := ih (TableInv_recordSite n v h)
    simpa [List.append_assoc] using this

theorem TableInv_assignLoop (ns : List NodeWrapper) {done : List (Value × NodeWrapper)}
    {st r : DsaInfo × AllocToNodesMap} (h : TableInv done st) (hr : assignLoop ns st = some r) :
    ∃ more, TableInv (done ++ more) r ∧
      ∀ v w, (v, w) ∈ more ↔ w ∈ ns ∧ v ∈ w.getNode.getAllocSites := by
  induction ns generalizing done st with
  | nil =>
    simp only [assignLoop, Option.some.injEq] at hr
    subst hr
    exact ⟨[], by simpa using h, by simp⟩
  | cons n ns ih =>
    simp only [assignLoop] at hr
    cases hs : std_sort compareValues n.getNode.getAllocSites with
    | none => rw [hs] at hr; exact Option.noConfusion hr
    | some sites =>
      rw [hs] at hr
      simp only at hr
      obtain ⟨more, hinv, hmore⟩ := ih (TableInv_foldl_recordSite n sites h) hr
      refine ⟨sites.map (fun v => (v, n)) ++ more, by simpa [List.append_assoc] using hinv, ?_⟩
      intro v w
      have hp := std_sort_perm _ _ _ hs
      simp only [List.mem_append, List.mem_map, Prod.mk.injEq, hmore, List.mem_cons]
      constructor
      · rintro (⟨x, hx, rfl, rfl⟩ | ⟨hw, hv⟩)
        · exact ⟨Or.inl rfl, hp.subset hx⟩
        · exact ⟨Or.inr hw, hv⟩
      · rintro ⟨rfl | hw, hv⟩
        · exact Or.inl ⟨v, hp.mem_iff.mpr hv, rfl, rfl⟩
        · exact Or.inr ⟨hw, hv⟩

theorem TableInv_assignAllocSiteId (s : DsaInfo) (r : DsaInfo × AllocToNodesMap)
    (hA : AllocInv s) (hr : assignAllocSiteId s = some r) :
    ∃ done, TableInv done r ∧
      ∀ v w, (v, w) ∈ done ↔ w ∈ live_nodes s ∧ v ∈ w.getNode.getAllocSites := by
  unfold assignAllocSiteId at hr
  cases hn : std_sort (fun a b => some (NodeWrapper.lt a b)) (live_nodes s) with
  | none => rw [hn] at hr; exact Option.noConfusion hr
  | some nodes =>
    rw [hn] at hr
    simp only at hr
    have h0 : TableInv [] (s, []) := by
      refine ⟨hA, by simp, ?_⟩
      intro v
      simp [tableFind]
    obtain ⟨more, hinv, hmore⟩ := TableInv_assignLoop nodes h0 hr
    refine ⟨more, by simpa using hinv, ?_⟩
    intro v w
    rw [hmore, (std_sort_perm _ _ _ hn).mem_iff]

theorem mem_exportRows {entries : AllocToNodesMap} {row : Nat × Nat} :
    row ∈ exportRows entries ↔
      ∃ kv, kv ∈ entries ∧ ∃ x, x ∈ kv.2.2 ∧ row = (kv.2.1, x.getId) := by
  simp only [exportRows, List.mem_flatMap, List.mem_map]
  constructor
  · rintro ⟨kv, hkv, x, hx, e⟩
    exact ⟨kv, hkv, x, hx, e.symm⟩
  · rintro ⟨kv, hkv, x, hx, e⟩
    exact ⟨kv, hkv, x, hx, e.symm⟩

theorem mem_exportRows_of_inv {done : List (Value × NodeWrapper)}
    {r : DsaInfo × AllocToNodesMap} (h : TableInv done r) {iter : AllocToNodesMap}
    (hp : List.Perm iter r.2) (row : Nat × Nat) :
    row ∈ exportRows iter ↔
      ∃ v w, (v, w) ∈ done ∧ row = (getAllocSiteId v r.1, w.getId) := by
  obtain ⟨_, hK, hE⟩ := h
  rw [mem_exportRows]
  constructor
  · rintro ⟨kv, hkv, x, hx, e⟩
    have hf : tableFind r.2 kv.1 = some kv.2 := (tableFind_eq_some hK).mpr (hp.subset hkv)
    have hEv := hE kv.1
    rw [hf] at hEv
    obtain ⟨w, hw, hid⟩ := (hEv.2.2 x.getId).mp (List.mem_map_of_mem NodeWrapper.getId hx)
    exact ⟨kv.1, w, hw, by rw [e, getAllocSiteId_of_leftFind hEv.1, hid]⟩
  · rintro ⟨v, w, hw, e⟩
    have hEv := hE v
    cases hf : tableFind r.2 v with
    | none =>
      rw [hf] at hEv
      exact absurd hw (hEv w)
    | some ent =>
      rw [hf] at hEv
      obtain ⟨x, hx, hxid⟩ := List.mem_map.mp ((hEv.2.2 w.getId).mpr ⟨w, hw, rfl⟩)
      refine ⟨(v, ent), hp.mem_iff.mpr ((tableFind_eq_some hK).mp hf), x, hx, ?_⟩
      rw [e, getAllocSiteId_of_leftFind hEv.1, hxid]

theorem nodup_exportRows_of_inv {done : List (Value × NodeWrapper)}
    {r : DsaInfo × AllocToNodesMap} (h : TableInv done r) {iter : AllocToNodesMap}
    (hp : List.Perm iter r.2) : (exportRows iter).Nodup := by
  obtain ⟨hA, hK, hE⟩ := h
  have hrows : List.Perm (exportRows iter) (exportRows r.2) := List.Perm.flatMap_right _ hp
  rw [hrows.nodup_iff]
  unfold exportRows
  rw [List.nodup_flatMap]
  constructor
  · intro kv hkv
    have hf : tableFind r.2 kv.1 = some kv.2 := (tableFind_eq_some hK).mpr hkv
    have hEv := hE kv.1
    rw [hf] at hEv
    have hids : (kv.2.2.map NodeWrapper.getId).Nodup := by
      have hs : NodeSetSorted kv.2.2 := hEv.2.1
      unfold NodeSetSorted at hs
      rw [List.Nodup, List.pairwise_map]
      exact hs.imp (fun hlt => Nat.ne_of_lt hlt)
    have : kv.2.2.map (fun nodeInfo => (kv.2.1, nodeInfo.getId)) =
        (kv.2.2.map NodeWrapper.getId).map (fun i => (kv.2.1, i)) := by
      simp [List.map_map, Function.comp_def]
    rw [this]
    exact hids.map (fun a b e => (Prod.mk.inj e).2)
  · have hkeys : r.2.Pairwise (fun a b => a.1 ≠ b.1) := by
      have := hK
      rw [List.Nodup, List.pairwise_map] at this
      exact this
    refine hkeys.imp_of_mem ?_
    intro a b ha hb hne
    simp only [Function.onFun]
    rw [List.disjoint_left]
    intro row hra hrb
    obtain ⟨x, _, ex⟩ := List.mem_map.mp hra
    obtain ⟨y, _, ey⟩ := List.mem_map.mp hrb
    have hfa : tableFind r.2 a.1 = some a.2 := (tableFind_eq_some hK).mpr ha
    have hfb : tableFind r.2 b.1 = some b.2 := (tableFind_eq_some hK).mpr hb
    have hEa := hE a.1
    have hEb := hE b.1
    rw [hfa] at hEa
    rw [hfb] at hEb
    have hid : a.2.1 = b.2.1 := by
      have := ex.trans ey.symm
      exact (Prod.mk.inj this).1
    have h1 := (left_iff_right hA a.1 a.2.1).mp hEa.1
    have h2 := (left_iff_right hA b.1 b.2.1).mp hEb.1
    rw [hid, h2] at h1
    exact hne (Option.some.inj h1).symm

theorem mem_memberships {s : DsaInfo} {v : Value} {w : NodeWrapper} :
    (v, w) ∈ memberships s ↔ w ∈ live_nodes s ∧ v ∈ w.getNode.getAllocSites := by
  simp only [memberships, List.mem_flatMap, List.mem_map, Prod.mk.injEq]
  constructor
  · rintro ⟨x, hx, y, hy, rfl, rfl⟩
    exact ⟨hx, hy⟩
  · rintro ⟨hw, hv⟩
    exact ⟨w, hw, v, hv, rfl, rfl⟩

theorem allocKeys_assignAllocSiteId (s : DsaInfo) (r : DsaInfo × AllocToNodesMap)
    (h0 : AllocSitesEmpty s) (hr : assignAllocSiteId s = some r) :
    AllocInv r.1 ∧ ∀ v, v ∈ allocKeys r.1 ↔ v ∈ liveSites s := by
  obtain ⟨calls, hc, hp⟩ := assignAllocSiteId_calls s r hr
  constructor
  · rw [hc]
    exact AllocInv_recordAllocSites calls (AllocInv_of_empty h0)
  · intro v
    rw [hc, allocKeys_of_empty h0 calls, mem_firstSeen]
    exact hp.mem_iff

theorem mem_liveSites {s : DsaInfo} {v : Value} :
    v ∈ liveSites s ↔ ∃ w, w ∈ live_nodes s ∧ v ∈ w.getNode.getAllocSites := by
  simp [liveSites, List.mem_flatMap]

theorem assignAllocSiteIdToFile_of_some (env : ExportEnv) (s : DsaInfo)
    (r : DsaInfo × AllocToNodesMap) (hr : assignAllocSiteId s = some r) :
    assignAllocSiteIdToFile env s =
      if env.DsaInfoToFile ≠ "" then
        if env.canOpen env.DsaInfoToFile then some (r.1, r.2, some (exportText (env.iterate r.2)))
        else (env.unopened (exportText (env.iterate r.2))).map (fun file => (r.1, r.2, file))
      else some (r.1, r.2, none) := by
  unfold assignAllocSiteIdToFile
  rw [hr]

theorem assignAllocSiteIdToFile_registry (env : ExportEnv) (s : DsaInfo)
    (x : DsaInfo × AllocToNodesMap × Option String) (h : assignAllocSiteIdToFile env s = some x) :
    assignAllocSiteId s = some (x.1, x.2.1) := by
  cases hr : assignAllocSiteId s with
  | none =>
    unfold assignAllocSiteIdToFile at h
    rw [hr] at h
    exact Option.noConfusion h
  | some r =>
    rw [assignAllocSiteIdToFile_of_some env s r hr] at h
    split at h
    · split at h
      · cases h
        rfl
      · cases hu : env.unopened (exportText (env.iterate r.2)) with
        | none =>
          rw [hu] at h
          exact Option.noConfusion h
        | some file =>
          rw [hu] at h
          cases h
          rfl
    · cases h
      rfl

/-- C15. From the empty registry, all allocation sites of the live registered nodes named: when
an export path is configured and the file can be opened, `assignAllocSiteId` writes the header
line `alloc_site,ds_node` followed by one line for each pair of a list of pairs without
repetition, the line of a pair being the site id in decimal, a comma, the node id in decimal
and a line feed, and nothing else; the members of the list are exactly the pairs of
`getAllocSiteId (v)` and the wrapper id of `n` for a live registered node `n` and a value `v`
of its allocation sites, in any iteration order of the table; node ids identifying the live
registered nodes, the number of data lines is the number of these memberships.  When no path
is configured nothing is written. -/
theorem export_content (env : ExportEnv) (s : DsaInfo) (h0 : AllocSitesEmpty s)
    (hnamed : ∀ v, v ∈ liveSites s → v.hasName = true)
    (hiter : ∀ t, List.Perm (env.iterate t) t) :
    (env.DsaInfoToFile ≠ "" → env.canOpen env.DsaInfoToFile = true →
      ∃ (s1 : DsaInfo) (t : AllocToNodesMap) (rows : List (Nat × Nat)),
        assignAllocSiteIdToFile env s =
          some (s1, t, some ("alloc_site,ds_node\n" ++ String.join
            (rows.map (fun row => toString row.1 ++ "," ++ toString row.2 ++ "\n")))) ∧
        rows.Nodup ∧
        (∀ row, row ∈ rows ↔
          ∃ v w, w ∈ live_nodes s ∧ v ∈ w.getNode.getAllocSites ∧
            row = (getAllocSiteId v s1, w.getId)) ∧
        ((∀ w1, w1 ∈ live_nodes s → ∀ w2, w2 ∈ live_nodes s → w1.getId = w2.getId → w1 = w2) →
          rows.length = (memberships s).dedup.length)) ∧
    (env.DsaInfoToFile = "" →
      ∃ s1 t, assignAllocSiteIdToFile env s = some (s1, t, none)) := by
  obtain ⟨r, hr⟩ := assignAllocSiteId_isSome s hnamed
  obtain ⟨done, hinv, hdone⟩ := TableInv_assignAllocSiteId s r (AllocInv_of_empty h0) hr
  obtain ⟨hA, hkeys⟩ := allocKeys_assignAllocSiteId s r h0 hr
  have hfile := assignAllocSiteIdToFile_of_some env s r hr
  constructor
  · intro hpath hopen
    have hrows : ∀ row, row ∈ exportRows (env.iterate r.2) ↔
        ∃ v w, w ∈ live_nodes s ∧ v ∈ w.getNode.getAllocSites ∧
          row = (getAllocSiteId v r.1, w.getId) := by
      intro row
      rw [mem_exportRows_of_inv hinv (hiter r.2)]
      constructor
      · rintro ⟨v, w, hvw, e⟩
        exact ⟨v, w, ((hdone v w).mp hvw).1, ((hdone v w).mp hvw).2, e⟩
      · rintro ⟨v, w, hw, hv, e⟩
        exact ⟨v, w, (hdone v w).mpr ⟨hw, hv⟩, e⟩
    have hnodup := nodup_exportRows_of_inv hinv (hiter r.2)
    refine ⟨r.1, r.2, exportRows (env.iterate r.2), ?_, hnodup, hrows, ?_⟩
    · rw [hfile, if_pos hpath, if_pos hopen]
      rfl
    · intro hids
      have hinj : ∀ x, x ∈ (memberships s).dedup → ∀ y, y ∈ (memberships s).dedup →
          (getAllocSiteId x.1 r.1, x.2.getId) = (getAllocSiteId y.1 r.1, y.2.getId) →
          x = y := by
        intro x hx y hy e
        obtain ⟨hxw, hxv⟩ := mem_memberships.mp (List.mem_dedup.mp hx)
        obtain ⟨hyw, hyv⟩ := mem_memberships.mp (List.mem_dedup.mp hy)
        obtain ⟨e1, e2⟩ := Prod.mk.inj e
        have hw : x.2 = y.2 := hids x.2 hxw y.2 hyw e2
        have hv : x.1 = y.1 := by
          by_contra hne
          exact ids_differ_of_ne hA
            ((hkeys x.1).mpr (mem_liveSites.mpr ⟨x.2, hxw, hxv⟩))
            ((hkeys y.1).mpr (mem_liveSites.mpr ⟨y.2, hyw, hyv⟩)) hne e1
        exact Prod.ext hv hw
      have hnd2 : ((memberships s).dedup.map
          (fun x => (getAllocSiteId x.1 r.1, x.2.getId))).Nodup :=
        List.Nodup.map_on hinj (List.nodup_dedup _)
      have hperm : List.Perm (exportRows (env.iterate r.2))
          ((memberships s).dedup.map (fun x => (getAllocSiteId x.1 r.1, x.2.getId))) := by
        rw [List.perm_ext_iff_of_nodup hnodup hnd2]
        intro row
        rw [hrows row]
        simp only [List.mem_map, List.mem_dedup]
        constructor
        · rintro ⟨v, w, hw, hv, e⟩
          exact ⟨(v, w), mem_memberships.mpr ⟨hw, hv⟩, e.symm⟩
        · rintro ⟨x, hx, e⟩
          exact ⟨x.1, x.2, (mem_memberships.mp hx).1, (mem_memberships.mp hx).2, e.symm⟩
      rw [hperm.length_eq, List.length_map]
  · intro hpath
    refine ⟨r.1, r.2, ?_⟩
    rw [hfile]
    simp [hpath]

theorem export_content_witness :
    AllocSitesEmpty state1 ∧
      (∃ (s1 : DsaInfo) (t : AllocToNodesMap) (rows : List (Nat × Nat)),
        assignAllocSiteIdToFile envFile state1 =
          some (s1, t, some ("alloc_site,ds_node\n" ++ String.join
            (rows.map (fun row => toString row.1 ++ "," ++ toString row.2 ++ "\n")))) ∧
        rows.Nodup ∧
        (∀ row, row ∈ rows ↔
          ∃ v w, w ∈ live_nodes state1 ∧ v ∈ w.getNode.getAllocSites ∧
            row = (getAllocSiteId v s1, w.getId)) ∧
        rows.length = (memberships state1).dedup.length) ∧
      (∃ s1 t, assignAllocSiteIdToFile envNone state1 = some (s1, t, none)) ∧
      (assignAllocSiteIdToFile envFile state1).map (fun r => r.2.2) =
        some (some "alloc_site,ds_node\n1,2\n1,5\n2,5\n") :=
  ⟨by decide,
   match (export_content envFile state1 (by decide) (by decide)
      (fun t => List.Perm.refl t)).1 (by decide) rfl with
   | ⟨s1, t, rows, h1, h2, h3, h4⟩ => ⟨s1, t, rows, h1, h2, h3, h4 (by decide)⟩,
   (export_content envNone state1 (by decide) (by decide) (fun t => List.Perm.refl t)).2 rfl,
   by decide!⟩

/-- C16. The order of the data lines follows the iteration order of `alloc_to_nodes_map`, not
the order in which the sites were assigned.  For the same registry `state1`, the run in which
the table is iterated in insertion order writes the rows of site 1 and then the row of site 2,
the run in which it is iterated in the opposite order writes the row of site 2 first; both
orders are permutations of the same table and the two files differ. -/
theorem export_follows_iteration_order :
    (∀ t, List.Perm (envFile.iterate t) t) ∧ (∀ t, List.Perm (envFileRev.iterate t) t) ∧
    (assignAllocSiteIdToFile envFile state1).map (fun r => r.2.2) =
      some (some "alloc_site,ds_node\n1,2\n1,5\n2,5\n") ∧
    (assignAllocSiteIdToFile envFileRev state1).map (fun r => r.2.2) =
      some (some "alloc_site,ds_node\n2,5\n1,2\n1,5\n") ∧
    (assignAllocSiteIdToFile envFile state1).map (fun r => r.2.2) ≠
      (assignAllocSiteIdToFile envFileRev state1).map (fun r => r.2.2) := by
  refine ⟨fun t => List.Perm.refl t, fun t => List.reverse_perm t, ?_, ?_, ?_⟩
  · decide!
  · decide!
  · decide!

/-! ## Lemmas on the order of the sorted ranges -/

theorem insertM_sorted {α κ : Type} [LinearOrder κ] (key : α → κ) (lt : α → α → Option Bool)
    (x : α) (acc r : List α)
    (hlt : ∀ y, y ∈ acc → ∃ b, lt x y = some b ∧ (b = true ↔ key x < key y))
    (hacc : acc.Pairwise (fun a b => key a ≤ key b)) (h : insertM lt x acc = some r) :
    r.Pairwise (fun a b => key a ≤ key b) := by
  induction acc generalizing r with
  | nil =>
    simp only [insertM, Option.some.injEq] at h
    subst h
    simp
  | cons y ys ih =>
    rw [List.pairwise_cons] at hacc
    obtain ⟨b, hb, hbk⟩ := hlt y (List.mem_cons_self y ys)
    simp only [insertM, hb] at h
    cases b with
    | true =>
      simp only [Option.some.injEq] at h
      subst h
      have hxy : key x < key y := hbk.mp rfl
      rw [List.pairwise_cons, List.pairwise_cons]
      refine ⟨?_, hacc⟩
      intro z hz
      rcases List.mem_cons.mp hz with e | e
      · rw [e]; exact le_of_lt hxy
      · exact le_trans (le_of_lt hxy) (hacc.1 z e)
    | false =>
      have hxy : ¬ key x < key y := fun hc => Bool.noConfusion (hbk.mpr hc)
      simp only at h
      cases hi : insertM lt x ys with
      | none => rw [hi] at h; exact Option.noConfusion h
      | some r2 =>
        rw [hi] at h
        simp only [Option.map_some', Option.some.injEq] at h
        subst h
        have hr2 := ih r2 (fun z hz => hlt z (List.mem_cons_of_mem y hz)) hacc.2 hi
        rw [List.pairwise_cons]
        refine ⟨?_, hr2⟩
        intro z hz
        rcases List.mem_cons.mp ((insertM_perm lt x ys r2 hi).subset hz) with e | e
        · rw [e]; exact not_lt.mp hxy
        · exact hacc.1 z e

theorem sortLoop_sorted {α κ : Type} [LinearOrder κ] (key : α → κ) (lt : α → α → Option Bool)
    (xs acc r : List α)
    (hlt : ∀ x y, x ∈ acc ++ xs → y ∈ acc ++ xs →
      ∃ b, lt x y = some b ∧ (b = true ↔ key x < key y))
    (hacc : acc.Pairwise (fun a b => key a ≤ key b)) (h : sortLoop lt acc xs = some r) :
    r.Pairwise (fun a b => key a ≤ key b) := by
  induction xs generalizing acc with
  | nil =>
    simp only [sortLoop, Option.some.injEq] at h
    subst h
    exact hacc
  | cons x xs ih =>
    simp only [sortLoop] at h
    have hx : x ∈ acc ++ x :: xs := by simp
    cases hi : insertM lt x acc with
    | none => rw [hi] at h; exact Option.noConfusion h
    | some acc1 =>
      rw [hi] at h
      simp only at h
      have hp := insertM_perm lt x acc acc1 hi
      have hm : ∀ z, z ∈ acc1 ++ xs → z ∈ acc ++ x :: xs := by
        intro z hz
        rcases List.mem_append.mp hz with hz | hz
        · rcases List.mem_cons.mp (hp.subset hz) with e | e
          · subst e; exact hx
          · exact List.mem_append_left _ e
        · exact List.mem_append_right _ (List.mem_cons_of_mem x hz)
      apply ih acc1 (fun a b ha hb => hlt a b (hm a ha) (hm b hb)) _ h
      exact insertM_sorted key lt x acc acc1
        (fun y hy => hlt x y hx (List.mem_append_left _ hy)) hacc hi

theorem std_sort_sorted {α κ : Type} [LinearOrder κ] (key : α → κ) (lt : α → α → Option Bool)
    (xs r : List α)
    (hlt : ∀ x y, x ∈ xs → y ∈ xs → ∃ b, lt x y = some b ∧ (b = true ↔ key x < key y))
    (h : std_sort lt xs = some r) : r.Pairwise (fun a b => key a ≤ key b) :=
  sortLoop_sorted key lt xs [] r (by simpa using hlt) List.Pairwise.nil h

theorem sort_nodes_sorted (l r : List NodeWrapper)
    (h : std_sort (fun a b => some (NodeWrapper.lt a b)) l = some r) :
    r.Pairwise (fun a b => a.getId ≤ b.getId) := by
  apply std_sort_sorted NodeWrapper.getId _ l r _ h
  intro x y _ _
  exact ⟨NodeWrapper.lt x y, rfl, by simp [NodeWrapper.lt]⟩

theorem sort_sites_sorted (l r : List Value) (hn : ∀ v, v ∈ l → v.hasName = true)
    (h : std_sort compareValues l = some r) :
    r.Pairwise (fun a b => a.getName ≤ b.getName) := by
  apply std_sort_sorted Value.getName _ l r _ h
  intro x y hx hy
  refine ⟨decide (x.getName < y.getName), ?_, by simp⟩
  simp [compareValues, hn x hx, hn y hy]

/-! ## Lemmas on the order of the ids -/

theorem before_or_before {l : List Value} {a b : Value} (ha : a ∈ l) (hb : b ∈ l) :
    Before l a b ∨ Before l b a := by
  induction l with
  | nil => exact absurd ha (List.not_mem_nil a)
  | cons x l ih =>
    by_cases hxa : x = a
    · exact Or.inl ⟨[], l, by simp [hxa], List.not_mem_nil b⟩
    · by_cases hxb : x = b
      · exact Or.inr ⟨[], l, by simp [hxb], List.not_mem_nil a⟩
      · have ha2 : a ∈ l := by
          rcases List.mem_cons.mp ha with e | e
          · exact absurd e.symm hxa
          · exact e
        have hb2 : b ∈ l := by
          rcases List.mem_cons.mp hb with e | e
          · exact absurd e.symm hxb
          · exact e
        rcases ih ha2 hb2 with ⟨l1, l2, e, hn⟩ | ⟨l1, l2, e, hn⟩
        · refine Or.inl ⟨x :: l1, l2, by simp [e], ?_⟩
          intro hc
          rcases List.mem_cons.mp hc with e1 | e1
          · exact hxb e1.symm
          · exact hn e1
        · refine Or.inr ⟨x :: l1, l2, by simp [e], ?_⟩
          intro hc
          rcases List.mem_cons.mp hc with e1 | e1
          · exact hxa e1.symm
          · exact hn e1

theorem length_le_recordAllocSite (v : Value) (s : DsaInfo) (hs : AllocInv s) :
    s.m_alloc_sites_bimap.length ≤ (recordAllocSite v s).2.2.m_alloc_sites_bimap.length := by
  cases h : leftFind s.m_alloc_sites_bimap v with
  | some id => rw [recordAllocSite_of_some h]
  | none =>
    rw [recordAllocSite_of_none hs h]
    simp

theorem new_id_gt_length (l : List Value) (s : DsaInfo) (hs : AllocInv s) (b : Value)
    (hb : b ∉ allocKeys s) (hbl : b ∈ l) :
    ∃ ib, leftFind (recordAllocSites l s).m_alloc_sites_bimap b = some ib ∧
      s.m_alloc_sites_bimap.length < ib := by
  induction l generalizing s with
  | nil => exact absurd hbl (List.not_mem_nil b)
  | cons x rest ih =>
    rw [recordAllocSites_cons]
    have hs2 := AllocInv_recordAllocSite x hs
    by_cases hx : x = b
    · subst hx
      have h1 := leftFind_recordAllocSite_self hs x
      have hnone := leftFind_eq_none.mpr hb
      rw [recordAllocSite_of_none hs hnone] at h1
      refine ⟨s.m_alloc_sites_bimap.length + 1, ?_, Nat.lt_succ_self _⟩
      rw [recordAllocSite_of_none hs hnone]
      exact leftFind_recordAllocSites_stable
        (by rw [← recordAllocSite_of_none hs hnone]; exact hs2) rest h1
    · have hb2 : b ∉ allocKeys (recordAllocSite x s).2.2 := by
        rw [allocKeys_recordAllocSite x hs]
        split
        · exact hb
        · intro hc
          rcases List.mem_append.mp hc with e | e
          · exact hb e
          · exact hx (List.mem_singleton.mp e).symm
      have hbr : b ∈ rest := by
        rcases List.mem_cons.mp hbl with e | e
        · exact absurd e.symm hx
        · exact e
      obtain ⟨ib, h1, h2⟩ := ih _ hs2 hb2 hbr
      exact ⟨ib, h1, Nat.lt_of_le_of_lt (length_le_recordAllocSite x s hs) h2⟩

theorem id_lt_of_before {s0 : DsaInfo} (h0 : AllocSitesEmpty s0) {calls : List Value}
    {a b : Value} (hne : a ≠ b) (hb : b ∈ calls) (h : Before calls a b) :
    getAllocSiteId a (recordAllocSites calls s0) < getAllocSiteId b (recordAllocSites calls s0) := by
  obtain ⟨l1, l2, e, hn⟩ := h
  subst e
  have hi0 := AllocInv_of_empty h0
  have hs1 := AllocInv_recordAllocSites l1 hi0
  have hs2 := AllocInv_recordAllocSite a hs1
  have hb1 : b ∉ allocKeys (recordAllocSites l1 s0) := by
    rw [allocKeys_of_empty h0 l1, mem_firstSeen]
    exact hn
  have hb2 : b ∉ allocKeys (recordAllocSite a (recordAllocSites l1 s0)).2.2 := by
    rw [allocKeys_recordAllocSite a hs1]
    split
    · exact hb1
    · intro hc
      rcases List.mem_append.mp hc with e | e
      · exact hb1 e
      · exact hne (List.mem_singleton.mp e).symm
  have hbl2 : b ∈ l2 := by
    rcases List.mem_append.mp hb with e | e
    · exact absurd e hn
    · rcases List.mem_cons.mp e with e1 | e1
      · exact absurd e1.symm hne
      · exact e1
  obtain ⟨ib, hib, hlt⟩ := new_id_gt_length l2 _ hs2 b hb2 hbl2
  have ha := leftFind_recordAllocSite_self hs1 a
  have hra := id_range_of_leftFind hs2 ha
  have ha2 := leftFind_recordAllocSites_stable hs2 l2 ha
  rw [recordAllocSites_append, recordAllocSites_cons, getAllocSiteId_of_leftFind ha2,
    getAllocSiteId_of_leftFind hib]
  omega

theorem assignLoop_calls_ordered (ns : List NodeWrapper) (st r : DsaInfo × AllocToNodesMap)
    (h : assignLoop ns st = some r)
    (hnamed : ∀ n, n ∈ ns → ∀ v, v ∈ n.getNode.getAllocSites → v.hasName = true)
    (hsorted : ns.Pairwise (fun x y => x.getId ≤ y.getId)) :
    ∃ calls, r.1 = recordAllocSites calls st.1 ∧
      List.Perm calls (ns.flatMap (fun n => n.getNode.getAllocSites)) ∧
      ∀ a b W, W ∈ ns → a ∈ W.getNode.getAllocSites →
        (∀ n, n ∈ ns → b ∈ n.getNode.getAllocSites →
          W.getId < n.getId ∨ (n = W ∧ a.getName < b.getName)) →
        Before calls a b := by
  induction ns generalizing st with
  | nil =>
    simp only [assignLoop, Option.some.injEq] at h
    subst h
    refine ⟨[], rfl, List.Perm.refl _, ?_⟩
    intro a b W hW
    exact absurd hW (List.not_mem_nil W)
  | cons n ns ih =>
    simp only [assignLoop] at h
    rw [List.pairwise_cons] at hsorted
    cases hs : std_sort compareValues n.getNode.getAllocSites with
    | none => rw [hs] at h; exact Option.noConfusion h
    | some sites =>
      rw [hs] at h
      simp only at h
      obtain ⟨calls, hc, hp, hord⟩ := ih _ h
        (fun m hm => hnamed m (List.mem_cons_of_mem n hm)) hsorted.2
      have hperm := std_sort_perm _ _ _ hs
      have hsrt := sort_sites_sorted _ _ (hnamed n (List.mem_cons_self n ns)) hs
      refine ⟨sites ++ calls, ?_, ?_, ?_⟩
      · rw [hc, foldl_recordSite_fst, recordAllocSites_append]
      · rw [List.flatMap_cons]
        exact hperm.append hp
      · intro a b W hW ha hcond
        by_cases hnW : n = W
        · subst hnW
          obtain ⟨p, q, e⟩ := List.append_of_mem (hperm.mem_iff.mpr ha)
          refine ⟨p, q ++ calls, by rw [e]; simp, ?_⟩
          intro hbp
          have hbs : b ∈ n.getNode.getAllocSites :=
            hperm.subset (by rw [e]; exact List.mem_append_left _ hbp)
          rcases hcond n (List.mem_cons_self n ns) hbs with hlt | ⟨_, hlt⟩
          · exact absurd hlt (Nat.lt_irrefl _)
          · rw [e, List.pairwise_append] at hsrt
            have : b.getName ≤ a.getName := hsrt.2.2 b hbp a (List.mem_cons_self a q)
            exact absurd hlt (not_lt.mpr this)
        · have hW2 : W ∈ ns := by
            rcases List.mem_cons.mp hW with e | e
            · exact absurd e.symm hnW
            · exact e
          have hbn : b ∉ n.getNode.getAllocSites := by
            intro hbs
            rcases hcond n (List.mem_cons_self n ns) hbs with hlt | ⟨e, _⟩
            · exact absurd (hsorted.1 W hW2) (not_le.mpr hlt)
            · exact hnW e
          obtain ⟨l1, l2, e, hn1⟩ := hord a b W hW2 ha
            (fun m hm hb => hcond m (List.mem_cons_of_mem n hm) hb)
          refine ⟨sites ++ l1, l2, by rw [e]; simp, ?_⟩
          intro hc2
          rcases List.mem_append.mp hc2 with e1 | e1
          · exact hbn (hperm.subset e1)
          · exact hn1 e1

theorem foldl_min_spec (l : List Nat) (init : Nat) :
    l.foldl min init ≤ init ∧ (∀ i, i ∈ l → l.foldl min init ≤ i) ∧
      (l.foldl min init = init ∨ l.foldl min init ∈ l) := by
  induction l generalizing init with
  | nil => simp
  | cons x l ih =>
    obtain ⟨h1, h2, h3⟩ := ih (min init x)
    simp only [List.foldl_cons]
    refine ⟨le_trans h1 (min_le_left _ _), ?_, ?_⟩
    · intro i hi
      rcases List.mem_cons.mp hi with e | e
      · rw [e]; exact le_trans h1 (min_le_right _ _)
      · exact h2 i e
    · rcases h3 with e | e
      · rcases min_choice init x with e1 | e1
        · exact Or.inl (e.trans e1)
        · exact Or.inr (by rw [e, e1]; exact List.mem_cons_self x l)
      · exact Or.inr (List.mem_cons_of_mem x e)

theorem mem_ownerIds {s : DsaInfo} {v : Value} {i : Nat} :
    i ∈ ownerIds s v ↔
      ∃ w, w ∈ live_nodes s ∧ v ∈ w.getNode.getAllocSites ∧ w.getId = i := by
  simp only [ownerIds, List.mem_map, List.mem_filter, decide_eq_true_eq]
  constructor
  · rintro ⟨w, ⟨hw, hv⟩, e⟩
    exact ⟨w, hw, hv, e⟩
  · rintro ⟨w, hw, hv, e⟩
    exact ⟨w, ⟨hw, hv⟩, e⟩

theorem minOwnerId_spec {s : DsaInfo} {v : Value} (hv : v ∈ liveSites s) :
    (∃ w, w ∈ live_nodes s ∧ v ∈ w.getNode.getAllocSites ∧ w.getId = minOwnerId s v) ∧
      ∀ w, w ∈ live_nodes s → v ∈ w.getNode.getAllocSites → minOwnerId s v ≤ w.getId := by
  obtain ⟨w0, hw0, hv0⟩ := mem_liveSites.mp hv
  have hmem0 : w0.getId ∈ ownerIds s v := mem_ownerIds.mpr ⟨w0, hw0, hv0, rfl⟩
  obtain ⟨_, h2, h3⟩ := foldl_min_spec (ownerIds s v) ((ownerIds s v).headD 0)
  have hin : minOwnerId s v ∈ ownerIds s v := by
    unfold minOwnerId
    rcases h3 with e | e
    · rw [e]
      cases hl : ownerIds s v with
      | nil => rw [hl] at hmem0; exact absurd hmem0 (List.not_mem_nil _)
      | cons x l => simp
    · exact e
  refine ⟨mem_ownerIds.mp hin, ?_⟩
  intro w hw hvw
  exact h2 w.getId (mem_ownerIds.mpr ⟨w, hw, hvw, rfl⟩)

theorem assignAllocSiteId_calls_ordered (s : DsaInfo) (r : DsaInfo × AllocToNodesMap)
    (h : assignAllocSiteId s = some r) (hnamed : ∀ v, v ∈ liveSites s → v.hasName = true) :
    ∃ calls, r.1 = recordAllocSites calls s ∧ List.Perm calls (liveSites s) ∧
      ∀ a b W, W ∈ live_nodes s → a ∈ W.getNode.getAllocSites →
        (∀ n, n ∈ live_nodes s → b ∈ n.getNode.getAllocSites →
          W.getId < n.getId ∨ (n = W ∧ a.getName < b.getName)) →
        Before calls a b := by
  unfold assignAllocSiteId at h
  cases hn : std_sort (fun a b => some (NodeWrapper.lt a b)) (live_nodes s) with
  | none => rw [hn] at h; exact Option.noConfusion h
  | some nodes =>
    rw [hn] at h
    simp only at h
    have hp := std_sort_perm _ _ _ hn
    obtain ⟨calls, hc, hperm, hord⟩ := assignLoop_calls_ordered nodes (s, []) r h
      (fun n hnm v hv => hnamed v (mem_liveSites.mpr ⟨n, hp.subset hnm, hv⟩))
      (sort_nodes_sorted _ _ hn)
    refine ⟨calls, hc, hperm.trans (List.Perm.flatMap_right _ hp), ?_⟩
    intro a b W hW ha hcond
    exact hord a b W (hp.mem_iff.mpr hW) ha (fun n hnm hb => hcond n (hp.subset hnm) hb)

theorem same_node_of_same_id {s : DsaInfo}
    (hids : (live_nodes s).Pairwise (fun x y => x.getId ≠ y.getId)) {w1 w2 : NodeWrapper}
    (h1 : w1 ∈ live_nodes s) (h2 : w2 ∈ live_nodes s) (e : w1.getId = w2.getId) : w1 = w2 := by
  by_contra hne
  exact hids.forall (fun _ _ h => h.symm) h1 h2 hne e

theorem id_lt_of_lex {s : DsaInfo} (h0 : AllocSitesEmpty s)
    (hids : (live_nodes s).Pairwise (fun x y => x.getId ≠ y.getId))
    (hnamed : ∀ v, v ∈ liveSites s → v.hasName = true)
    {r : DsaInfo × AllocToNodesMap} (hr : assignAllocSiteId s = some r) {v1 v2 : Value}
    (h1 : v1 ∈ liveSites s) (h2 : v2 ∈ liveSites s)
    (hlex : minOwnerId s v1 < minOwnerId s v2 ∨
      (minOwnerId s v1 = minOwnerId s v2 ∧ v1.getName < v2.getName)) :
    getAllocSiteId v1 r.1 < getAllocSiteId v2 r.1 := by
  obtain ⟨calls, hc, hperm, hord⟩ := assignAllocSiteId_calls_ordered s r hr hnamed
  obtain ⟨⟨W, hW, hvW, hWid⟩, _⟩ := minOwnerId_spec h1
  obtain ⟨_, hmin2⟩ := minOwnerId_spec h2
  have hne : v1 ≠ v2 := by
    intro e
    subst e
    rcases hlex with h | ⟨_, h⟩
    · exact Nat.lt_irrefl _ h
    · exact lt_irrefl _ h
  have hb : Before calls v1 v2 := by
    apply hord v1 v2 W hW hvW
    intro n hn hbn
    have hge := hmin2 n hn hbn
    rcases hlex with h | ⟨he, h⟩
    · left; omega
    · by_cases hlt : W.getId < n.getId
      · exact Or.inl hlt
      · right
        have : n.getId = W.getId := by omega
        exact ⟨same_node_of_same_id hids hn hW this, h⟩
  rw [hc]
  exact id_lt_of_before h0 hne (hperm.mem_iff.mpr h2) hb

/-- C20. Order of the allocation-site ids.  After `assignAllocSiteId` from the empty registry,
the live registered nodes having pairwise distinct ids and their allocation sites pairwise
distinct names: for recorded values `v1`, `v2` the id of `v1` is smaller than the id of `v2`
exactly when the pair of the smallest id of a live node owning `v1` and the name of `v1` is
lexicographically smaller than the pair for `v2`; in particular the id 1 goes to the
name-smallest site of the live node with the smallest id among those with an allocation
site. -/
theorem alloc_id_order (s : DsaInfo) (h0 : AllocSitesEmpty s)
    (hids : (live_nodes s).Pairwise (fun x y => x.getId ≠ y.getId))
    (hnamed : ∀ v, v ∈ liveSites s → v.hasName = true)
    (hnames : ∀ v1, v1 ∈ liveSites s → ∀ v2, v2 ∈ liveSites s →
      v1.getName = v2.getName → v1 = v2) :
    ∃ r, assignAllocSiteId s = some r ∧
      (∀ v1 v2, v1 ∈ liveSites s → v2 ∈ liveSites s →
        (getAllocSiteId v1 r.1 < getAllocSiteId v2 r.1 ↔
          minOwnerId s v1 < minOwnerId s v2 ∨
            (minOwnerId s v1 = minOwnerId s v2 ∧ v1.getName < v2.getName))) ∧
      (∀ W v, W ∈ live_nodes s → v ∈ W.getNode.getAllocSites →
        (∀ n, n ∈ live_nodes s → n.getNode.getAllocSites ≠ [] → W.getId ≤ n.getId) →
        (∀ u, u ∈ W.getNode.getAllocSites → v.getName ≤ u.getName) →
        getAllocSiteId v r.1 = 1) := by
  obtain ⟨r, hr⟩ := assignAllocSiteId_isSome s hnamed
  obtain ⟨hA, hkeys⟩ := allocKeys_assignAllocSiteId s r h0 hr
  have hiff : ∀ v1 v2, v1 ∈ liveSites s → v2 ∈ liveSites s →
      (getAllocSiteId v1 r.1 < getAllocSiteId v2 r.1 ↔
        minOwnerId s v1 < minOwnerId s v2 ∨
          (minOwnerId s v1 = minOwnerId s v2 ∧ v1.getName < v2.getName)) := by
    intro v1 v2 h1 h2
    constructor
    · intro hlt
      by_contra hnot
      have hne : v1 ≠ v2 := by
        intro e
        subst e
        exact Nat.lt_irrefl _ hlt
      have hnn : v1.getName ≠ v2.getName := fun e => hne (hnames v1 h1 v2 h2 e)
      have hrev : minOwnerId s v2 < minOwnerId s v1 ∨
          (minOwnerId s v2 = minOwnerId s v1 ∧ v2.getName < v1.getName) := by
        rcases Nat.lt_trichotomy (minOwnerId s v1) (minOwnerId s v2) with h | h | h
        · exact absurd (Or.inl h) hnot
        · rcases lt_trichotomy v1.getName v2.getName with hn | hn | hn
          · exact absurd (Or.inr ⟨h, hn⟩) hnot
          · exact absurd hn hnn
          · exact Or.inr ⟨h.symm, hn⟩
        · exact Or.inl h
      have := id_lt_of_lex h0 hids hnamed hr h2 h1 hrev
      omega
    · exact id_lt_of_lex h0 hids hnamed hr h1 h2
  refine ⟨r, hr, hiff, ?_⟩
  intro W v hW hv hWmin hvmin
  have hvl : v ∈ liveSites s := mem_liveSites.mpr ⟨W, hW, hv⟩
  obtain ⟨iv, hiv⟩ := leftFind_isSome_of_mem ((hkeys v).mpr hvl)
  have hrange := id_range_of_leftFind hA hiv
  rw [getAllocSiteId_of_leftFind hiv]
  by_contra hne1
  obtain ⟨u, hu⟩ := (rightFind_isSome_iff hA 1).mpr ⟨le_refl 1, by omega⟩
  have hul := (left_iff_right hA u 1).mpr hu
  have hull : u ∈ liveSites s := (hkeys u).mp (mem_allocKeys_of_leftFind hul)
  have hlt : getAllocSiteId u r.1 < getAllocSiteId v r.1 := by
    rw [getAllocSiteId_of_leftFind hul, getAllocSiteId_of_leftFind hiv]
    omega
  have hlex := (hiff u v hull hvl).mp hlt
  obtain ⟨⟨Wu, hWu, huW, hWuid⟩, _⟩ := minOwnerId_spec hull
  obtain ⟨_, hvminown⟩ := minOwnerId_spec hvl
  have hge : W.getId ≤ Wu.getId := hWmin Wu hWu (List.ne_nil_of_mem huW)
  have hvle : minOwnerId s v ≤ W.getId := hvminown W hW hv
  rcases hlex with h | ⟨he, hn⟩
  · omega
  · have hsame : Wu = W := same_node_of_same_id hids hWu hW (by omega)
    subst hsame
    exact absurd hn (not_lt.mpr (hvmin u huW))

theorem alloc_id_order_witness :
    AllocSitesEmpty state1 ∧
      ∃ r, assignAllocSiteId state1 = some r ∧
        (getAllocSiteId va r.1 < getAllocSiteId vb r.1 ↔
          minOwnerId state1 va < minOwnerId state1 vb ∨
            (minOwnerId state1 va = minOwnerId state1 vb ∧ va.getName < vb.getName)) ∧
        getAllocSiteId va r.1 = 1 :=
  ⟨by decide,
   match alloc_id_order state1 (by decide) (by decide) (by decide) (by decide) with
   | ⟨r, h1, h2, h3⟩ =>
     ⟨r, h1, h2 va vb (by decide) (by decide),
      h3 (NodeWrapper.mk3 node3 2 "") va (by decide) (by decide) (by decide) (by decide!)⟩⟩

/-- C13, counterexample. The scenario with the allocas `va` and `vb` in `nodeAB` and `vc` in
`nodeC`: the pipeline assigns three allocation-site ids, not two, one for each of the three
allocation sites, and the export has three rows; and when the size oracle knows the sizes of
the allocas, no access is counted and neither node is accessed. -/
theorem scenario_three_ids :
    (runOnModuleToFile envFile oracle1 [funS] DsaInfo.init).map
        (fun r => (r.1.m_alloc_sites_bimap, isAccessed nodeAB r.1, isAccessed nodeC r.1, r.2.2)) =
      some ([(va, 1), (vb, 2), (vc, 3)], true, true,
        some "alloc_site,ds_node\n1,30\n2,30\n3,31\n") ∧
    (runOnModuleToFile envFile oracleAlloca [funS] DsaInfo.init).map
        (fun r => (isAccessed nodeAB r.1, isAccessed nodeC r.1)) =
      some (false, false) := by
  constructor
  · decide!
  · decide!

theorem scenario_state {o : Oracle} {a b c : Value} {nab nc : Node} {g : Graph} {f : Function}
    (h : IsScenario o a b c nab nc g f) :
    [f].foldl (fun st f => runOnFunction o f st) DsaInfo.init =
      { DsaInfo.init with
        m_nodes_map :=
          [(nab, { m_node := nab, m_id := nab.getId, m_rep_name := "", m_accesses := 2 }),
           (nc, { m_node := nc, m_id := nc.getId, m_rep_name := "", m_accesses := 1 })] } := by
  obtain ⟨oa, ob, oc, hscal⟩ := h.scalars
  have hab := h.ne_ab
  have hac := h.ne_ac
  have hbc := h.ne_bc
  have hn := h.ne_nodes
  have hba : ¬ b = a := fun e => hab e.symm
  have hca : ¬ c = a := fun e => hac e.symm
  have hcb : ¬ c = b := fun e => hbc e.symm
  have hn2 : ¬ nc = nab := fun e => hn e.symm
  simp [runOnFunction, h.defined, getDsaGraph, h.graph, DsaInfo.init, assignNodeId, hscal,
    h.formals, h.returns, registerCell, nodesInsert, nodesFind, hn, hn2, recordMemAccesses,
    h.insts, recordInst, recordMemAccess, h.strip_a, h.strip_b, h.strip_c, h.size_a, h.size_b,
    h.size_c, h.local_a, h.local_b, h.local_c, Graph.getCell, h.cells, cellFind, hab, hac, hbc,
    hba, hca, hcb, nodesIncr, NodeWrapper.incr, NodeWrapper.mk3]

theorem nodes_recordAllocSites (l : List Value) (s : DsaInfo) :
    (recordAllocSites l s).m_nodes_map = s.m_nodes_map := by
  induction l generalizing s with
  | nil => rfl
  | cons x l ih =>
    rw [recordAllocSites_cons, ih]
    unfold recordAllocSite
    cases leftFind s.m_alloc_sites_bimap x <;> rfl

/-- C13, amended. In the scenario, with a size oracle that knows no size for the three allocas
and a configured export: the pipeline on a fresh `DsaInfo` completes; the node of `a` and `b`
is accessed with counter 2 and the node of `c` with counter 1; the recorded values are `a`, `b`
and `c` and their ids are exactly 1, 2 and 3, one for each allocation site; and the export is
the header followed by exactly the three rows that pair the id of `a` and the id of `b` with
the id of their node and the id of `c` with the id of its node. -/
theorem scenario_pipeline (env : ExportEnv) (o : Oracle) (a b c : Value) (nab nc : Node)
    (g : Graph) (f : Function) (h : IsScenario o a b c nab nc g f)
    (hpath : env.DsaInfoToFile ≠ "") (hopen : env.canOpen env.DsaInfoToFile = true)
    (hiter : ∀ t, List.Perm (env.iterate t) t) :
    ∃ (s1 : DsaInfo) (t : AllocToNodesMap) (rows : List (Nat × Nat)),
      runOnModuleToFile env o [f] DsaInfo.init =
        some (s1, t, some ("alloc_site,ds_node\n" ++ String.join (rows.map rowLine))) ∧
      nodesFind s1.m_nodes_map nab =
        some { m_node := nab, m_id := nab.getId, m_rep_name := "", m_accesses := 2 } ∧
      isAccessed nab s1 = true ∧
      nodesFind s1.m_nodes_map nc =
        some { m_node := nc, m_id := nc.getId, m_rep_name := "", m_accesses := 1 } ∧
      isAccessed nc s1 = true ∧
      (∀ v, getAllocSiteId v s1 ≠ 0 ↔ v = a ∨ v = b ∨ v = c) ∧
      (∀ i, (∃ v, getAllocSiteId v s1 = i ∧ i ≠ 0) ↔ i = 1 ∨ i = 2 ∨ i = 3) ∧
      rows.Nodup ∧
      (∀ row, row ∈ rows ↔
        row = (getAllocSiteId a s1, nab.getId) ∨ row = (getAllocSiteId b s1, nab.getId) ∨
          row = (getAllocSiteId c s1, nc.getId)) := by
  have hstate := scenario_state h
  generalize hS : [f].foldl (fun st f => runOnFunction o f st) DsaInfo.init = S at hstate
  have hlive : live_nodes S =
      [{ m_node := nab, m_id := nab.getId, m_rep_name := "", m_accesses := 2 },
       { m_node := nc, m_id := nc.getId, m_rep_name := "", m_accesses := 1 }] := by
    rw [hstate]
    simp [live_nodes, is_alive_node, NodeWrapper.getNode, h.read_ab, h.modified_c]
  have hsites : liveSites S = [a, b, c] := by
    simp [liveSites, hlive, NodeWrapper.getNode, h.sites_ab, h.sites_c]
  have h0 : AllocSitesEmpty S := by
    rw [hstate]
    exact ⟨rfl, rfl⟩
  have hnamed : ∀ v, v ∈ liveSites S → v.hasName = true := by
    intro v hv
    rw [hsites] at hv
    simp only [List.mem_cons, List.mem_singleton, List.not_mem_nil, or_false] at hv
    rcases hv with e | e | e
    · rw [e]; exact h.named_a
    · rw [e]; exact h.named_b
    · rw [e]; exact h.named_c
  obtain ⟨r, hr⟩ := assignAllocSiteId_isSome S hnamed
  obtain ⟨done, hinv, hdone⟩ := TableInv_assignAllocSiteId S r (AllocInv_of_empty h0) hr
  obtain ⟨hA, hkeys⟩ := allocKeys_assignAllocSiteId S r h0 hr
  obtain ⟨calls, hc, _⟩ := assignAllocSiteId_calls S r hr
  have hnodes : r.1.m_nodes_map = S.m_nodes_map := by
    rw [hc]
    exact nodes_recordAllocSites calls S
  have hlen : r.1.m_alloc_sites_bimap.length = 3 := by
    have h1 : r.1.m_alloc_sites_bimap.length = (allocKeys r.1).length := by simp [allocKeys]
    have hk : (allocKeys r.1).Nodup := hA.2.1
    have h3 : ([a, b, c] : List Value).Nodup := by
      simp [h.ne_ab, h.ne_ac, h.ne_bc]
    rw [h1, length_eq_of_same_members hk h3 (fun v => by rw [hkeys, hsites])]
    rfl
  have hrec : ∀ v, getAllocSiteId v r.1 ≠ 0 ↔ v = a ∨ v = b ∨ v = c := by
    intro v
    rw [Ne, getAllocSiteId_eq_zero_iff hA, not_not, hkeys, hsites]
    simp
  refine ⟨r.1, r.2, exportRows (env.iterate r.2), ?_, ?_, ?_, ?_, ?_, hrec, ?_,
    nodup_exportRows_of_inv hinv (hiter r.2), ?_⟩
  · unfold runOnModuleToFile
    rw [hS, assignAllocSiteIdToFile_of_some env S r hr, if_pos hpath, if_pos hopen]
    rfl
  · rw [hnodes, hstate]
    simp [nodesFind]
  · rw [isAccessed, hnodes, hstate]
    simp [nodesFind, NodeWrapper.getAccesses]
  · rw [hnodes, hstate]
    have hn2 : ¬ nab = nc := h.ne_nodes
    simp [nodesFind, hn2]
  · rw [isAccessed, hnodes, hstate]
    have hn2 : ¬ nab = nc := h.ne_nodes
    simp [nodesFind, hn2, NodeWrapper.getAccesses]
  · intro i
    constructor
    · rintro ⟨v, hv, hi⟩
      have hvk : v ∈ allocKeys r.1 := by
        by_contra hc2
        exact hi (hv ▸ (getAllocSiteId_eq_zero_iff hA v).mpr hc2)
      obtain ⟨j, hj⟩ := leftFind_isSome_of_mem hvk
      have := id_range_of_leftFind hA hj
      rw [getAllocSiteId_of_leftFind hj] at hv
      omega
    · intro hi
      obtain ⟨v, hv⟩ := (rightFind_isSome_iff hA i).mpr (by omega)
      have hl := (left_iff_right hA v i).mpr hv
      exact ⟨v, getAllocSiteId_of_leftFind hl, by omega⟩
  · intro row
    rw [mem_exportRows_of_inv hinv (hiter r.2)]
    constructor
    · rintro ⟨v, w, hvw, e⟩
      obtain ⟨hw, hv⟩ := (hdone v w).mp hvw
      rw [hlive] at hw
      simp only [List.mem_cons, List.mem_singleton, List.not_mem_nil, or_false] at hw
      rcases hw with hw | hw
      · subst hw
        simp only [NodeWrapper.getNode, h.sites_ab, List.mem_cons, List.mem_singleton,
          List.not_mem_nil, or_false] at hv
        rcases hv with hv | hv
        · subst hv; exact Or.inl e
        · subst hv; exact Or.inr (Or.inl e)
      · subst hw
        simp only [NodeWrapper.getNode, h.sites_c, List.mem_singleton] at hv
        subst hv
        exact Or.inr (Or.inr e)
    · have hwab : ({ m_node := nab, m_id := nab.getId, m_rep_name := "", m_accesses := 2 } :
          NodeWrapper) ∈ live_nodes S := by rw [hlive]; simp
      have hwc : ({ m_node := nc, m_id := nc.getId, m_rep_name := "", m_accesses := 1 } :
          NodeWrapper) ∈ live_nodes S := by rw [hlive]; simp
      rintro (e | e | e)
      · exact ⟨a, _, (hdone a _).mpr ⟨hwab, by simp [NodeWrapper.getNode, h.sites_ab]⟩, e⟩
      · exact ⟨b, _, (hdone b _).mpr ⟨hwab, by simp [NodeWrapper.getNode, h.sites_ab]⟩, e⟩
      · exact ⟨c, _, (hdone c _).mpr ⟨hwc, by simp [NodeWrapper.getNode, h.sites_c]⟩, e⟩

theorem scenario_pipeline_witness :
    ∃ (s1 : DsaInfo) (t : AllocToNodesMap) (rows : List (Nat × Nat)),
      runOnModuleToFile envFile oracle1 [funS] DsaInfo.init =
        some (s1, t, some ("alloc_site,ds_node\n" ++ String.join (rows.map rowLine))) ∧
      nodesFind s1.m_nodes_map nodeAB =
        some { m_node := nodeAB, m_id := nodeAB.getId, m_rep_name := "", m_accesses := 2 } ∧
      isAccessed nodeAB s1 = true ∧
      nodesFind s1.m_nodes_map nodeC =
        some { m_node := nodeC, m_id := nodeC.getId, m_rep_name := "", m_accesses := 1 } ∧
      isAccessed nodeC s1 = true ∧
      (∀ v, getAllocSiteId v s1 ≠ 0 ↔ v = va ∨ v = vb ∨ v = vc) ∧
      (∀ i, (∃ v, getAllocSiteId v s1 = i ∧ i ≠ 0) ↔ i = 1 ∨ i = 2 ∨ i = 3) ∧
      rows.Nodup ∧
      (∀ row, row ∈ rows ↔
        row = (getAllocSiteId va s1, nodeAB.getId) ∨
          row = (getAllocSiteId vb s1, nodeAB.getId) ∨
          row = (getAllocSiteId vc s1, nodeC.getId)) :=
  scenario_pipeline envFile oracle1 va vb vc nodeAB nodeC graphS funS
    { strip_a := rfl, strip_b := rfl, strip_c := rfl, size_a := rfl, size_b := rfl,
      size_c := rfl, local_a := rfl, local_b := rfl, local_c := rfl, named_a := rfl,
      named_b := rfl, named_c := rfl, ne_ab := by decide, ne_ac := by decide,
      ne_bc := by decide, ne_nodes := by decide, sites_ab := rfl, sites_c := rfl,
      read_ab := rfl, modified_c := rfl, scalars := ⟨0, 0, 0, rfl⟩, formals := rfl,
      returns := rfl, cells := rfl, insts := rfl, graph := rfl, defined := rfl }
    (by decide) rfl (fun t => List.Perm.refl t)

/-! ## Lemmas on the stability of the wrappers -/

theorem nodesIncr_split {m : NodeWrapperMap} {n : Node} {w : NodeWrapper}
    (h : nodesFind m n = some w) :
    ∃ before after, m = before ++ (n, w) :: after ∧
      nodesIncr m n = before ++ (n, w.incr) :: after := by
  induction m with
  | nil => simp [nodesFind] at h
  | cons p m ih =>
    obtain ⟨a, x⟩ := p
    by_cases ha : a = n
    · subst ha
      simp only [nodesFind, if_true, Option.some.injEq] at h
      subst h
      exact ⟨[], m, rfl, by simp [nodesIncr]⟩
    · simp only [nodesFind, if_neg ha] at h
      obtain ⟨pre, post, e1, e2⟩ := ih h
      refine ⟨(a, x) :: pre, post, by rw [e1]; rfl, ?_⟩
      simp only [nodesIncr, if_neg ha, e2, List.cons_append]

theorem nodesInsert_extends (m : NodeWrapperMap) (n : Node) (w : NodeWrapper) :
    ∃ added, nodesInsert m n w = m ++ added := by
  unfold nodesInsert
  cases nodesFind m n with
  | some x => exact ⟨[], by simp⟩
  | none => exact ⟨[(n, w)], rfl⟩

theorem registerCells_extends (cs : List (Value × Cell)) (m : NodeWrapperMap) :
    ∃ added, cs.foldl registerCell m = m ++ added := by
  induction cs generalizing m with
  | nil => exact ⟨[], by simp⟩
  | cons c cs ih =>
    obtain ⟨a1, h1⟩ := nodesInsert_extends m c.2.getNode (NodeWrapper.mk3 c.2.getNode c.2.getNode.getId "")
    obtain ⟨a2, h2⟩ := ih (registerCell m c)
    refine ⟨a1 ++ a2, ?_⟩
    rw [List.foldl_cons, h2]
    unfold registerCell
    simp only
    rw [h1, List.append_assoc]

theorem assignNodeId_extends (fn : Function) (g : Graph) (s : DsaInfo) :
    ∃ added, assignNodeId fn g s = { s with m_nodes_map := s.m_nodes_map ++ added } := by
  obtain ⟨added, h⟩ := registerCells_extends (g.scalars ++ g.formals ++ g.returns) s.m_nodes_map
  refine ⟨added, ?_⟩
  have hm := assignNodeId_nodes fn g s
  rw [h] at hm
  cases s
  simp only [assignNodeId] at hm ⊢
  simp only [hm]

theorem alloc_recordMemAccess (o : Oracle) (v : Value) (g : Graph) (s : DsaInfo) :
    (recordMemAccess o v g s).m_alloc_sites_bimap = s.m_alloc_sites_bimap ∧
      (recordMemAccess o v g s).m_alloc_sites_set = s.m_alloc_sites_set := by
  unfold recordMemAccess
  simp only
  split
  · exact ⟨rfl, rfl⟩
  · split
    · split <;> exact ⟨rfl, rfl⟩
    · split
      · exact ⟨rfl, rfl⟩
      · split <;> exact ⟨rfl, rfl⟩

theorem alloc_foldl_recordMemAccess (o : Oracle) (g : Graph) (vs : List Value) (s : DsaInfo) :
    (vs.foldl (fun st v => recordMemAccess o v g st) s).m_alloc_sites_bimap =
        s.m_alloc_sites_bimap ∧
      (vs.foldl (fun st v => recordMemAccess o v g st) s).m_alloc_sites_set =
        s.m_alloc_sites_set := by
  induction vs generalizing s with
  | nil => exact ⟨rfl, rfl⟩
  | cons v vs ih =>
    rw [List.foldl_cons]
    obtain ⟨h1, h2⟩ := ih (recordMemAccess o v g s)
    obtain ⟨h3, h4⟩ := alloc_recordMemAccess o v g s
    exact ⟨h1.trans h3, h2.trans h4⟩

theorem recordMemAccesses_eq (o : Oracle) (f : Function) (s : DsaInfo) :
    recordMemAccesses o f s = s ∨
      ∃ g, recordMemAccesses o f s =
        (f.insts.flatMap Instruction.operands).foldl (fun st v => recordMemAccess o v g st) s := by
  cases hg : f.graph with
  | none =>
    left
    simp [recordMemAccesses, getDsaGraph, hg]
  | some g => exact Or.inr ⟨g, recordMemAccesses_of_graph o f g s hg⟩

/-- C21. Wrapper stability.  `assignNodeId` only appends wrappers: the registry it is given is
the front of the registry afterwards, every existing wrapper with its id, representative and
counter.  `recordAllocSite` and `assignAllocSiteId` leave the node registry as it is.
`recordMemAccess` leaves the node registry as it is or replaces one entry by the same wrapper
with the counter one higher, and never changes the allocation-site registry.
`recordMemAccesses`, a sequence of `recordMemAccess` calls, keeps the keys, gives every
existing wrapper a counter that is at least the old one with the same node, id and
representative, and leaves the allocation-site registry alone.  The four queries are functions
of the state that return a value and no state. -/
theorem wrapper_stability (o : Oracle) (s : DsaInfo) :
    (∀ fn g, ∃ added,
      assignNodeId fn g s = { s with m_nodes_map := s.m_nodes_map ++ added } ∧
        ∀ n w, nodesFind s.m_nodes_map n = some w →
          nodesFind (assignNodeId fn g s).m_nodes_map n = some w) ∧
    (∀ v, (recordAllocSite v s).2.2.m_nodes_map = s.m_nodes_map) ∧
    (∀ r, assignAllocSiteId s = some r → r.1.m_nodes_map = s.m_nodes_map) ∧
    (∀ v g,
      ((recordMemAccess o v g s).m_nodes_map = s.m_nodes_map ∨
        ∃ before n w after, s.m_nodes_map = before ++ (n, w) :: after ∧
          (recordMemAccess o v g s).m_nodes_map =
            before ++ (n, { w with m_accesses := w.m_accesses + 1 }) :: after) ∧
      (recordMemAccess o v g s).m_alloc_sites_bimap = s.m_alloc_sites_bimap ∧
      (recordMemAccess o v g s).m_alloc_sites_set = s.m_alloc_sites_set) ∧
    (∀ f,
      (recordMemAccesses o f s).m_nodes_map.map Prod.fst = s.m_nodes_map.map Prod.fst ∧
      (∀ n w, nodesFind s.m_nodes_map n = some w →
        ∃ k, nodesFind (recordMemAccesses o f s).m_nodes_map n =
          some { w with m_accesses := w.m_accesses + k }) ∧
      (recordMemAccesses o f s).m_alloc_sites_bimap = s.m_alloc_sites_bimap ∧
      (recordMemAccesses o f s).m_alloc_sites_set = s.m_alloc_sites_set) := by
  refine ⟨?_, ?_, ?_, ?_, ?_⟩
  · intro fn g
    obtain ⟨added, h⟩ := assignNodeId_extends fn g s
    refine ⟨added, h, ?_⟩
    intro n w hw
    rw [nodesFind_assignNodeId, hw]
  · intro v
    exact nodes_recordAllocSites [v] s
  · intro r hr
    obtain ⟨calls, hc, _⟩ := assignAllocSiteId_calls s r hr
    rw [hc]
    exact nodes_recordAllocSites calls s
  · intro v g
    refine ⟨?_, alloc_recordMemAccess o v g s⟩
    rcases recordMemAccess_cases o v g s with ⟨n, _, hsome, h⟩ | ⟨_, h⟩
    · right
      cases hf : nodesFind s.m_nodes_map n with
      | none => rw [hf] at hsome; exact Bool.noConfusion hsome
      | some w =>
        obtain ⟨pre, post, e1, e2⟩ := nodesIncr_split hf
        exact ⟨pre, n, w, post, e1, by rw [h]; exact e2⟩
    · exact Or.inl h
  · intro f
    rcases recordMemAccesses_eq o f s with h | ⟨g, h⟩
    · rw [h]
      refine ⟨rfl, ?_, rfl, rfl⟩
      intro n w hw
      exact ⟨0, by rw [hw]; cases w; rfl⟩
    · rw [h]
      refine ⟨keys_foldl_recordMemAccess o g _ s, ?_, alloc_foldl_recordMemAccess o g _ s⟩
      intro n w hw
      refine ⟨(f.insts.flatMap Instruction.operands).countP (accountedTo o g n), ?_⟩
      rw [nodesFind_foldl_recordMemAccess, hw]
      rfl

theorem wrapper_stability_witness :
    nodesFind state1.m_nodes_map node1 = some (NodeWrapper.mk3 node1 5 "") ∧
      assignAllocSiteId state2 =
        some ({ state2 with m_alloc_sites_bimap := [(va, 1)], m_alloc_sites_set := [1] },
          [(va, (1, [NodeWrapper.mk3 node3 2 ""]))]) ∧
      nodesFind (assignNodeId fun1 graph1 state1).m_nodes_map node1 =
        some (NodeWrapper.mk3 node1 5 "") ∧
      (({ state2 with m_alloc_sites_bimap := [(va, 1)], m_alloc_sites_set := [1] },
          [(va, (1, [NodeWrapper.mk3 node3 2 ""]))]) :
        DsaInfo × AllocToNodesMap).1.m_nodes_map = state2.m_nodes_map ∧
      ∃ k, nodesFind (recordMemAccesses oracle1 fun1 state1).m_nodes_map node1 =
        some { NodeWrapper.mk3 node1 5 "" with
          m_accesses := (NodeWrapper.mk3 node1 5 "").m_accesses + k } :=
  ⟨by decide, by decide,
   match (wrapper_stability oracle1 state1).1 fun1 graph1 with
   | ⟨_, _, h⟩ => h node1 (NodeWrapper.mk3 node1 5 "") (by decide),
   (wrapper_stability oracle1 state2).2.2.1 _ (by decide),
   ((wrapper_stability oracle1 state1).2.2.2.2 fun1).2.1 node1 (NodeWrapper.mk3 node1 5 "")
     (by decide)⟩

end sea_dsa
